import Mathlib

/-!
Verification of the QMTest execution engine (src/qm/test/execution_engine.py)
and the remote-shell target (src/qm/test/classes/rsh_target.py).

The engine schedules tests with prerequisite constraints over a set of
targets, collects results from a shared response queue, and synthesizes
UNTESTED results for tests that cannot run.  The definitions below are a
shallow embedding of that code: each Python method becomes a Lean function
over an explicit state record, and the asynchronous parts (targets
completing assignments, external termination requests) are driven by an
explicit environment of oracle functions, so that a whole run is a
deterministic, executable function of its inputs.
-/

namespace QMTest

/-- Test/resource outcomes, mirroring the constants PASS, FAIL, ERROR and
UNTESTED of the Result class.  (result.py is not under src/; the outcome
enumeration is taken from the spec's data model, which lists exactly these
four values.) -/
inductive Outcome where
  | pass
  | fail
  | error
  | untested
deriving Repr, DecidableEq

/-- The string constant each outcome stands for in the Python source
(Result.PASS is the string "PASS", and so on). -/
def Outcome.str : Outcome → String
  | .pass => "PASS"
  | .fail => "FAIL"
  | .error => "ERROR"
  | .untested => "UNTESTED"

/-- Result kinds, mirroring Result.TEST and Result.RESOURCE, the two kinds
_AddResult accepts (execution_engine.py lines 398-403). -/
inductive RKind where
  | TEST
  | RESOURCE
deriving Repr, DecidableEq

/-- Modelled from the spec: result.py is not under src/.  Per the spec's
data model, a Result carries a kind, an id, an outcome, an annotation map
that includes a human-readable cause, and optionally the name of the
target that produced it. -/
structure Result where
  kind : RKind
  id : String
  outcome : Outcome
  cause : Option String
  annotations : List (String × String)
  targetName : Option String
deriving Repr, DecidableEq

/-- Modelled from the spec: the TestDescriptor class is not under src/.
Per the spec's data model, a descriptor has an id, a map from prerequisite
test id to required outcome (GetPrerequisites), and a target-group label
(GetTargetGroup).  The prerequisite map is modelled as an association list
with distinct keys. -/
structure Descriptor where
  id : String
  prereqs : List (String × Outcome)
  targetGroup : String
deriving Repr, DecidableEq

/-- Modelled from the spec: target.py is not under src/.  A target has a
name (GetName), a group-eligibility test (IsInGroup, modelled as
membership of the group label in a list) and a concurrency capacity; it
is idle exactly when it can accept at least one more concurrent
assignment. -/
structure TargetSpec where
  name : String
  groups : List String
  concurrency : Nat
deriving Repr, DecidableEq

/-- Modelled from the spec: the qm.message diagnostic catalog is not under
src/; the spec quotes the engine's causes by their tags ("failed
prerequisite", "dependency cycle", "execution terminated"), so the catalog
is modelled as the identity on the tag. -/
def qmMessage (tag : String) : String := tag

/-- A node of the descriptor graph: the pair [count, edge list] built at
lines 157-184 of execution_engine.py.  The count is the number of
not-yet-satisfied prerequisites (a Python int, hence modelled as an
integer so that claims about negativity are meaningful); each edge is a
(dependent test id, required outcome) pair. -/
structure GNode where
  count : Int
  edges : List (String × Outcome)
deriving Repr, DecidableEq

/-- First-match association-list lookup, the behavior of a Python dict
lookup for the id-keyed dictionaries of the engine. -/
def assocFind {α : Type} (k : String) : List (String × α) → Option α
  | [] => none
  | (k', v) :: rest => if k' = k then some v else assocFind k rest

/-- Python dict insertion d[k] = v: replace the existing entry in place,
or append a new one. -/
def assocReplace {α : Type} (k : String) (v : α) : List (String × α) → List (String × α)
  | [] => [(k, v)]
  | (k', v') :: rest => if k' = k then (k, v) :: rest else (k', v') :: assocReplace k v rest

/-- Update the entry at key k with f, leaving other entries alone (the
effect of mutating a value found in a Python dict). -/
def assocModify {α : Type} (k : String) (f : α → α) : List (String × α) → List (String × α)
  | [] => []
  | (k', v') :: rest => if k' = k then (k', f v') :: rest else (k', v') :: assocModify k f rest

/-- The mutable state of an ExecutionEngine object (execution_engine.py
lines 70-96), together with the response queue, the in-flight assignments
held by targets, per-target load counts, and bookkeeping logs (dispatched
tests and decrement-caused ready insertions) used to state the theorems.
The clock and iter counters index the oracle functions of the
environment. -/
structure EngineState where
  descriptors : List (String × Descriptor)
  graph : List (String × GNode)
  pending : List String
  ready : List String
  idleTargets : List String
  loads : List (String × Nat)
  inFlight : List (String × String)
  queue : List Result
  testResults : List (String × Result)
  resourceResults : List Result
  stream : List Result
  dispatched : List String
  readyLog : List String
  terminated : Bool
  clock : Nat
  iter : Nat
deriving Repr, DecidableEq

/-- The initial engine state (execution_engine.py lines 79-96): all
targets idle, no responses, no pending or ready tests, empty graph, no
results, termination not requested. -/
def initState (ts : List TargetSpec) : EngineState :=
  { descriptors := []
    graph := []
    pending := []
    ready := []
    idleTargets := ts.map (·.name)
    loads := []
    inFlight := []
    queue := []
    testResults := []
    resourceResults := []
    stream := []
    dispatched := []
    readyLog := []
    terminated := false
    clock := 0
    iter := 0 }

/-- The prerequisite count of a node (node[0] in the source).  Ids absent
from the graph would raise KeyError in Python; such lookups are
unreachable in the modelled runs and default to 0. -/
def countOf (st : EngineState) (id : String) : Int :=
  ((assocFind id st.graph).map (·.count)).getD 0

/-- The dependent edges of a node (node[1] in the source). -/
def edgesOf (st : EngineState) (id : String) : List (String × Outcome) :=
  ((assocFind id st.graph).map (·.edges)).getD []

/-- Overwrite the prerequisite count of a node (n[0] = c). -/
def setCount (st : EngineState) (id : String) (c : Int) : EngineState :=
  { st with graph := assocModify id (fun n => { n with count := c }) st.graph }

/-- Append a dependent edge to a node (node[1].append(...), line 179). -/
def appendEdge (st : EngineState) (id : String) (e : String × Outcome) : EngineState :=
  { st with graph := assocModify id (fun n => { n with edges := n.edges ++ [e] }) st.graph }

/-- The number of assignments currently held by the named target. -/
def loadOf (st : EngineState) (n : String) : Nat :=
  (assocFind n st.loads).getD 0

/-- Modelled from the spec: Target.IsIdle (target.py is not under src/)
is true iff the target can accept at least one more concurrent
assignment, i.e. its current load is below its concurrency. -/
def targetIsIdle (st : EngineState) (t : TargetSpec) : Bool :=
  loadOf st t.name < t.concurrency

/-- The environment of a run: everything outside the engine object.
getTest is the database (None models GetTest raising, line 163);
outcomeOf gives the actual outcome each dispatched test produces;
deliver and force choose which in-flight assignment completes and is
enqueued at each poll of the response queue; termAt tells when an
external RequestTermination call lands. -/
structure Env where
  getTest : String → Option Descriptor
  outcomeOf : String → Outcome
  deliver : Nat → Option Nat
  force : Nat → Nat
  termAt : Nat → Bool

/-- A test result as produced by a target finishing an assignment: it
carries the test kind, the id, the outcome of the run and the name of
the producing target. -/
def mkTestResult (id : String) (oc : Outcome) (tname : String) : Result :=
  { kind := RKind.TEST
    id := id
    outcome := oc
    cause := none
    annotations := []
    targetName := some tname }

/-- The target the name in a result refers to (_AddResult lines 383-391).
A result with no TARGET key yields no target.  The Python for-loop that
performs the named lookup leaves the loop variable bound to the last
element when no name matches, so that case yields the last target; it is
unreachable in the modelled runs, where every named result comes from a
real target. -/
def findTargetForResult (ts : List TargetSpec) (r : Result) : Option TargetSpec :=
  match r.targetName with
  | none => none
  | some tn =>
    match ts.find? (fun t => t.name = tn) with
    | some t => some t
    | none => ts.getLast?

/-- The result storage of _AddResult (lines 397-403): a TEST result
overwrites the per-id entry of the results dictionary, a RESOURCE result
is appended to the resource-result list. -/
def storeResult (st : EngineState) (r : Result) : EngineState :=
  match r.kind with
  | RKind.TEST => { st with testResults := assocReplace r.id r st.testResults }
  | RKind.RESOURCE => { st with resourceResults := st.resourceResults ++ [r] }

/-- The idle-list update of _AddResult (lines 405-411): the target the
result came from, if any, rejoins the idle list when it is now idle and
not already listed. -/
def noteIdleTarget (ts : List TargetSpec) (st : EngineState) (r : Result) : EngineState :=
  match findTargetForResult ts r with
  | some t =>
    if t.name ∉ st.idleTargets ∧ targetIsIdle st t then
      { st with idleTargets := st.idleTargets ++ [t.name] }
    else st
  | none => st

/-- ExecutionEngine._AddResult (lines 372-419): store the result by
kind, re-add the producing target to the idle list when it is idle and
not already listed, and write the result to every result stream
(modelled as appending to the stream log), in source order. -/
def addResult (ts : List TargetSpec) (st : EngineState) (r : Result) : EngineState :=
  let st1 := storeResult st r
  let st2 := noteIdleTarget ts st1 r
  { st2 with stream := st2.stream ++ [r] }

/-- ExecutionEngine._AddUntestedResult (lines 422-435): an UNTESTED test
result with the given cause and annotations, and no associated target. -/
def addUntestedResult (ts : List TargetSpec) (st : EngineState)
    (testName : String) (cause : String) (annots : List (String × String)) : EngineState :=
  addResult ts st
    { kind := RKind.TEST
      id := testName
      outcome := Outcome.untested
      cause := some cause
      annotations := annots
      targetName := none }

/-- Remove the first occurrence of an id from the pending list
(self.__pending.remove, which removes the first matching element). -/
def removePending (st : EngineState) (id : String) : EngineState :=
  { st with pending := st.pending.erase id }

/-- Append a test to the ready queue (self.__ready.append, line 369) and
log the insertion; the log only serves the stated theorems. -/
def pushReady (st : EngineState) (id : String) : EngineState :=
  { st with ready := st.ready ++ [id], readyLog := st.readyLog ++ [id] }

/-- The body of the edge loop of _UpdateDependentTests (lines 333-369),
processing the dependent edges of one node in order.  The recursive call
of line 356 (propagation to the dependents of a cancelled dependent) is
abstracted as the function argument rec, which the driver cascade below
instantiates with itself at smaller fuel.

For each edge (d, o): if the dependent's count is already zero, skip
(lines 338-339).  If the actual outcome differs from the required one,
zero the count, then try to remove the dependent from pending: on
success, record an UNTESTED "failed prerequisite" result with the
annotations of lines 351-354 and recurse on the dependent with outcome
UNTESTED; if the dependent is not pending the ValueError handler skips
the rest of the block (lines 357-361).  Otherwise decrement the count
and, if it reached zero, append the dependent to the ready queue. -/
def goEdges (ts : List TargetSpec) (rec : EngineState → String → EngineState) :
    EngineState → List (String × Outcome) → String → Outcome → EngineState
  | st, [], _, _ => st
  | st, (d, o) :: rest, descId, oc =>
    if countOf st d = 0 then
      goEdges ts rec st rest descId oc
    else if oc ≠ o then
      let st1 := setCount st d 0
      if d ∈ st1.pending then
        let st2 := removePending st1 d
        let st3 := addUntestedResult ts st2 d (qmMessage "failed prerequisite")
          [("qmtest.prequisite", descId), ("qmtest.outcome", oc.str),
           ("qmtest.expected_outcome", o.str)]
        let st4 := rec st3 d
        goEdges ts rec st4 rest descId oc
      else
        goEdges ts rec st1 rest descId oc
    else
      let c := countOf st d
      let st1 := setCount st d (c - 1)
      let st2 := if c - 1 = 0 then pushReady st1 d else st1
      goEdges ts rec st2 rest descId oc

/-- Fueled driver for the recursion of _UpdateDependentTests.  Each
nested propagation is preceded by a removal from the pending list and
the pending list never grows, so a fuel of the pending length plus one
makes the fuel-exhaustion branch unreachable. -/
def cascade (ts : List TargetSpec) : Nat → EngineState → String → Outcome → EngineState
  | 0, st, _, _ => st
  | fuel + 1, st, descId, oc =>
    goEdges ts (fun s i => cascade ts fuel s i Outcome.untested) st (edgesOf st descId) descId oc

/-- ExecutionEngine._UpdateDependentTests (lines 320-369). -/
def updateDependentTests (ts : List TargetSpec) (st : EngineState)
    (descId : String) (oc : Outcome) : EngineState :=
  cascade ts (st.pending.length + 1) st descId oc

/-- A target finishes the assignment at position i (modulo the number of
in-flight assignments): the assignment leaves the in-flight list, the
target's load drops, and the test result is pushed onto the response
queue.  This is the completion bookkeeping that target worker threads
perform concurrently with the engine; the environment chooses i. -/
def completeAt (env : Env) (st : EngineState) (i : Nat) : EngineState :=
  match st.inFlight with
  | [] => st
  | x :: xs =>
    let l := x :: xs
    let j := i % l.length
    let a := l.get ⟨j, Nat.mod_lt _ (by simp [l])⟩
    { st with
      inFlight := l.eraseIdx j
      loads := assocReplace a.2 ((loadOf st a.2) - 1) st.loads
      queue := st.queue ++ [mkTestResult a.1 (env.outcomeOf a.1) a.2] }

/-- Handling of one dequeued response (_CheckForResponse lines 296-313):
record it with _AddResult and, for a TEST result, propagate through the
dependents of its descriptor.  The descriptor lookup of line 310 can only
be reached for ids the engine dispatched, which are all in the
descriptors dictionary; a missing id would raise KeyError in Python and
is modelled as a no-op. -/
def processResult (ts : List TargetSpec) (st : EngineState) (r : Result) :
    EngineState :=
  if r.kind = RKind.TEST then
    match assocFind r.id (addResult ts st r).descriptors with
    | some _ => updateDependentTests ts (addResult ts st r) r.id r.outcome
    | none => addResult ts st r
  else addResult ts st r

/-- The three ways a poll of the response queue can end: a response was
received and handled, the non-blocking poll found nothing, or a blocking
poll can never be answered (nothing in flight), in which case the Python
thread blocks forever. -/
inductive CheckOut where
  | got (st : EngineState)
  | nothing (st : EngineState)
  | blockedForever (st : EngineState)
deriving Repr, DecidableEq

/-- The poll clock tick: each call of _CheckForResponse is a new chance
for a concurrently running target to have finished. -/
def bumpClock (st : EngineState) : EngineState := { st with clock := st.clock + 1 }

/-- The environment's choice of whether some target thread finished an
assignment just before the engine polled its response queue. -/
def maybeDeliver (env : Env) (st : EngineState) : EngineState :=
  match env.deliver st.clock with
  | some i => completeAt env st i
  | none => st

/-- The blocking wait of Queue.get(block = True): the engine sleeps until
a target thread pushes a response (the environment's force choice says
which in-flight assignment completes), or forever when nothing is in
flight to ever push one. -/
def waitPhase (env : Env) (ts : List TargetSpec) (st : EngineState) : CheckOut :=
  match st.inFlight with
  | [] => CheckOut.blockedForever st
  | _ :: _ =>
    match (completeAt env st (env.force st.clock)).queue with
    | r :: rest =>
      CheckOut.got (processResult ts
        { completeAt env st (env.force st.clock) with queue := rest } r)
    | [] => CheckOut.blockedForever (completeAt env st (env.force st.clock))

/-- The queue poll proper: a non-empty queue yields its head; an empty
queue returns nothing in non-blocking mode and waits in blocking mode. -/
def pollPhase (env : Env) (ts : List TargetSpec) (wait : Bool) (st : EngineState) :
    CheckOut :=
  match st.queue with
  | r :: rest => CheckOut.got (processResult ts { st with queue := rest } r)
  | [] => if wait then waitPhase env ts st else CheckOut.nothing st

/-- ExecutionEngine._CheckForResponse (lines 286-317).  The environment
may first complete one in-flight assignment (a target finishing
concurrently).  Then: a non-empty queue yields its head; an empty queue
returns nothing in non-blocking mode; in blocking mode the engine waits
until an in-flight assignment completes (the environment's force choice),
or blocks forever when nothing is in flight. -/
def checkForResponse (env : Env) (ts : List TargetSpec) (wait : Bool) (st : EngineState) :
    CheckOut :=
  pollPhase env ts wait (maybeDeliver env (bumpClock st))

/-- Whether target.IsInGroup(descriptor.GetTargetGroup()) holds for the
named ready test and idle target (line 222). -/
def canRunOn (st : EngineState) (ts : List TargetSpec) (descId tn : String) : Bool :=
  match assocFind descId st.descriptors with
  | some d =>
    match ts.find? (fun t => t.name = tn) with
    | some t => decide (d.targetGroup ∈ t.groups)
    | none => false
  | none => false

/-- The inner scan over the idle targets for one ready test. -/
def findIdleFor (st : EngineState) (ts : List TargetSpec) (descId : String) :
    List String → Option String
  | [] => none
  | tn :: rest =>
    if canRunOn st ts descId tn then some tn else findIdleFor st ts descId rest

/-- The outer scan over the ready tests. -/
def findMatchGo (st : EngineState) (ts : List TargetSpec) :
    List String → Option (String × String)
  | [] => none
  | descId :: rest =>
    match findIdleFor st ts descId st.idleTargets with
    | some tn => some (descId, tn)
    | none => findMatchGo st ts rest

/-- The first (ready test, idle target) pair the dispatch scan of lines
220-222 settles on: ready tests are scanned in ready-list order and the
idle targets in idle-list order, and the first pair whose target is in
the test's target group wins (the Python loops break out of both levels
as soon as they commit to a pair). -/
def findMatch (st : EngineState) (ts : List TargetSpec) : Option (String × String) :=
  findMatchGo st ts st.ready

/-- Dispatch one test to one target (target.RunTest, line 245): the
assignment joins the in-flight list, the target's load rises, and the
dispatch is logged. -/
def runTestOn (st : EngineState) (descId : String) (tn : String) : EngineState :=
  { st with
    inFlight := st.inFlight ++ [(descId, tn)]
    loads := assocReplace tn ((loadOf st tn) + 1) st.loads
    dispatched := st.dispatched ++ [descId] }

/-- The dispatch scan of one loop iteration (lines 219-261), returning
the updated state and the wait flag.  When a pair is found the test
leaves the ready list; if it is still pending it leaves the pending list
and is dispatched, and its target leaves the idle list when the dispatch
made it busy; if it is no longer pending (it was pulled off earlier,
e.g. when breaking a dependency cycle) the ValueError handler of lines
229-238 skips the dispatch.  Either way wait becomes false; when no pair
matches, wait stays true. -/
def dispatchScan (st : EngineState) (ts : List TargetSpec) : EngineState × Bool :=
  match findMatch st ts with
  | none => (st, true)
  | some (descId, tn) =>
    let st := { st with ready := st.ready.erase descId }
    if descId ∈ st.pending then
      let st := { st with pending := st.pending.erase descId }
      let st := runTestOn st descId tn
      let notIdle :=
        match ts.find? (fun t => t.name = tn) with
        | some t => ! targetIsIdle st t
        | none => false
      let st := if notIdle then { st with idleTargets := st.idleTargets.erase tn } else st
      (st, false)
    else
      (st, false)

/-- The possible ends of one iteration of the dispatch loop. -/
inductive IterOut where
  | exit (st : EngineState)
  | next (st : EngineState)
  | stuck (st : EngineState)
deriving Repr, DecidableEq

/-- The termination-flag poll at the loop condition of line 188: an
external RequestTermination call (line 106) may have landed since the
previous iteration; the environment says when. -/
def pollTerm (env : Env) (st : EngineState) : EngineState :=
  { st with
    terminated := st.terminated || env.termAt st.iter
    iter := st.iter + 1 }

/-- The body of one loop iteration after the termination poll. -/
def loopIterCore (env : Env) (ts : List TargetSpec) (st : EngineState) : IterOut :=
  if st.pending = [] ∧ st.ready = [] then IterOut.exit st
  else if st.terminated then IterOut.exit st
  else if st.idleTargets = [] then
    match checkForResponse env ts true st with
    | CheckOut.got st' => IterOut.next st'
    | CheckOut.nothing st' => IterOut.next st'
    | CheckOut.blockedForever st' => IterOut.stuck st'
  else if st.ready = [] ∧ st.idleTargets.length = ts.length then
    match st.pending with
    | [] => IterOut.exit st
    | p :: _ =>
      let st := removePending st p
      let st := addUntestedResult ts st p (qmMessage "dependency cycle") []
      let st := updateDependentTests ts st p Outcome.untested
      IterOut.next st
  else
    match checkForResponse env ts (dispatchScan st ts).2 (dispatchScan st ts).1 with
    | CheckOut.got st' => IterOut.next st'
    | CheckOut.nothing st' => IterOut.next st'
    | CheckOut.blockedForever st' => IterOut.stuck st'

/-- One iteration of the dispatch loop of _RunTests (lines 186-276), in
source order: exit when the worklists are empty or termination was
requested; with no idle target, block for one response; with no ready
test and every target idle, evict the head of the pending queue as a
dependency cycle (lines 202-215); otherwise scan for a dispatch and poll
the response queue, blocking only if the scan achieved nothing. -/
def loopIter (env : Env) (ts : List TargetSpec) (st : EngineState) : IterOut :=
  loopIterCore env ts (pollTerm env st)

/-- The possible ends of the whole dispatch loop: normal exit, the engine
thread blocked forever on the response queue, or fuel exhaustion (the
modelling artifact standing for a loop that has not yet finished). -/
inductive LoopOut where
  | done (st : EngineState)
  | hung (st : EngineState)
  | fuelOut (st : EngineState)
deriving Repr, DecidableEq

/-- The dispatch loop of _RunTests, iterated with fuel. -/
def runLoop (env : Env) (ts : List TargetSpec) : Nat → EngineState → LoopOut
  | 0, st => LoopOut.fuelOut st
  | fuel + 1, st =>
    match loopIter env ts st with
    | IterOut.exit st' => LoopOut.done st'
    | IterOut.next st' => runLoop env ts fuel st'
    | IterOut.stuck st' => LoopOut.hung st'

/-- The marking after the loop (lines 278-283): unless termination was
requested, record an UNTESTED "execution terminated" result for every
test still pending. -/
def epilogue (ts : List TargetSpec) (st : EngineState) : EngineState :=
  if st.terminated then st
  else st.pending.foldl
    (fun s p => addUntestedResult ts s p (qmMessage "execution terminated") []) st

/-- The result recorded for a test whose descriptor could not be loaded
(lines 167-171): Result(TEST, id, context) followed by
NoteException(cause = "Could not load test.", outcome = UNTESTED).
NoteException is modelled from the spec (result.py is not under src/):
it records the failure cause and sets the given outcome. -/
def loadFailureResult (id : String) : Result :=
  { kind := RKind.TEST
    id := id
    outcome := Outcome.untested
    cause := some "Could not load test."
    annotations := []
    targetName := none }

/-- Node creation (lines 161-171): for each requested id, load the
descriptor and enter it into the descriptors dictionary, the graph (with
count 0 and no edges) and the pending list; on a load failure record the
UNTESTED result immediately instead. -/
def createNodes (env : Env) (ts : List TargetSpec) (testIds : List String)
    (st0 : EngineState) : EngineState :=
  testIds.foldl
    (fun st id =>
      match env.getTest id with
      | some d =>
        { st with
          descriptors := assocReplace id d st.descriptors
          graph := assocReplace id { count := 0, edges := [] } st.graph
          pending := st.pending ++ [id] }
      | none => addResult ts st (loadFailureResult id))
    st0

/-- Edge creation for one descriptor (lines 174-184): each prerequisite
entry adds an edge from the prerequisite's node to this one, looking the
prerequisite up in the descriptors dictionary -- a missing prerequisite
raises KeyError, modelled as returning the offending id.  A descriptor
with prerequisites gets their number as its count; one with none goes
straight to the ready list. -/
def addEdgesFor (st : EngineState) (descId : String) : EngineState × Option String :=
  match assocFind descId st.descriptors with
  | none => (st, some descId)
  | some d =>
    if d.prereqs = [] then ({ st with ready := st.ready ++ [descId] }, none)
    else
      let rec go (st : EngineState) : List (String × Outcome) → EngineState × Option String
        | [] => (setCount st descId (d.prereqs.length : Int), none)
        | (p, oc) :: rest =>
          match assocFind p st.descriptors with
          | some _ => go (appendEdge st p (descId, oc)) rest
          | none => (st, some p)
      go st d.prereqs

/-- The edge-creation loop over the pending descriptors (lines 174-184);
the first KeyError aborts it, leaving the state reached so far. -/
def createEdgesGo : EngineState → List String → EngineState × Option String
  | st, [] => (st, none)
  | st, descId :: rest =>
    match addEdgesFor st descId with
    | (st, none) => createEdgesGo st rest
    | (st, some e) => (st, some e)

/-- How _RunTests ends: a normal return, an uncaught exception (the
KeyError of line 178, carrying the missing prerequisite id), the engine
thread blocked forever, or fuel exhaustion. -/
inductive RTExit where
  | normal
  | raised (e : String)
  | blocked
  | fuelOut
deriving Repr, DecidableEq

/-- ExecutionEngine._RunTests (lines 147-283): create the nodes, create
the edges (possibly raising KeyError), run the dispatch loop, and mark
any remaining pending tests. -/
def runTestsModel (env : Env) (ts : List TargetSpec) (testIds : List String)
    (fuel : Nat) : EngineState × RTExit :=
  let st := createNodes env ts testIds (initState ts)
  match createEdgesGo st st.pending with
  | (st, some e) => (st, RTExit.raised e)
  | (st, none) =>
    match runLoop env ts fuel st with
    | LoopOut.done st => (epilogue ts st, RTExit.normal)
    | LoopOut.hung st => (st, RTExit.blocked)
    | LoopOut.fuelOut st => (st, RTExit.fuelOut)

/-- Modelled from the spec: stopping one target (target.py is not under
src/).  Per the target contract, Stop causes in-flight work to finish and
the worker threads to be joined, so every assignment the target still
holds completes and its result reaches the response queue before Stop
returns. -/
def completeAllOf (env : Env) (st : EngineState) (tn : String) : EngineState :=
  let mine := st.inFlight.filter (fun a => a.2 = tn)
  { st with
    inFlight := st.inFlight.filter (fun a => ¬ a.2 = tn)
    loads := assocReplace tn 0 st.loads
    queue := st.queue ++ mine.map (fun a => mkTestResult a.1 (env.outcomeOf a.1) a.2) }

/-- The target-stopping loop of Run (lines 131-134). -/
def stopAllTargets (env : Env) (ts : List TargetSpec) (st : EngineState) : EngineState :=
  ts.foldl (fun s t => completeAllOf env s t.name) st

/-- The final drain of Run (lines 136-139): read responses without
blocking until there are no more. -/
def drainAll (env : Env) (ts : List TargetSpec) : Nat → EngineState → EngineState
  | 0, st => st
  | fuel + 1, st =>
    match checkForResponse env ts false st with
    | CheckOut.got st' => drainAll env ts fuel st'
    | CheckOut.nothing st' => st'
    | CheckOut.blockedForever st' => st'

/-- The externally visible lifecycle events of Run: Start and Stop calls
on targets and Summarize calls on result streams (each stream identified
by its registration index). -/
inductive REvent where
  | started (n : String)
  | stopped (n : String)
  | summarized (i : Nat)
deriving Repr, DecidableEq

/-- What a whole Run produces: the final engine state, the way _RunTests
ended, the lifecycle event trace, and the value Run returns to its
caller. -/
structure RunOut where
  st : EngineState
  exit : RTExit
  events : List REvent
  ret : Option Nat
deriving Repr, DecidableEq

/-- The value Run returns: its body (lines 117-144) contains no return
statement, so the Python function returns None. -/
def runReturnValue : Option Nat := none

/-- ExecutionEngine.Run (lines 117-144): start every target, run
_RunTests, and in a finally block stop every target, drain the response
queue without blocking until it is empty, and call Summarize on every
result stream -- also when _RunTests raised.  If the engine thread
blocks forever inside _RunTests (or the fuel runs out in the model), the
finally block is never reached. -/
def RunModel (env : Env) (ts : List TargetSpec) (testIds : List String)
    (numStreams : Nat) (fuel : Nat) : RunOut :=
  let starts := ts.map (fun t => REvent.started t.name)
  let (st, exit) := runTestsModel env ts testIds fuel
  match exit with
  | RTExit.blocked => { st := st, exit := exit, events := starts, ret := none }
  | RTExit.fuelOut => { st := st, exit := exit, events := starts, ret := none }
  | _ =>
    let st := stopAllTargets env ts st
    let st := drainAll env ts (st.queue.length + 1) st
    let events := starts ++ ts.map (fun t => REvent.stopped t.name)
      ++ (List.range numStreams).map REvent.summarized
    { st := st, exit := exit, events := events, ret := runReturnValue }

/-! ## The remote-shell target (src/qm/test/classes/rsh_target.py) -/

/-- A value serialized over the command pipe with cPickle: either a bare
string (only the "Stop" sentinel is ever sent this way, line 129) or a
command tuple (tag, id, context) as at lines 74, 92 and 110.  The opaque
context object is modelled by a number.  The two shapes are distinct
constructors, hence distinguishable by type as the wire protocol
requires. -/
inductive PickleValue where
  | str (s : String)
  | cmd (tag : String) (id : String) (ctx : Nat)
deriving Repr, DecidableEq

/-- One command/reply exchange over the pipes, as the environment sees
it: whether writing a given value succeeds, and the reply a read
produces (none when the read raises, e.g. on a closed pipe or a pickle
error). -/
structure Wire where
  dumpOk : PickleValue → Bool
  loadReply : Option Result

/-- Modelled from the spec: Result.NoteException (result.py is not under
src/).  Per the spec's failure semantics a synthesized result must carry
the failure cause; NoteException records the exception description as
the cause and sets the outcome, which defaults to ERROR when the caller
gives none (the engine's load-failure path passes UNTESTED explicitly,
the rsh paths pass nothing). -/
def noteException (r : Result) (cause : Option String) (oc : Outcome) : Result :=
  { r with outcome := oc, cause := some (cause.getD "An exception occurred.") }

/-- Modelled from the spec: the Result.ACTION annotation key used at
rsh_target.py lines 98 and 116 (result.py is not under src/); only the
presence of the setup/cleanup marker matters to the claims, not the
exact key string. -/
def resultActionKey : String := "action"

/-- The result RSHThread._RunTest synthesizes when the exchange fails
(lines 78-80): Result(Result.TEST, test_id, context) followed by a
NoteException() with default outcome ERROR. -/
def rshSynthTest (testId : String) : Result :=
  noteException
    { kind := RKind.TEST
      id := testId
      outcome := Outcome.pass
      cause := none
      annotations := []
      targetName := none }
    none Outcome.error

/-- The result RSHThread._SetUpResource or _CleanUpResource synthesizes
when the exchange fails (lines 96-99 and 114-117):
Result(Result.RESOURCE, resource_id, context, Result.ERROR,
\x7b Result.ACTION : action \x7d) followed by NoteException() with
default outcome ERROR. -/
def rshSynthResource (rid : String) (action : String) : Result :=
  noteException
    { kind := RKind.RESOURCE
      id := rid
      outcome := Outcome.error
      cause := none
      annotations := [(resultActionKey, action)]
      targetName := none }
    none Outcome.error

/-- RSHThread._RunTest (lines 67-82): dump the ("RunTest", test_id,
context) tuple and load one reply; if either step raises, synthesize the
ERROR result instead.  The returned result is what RecordResult passes
back to the target (line 82). -/
def rshRunTest (w : Wire) (testId : String) (ctx : Nat) : Result :=
  if w.dumpOk (PickleValue.cmd "RunTest" testId ctx) then
    match w.loadReply with
    | some r => r
    | none => rshSynthTest testId
  else rshSynthTest testId

/-- RSHThread._SetUpResource (lines 85-100). -/
def rshSetUpResource (w : Wire) (rid : String) (ctx : Nat) : Result :=
  if w.dumpOk (PickleValue.cmd "SetUpResource" rid ctx) then
    match w.loadReply with
    | some r => r
    | none => rshSynthResource rid "setup"
  else rshSynthResource rid "setup"

/-- RSHThread._CleanUpResource (lines 103-118). -/
def rshCleanUpResource (w : Wire) (rid : String) (ctx : Nat) : Result :=
  if w.dumpOk (PickleValue.cmd "CleanUpResource" rid ctx) then
    match w.loadReply with
    | some r => r
    | none => rshSynthResource rid "cleanup"
  else rshSynthResource rid "cleanup"

/-- The observable actions of the parent-side Stop path of the rsh
target. -/
inductive RshEvent where
  | sent (v : PickleValue)
  | closedWriteFile
  | closedReadFile
  | joinedThread
  | waitedForChild
deriving Repr, DecidableEq

/-- RSHThread._Stop (lines 121-137): try to dump the bare string "Stop"
(a failure, e.g. a pipe closed by the child, is swallowed by the
exception handler), then close the write file and the read file. -/
def rshThreadStop (dumpOk : PickleValue → Bool) : List RshEvent :=
  (if dumpOk (PickleValue.str "Stop") then [RshEvent.sent (PickleValue.str "Stop")] else [])
    ++ [RshEvent.closedWriteFile, RshEvent.closedReadFile]

/-- RSHTarget.Stop (lines 323-332): stop the thread -- which makes the
thread run _Stop before exiting (CommandThread is modelled from the
spec, target.py not being under src/) -- join it, and wait for the child
process with os.waitpid. -/
def rshTargetStop (dumpOk : PickleValue → Bool) : List RshEvent :=
  rshThreadStop dumpOk ++ [RshEvent.joinedThread, RshEvent.waitedForChild]

/-! ## Basic lemmas about the association-list operations -/

theorem assocFind_replace_self {α : Type} (k : String) (v : α) (l : List (String × α)) :
    assocFind k (assocReplace k v l) = some v := by
  induction l with
  | nil => simp [assocFind, assocReplace]
  | cons p rest ih =>
    by_cases h : p.1 = k
    · simp [assocReplace, assocFind, h]
    · simp [assocReplace, assocFind, h, ih]

theorem assocFind_replace_other {α : Type} (k k' : String) (v : α) (l : List (String × α))
    (h : k' ≠ k) : assocFind k' (assocReplace k v l) = assocFind k' l := by
  induction l with
  | nil =>
    simp only [assocReplace, assocFind]
    rw [if_neg (fun hh => h (by simpa using hh.symm))]
  | cons p rest ih =>
    by_cases hp : p.1 = k
    · subst hp
      simp only [assocReplace, if_pos rfl, assocFind]
      rw [if_neg (fun hh => h hh.symm), if_neg (fun hh => h hh.symm)]
    · simp only [assocReplace, if_neg hp, assocFind, ih]

theorem assocFind_modify {α : Type} (k k' : String) (f : α → α) (l : List (String × α)) :
    assocFind k' (assocModify k f l)
      = if k' = k then (assocFind k' l).map f else assocFind k' l := by
  induction l with
  | nil => simp [assocFind, assocModify]
  | cons p rest ih =>
    simp only [assocModify, assocFind]
    split_ifs with h1 h2 h3 h4 h5 h6 h7 <;> simp_all [assocFind]

theorem assocModify_keys {α : Type} (k : String) (f : α → α) (l : List (String × α)) :
    (assocModify k f l).map Prod.fst = l.map Prod.fst := by
  induction l with
  | nil => rfl
  | cons p rest ih =>
    by_cases hp : p.1 = k <;> simp [assocModify, hp, ih]

theorem assocFind_mem_keys {α : Type} (k : String) (l : List (String × α)) :
    (assocFind k l).isSome ↔ k ∈ l.map Prod.fst := by
  induction l with
  | nil => simp [assocFind]
  | cons p rest ih =>
    by_cases hp : p.1 = k
    · simp [assocFind, hp]
    · simp only [assocFind, if_neg hp, ih, List.map_cons, List.mem_cons]
      constructor
      · intro hh
        exact Or.inr hh
      · intro hh
        rcases hh with hh | hh
        · exact absurd hh.symm hp
        · exact hh

/-! ## Concrete runs used by the claim theorems and witnesses -/

/-- A test with no prerequisites. -/
def exDescA : Descriptor := { id := "a", prereqs := [], targetGroup := "g" }

/-- A test requiring test a to PASS. -/
def exDescB : Descriptor := { id := "b", prereqs := [("a", Outcome.pass)], targetGroup := "g" }

/-- A test requiring test a to FAIL. -/
def exDescC : Descriptor := { id := "c", prereqs := [("a", Outcome.fail)], targetGroup := "g" }

/-- A single serial target in group g. -/
def exTgt : TargetSpec := { name := "t", groups := ["g"], concurrency := 1 }

/-- The database of the example runs: tests a, b and c load, everything
else fails to load. -/
def exGetTest : String → Option Descriptor := fun id =>
  if id = "a" then some exDescA
  else if id = "b" then some exDescB
  else if id = "c" then some exDescC
  else none

/-- The base example environment: test a fails, every other test passes,
results arrive only when the engine blocks for them, and termination is
never requested. -/
def exEnv : Env :=
  { getTest := exGetTest
    outcomeOf := fun id => if id = "a" then Outcome.fail else Outcome.pass
    deliver := fun _ => none
    force := fun _ => 0
    termAt := fun _ => false }

/-- A database where every id loads as a prerequisite-free test in
group g. -/
def exGetTestAll : String → Option Descriptor := fun id =>
  some { id := id, prereqs := [], targetGroup := "g" }

/-- An environment in which termination is requested before the first
loop iteration. -/
def exEnvTerm : Env := { exEnv with getTest := exGetTestAll, termAt := fun _ => true }

/-- Ten prerequisite-free tests. -/
def exTenIds : List String :=
  ["t1", "t2", "t3", "t4", "t5", "t6", "t7", "t8", "t9", "t10"]

/-- A database with a dependency cycle: a requires b to PASS and b
requires a to PASS. -/
def exGetTestCycle : String → Option Descriptor := fun id =>
  if id = "a" then some { id := "a", prereqs := [("b", Outcome.pass)], targetGroup := "g" }
  else if id = "b" then some { id := "b", prereqs := [("a", Outcome.pass)], targetGroup := "g" }
  else none

/-- The cycle environment. -/
def exEnvCycle : Env := { exEnv with getTest := exGetTestCycle }

/-- A database where test a lists the prerequisite zz, which does not
load. -/
def exGetTestMissing : String → Option Descriptor := fun id =>
  if id = "a" then some { id := "a", prereqs := [("zz", Outcome.pass)], targetGroup := "g" }
  else none

/-- The missing-prerequisite environment. -/
def exEnvMissing : Env := { exEnv with getTest := exGetTestMissing }

/-- The state carried by any of the three loop endings. -/
def stateOfLoop : LoopOut → EngineState
  | LoopOut.done st => st
  | LoopOut.hung st => st
  | LoopOut.fuelOut st => st

/-! ## The post-loop marking (claim C1) -/

theorem loopIterCore_exit_cases (env : Env) (ts : List TargetSpec) (st st' : EngineState)
    (h : loopIterCore env ts st = IterOut.exit st') :
    st'.pending = [] ∨ st'.terminated = true := by
  unfold loopIterCore at h
  by_cases h1 : st.pending = [] ∧ st.ready = []
  · rw [if_pos h1] at h
    injection h with h
    subst h
    exact Or.inl h1.1
  · rw [if_neg h1] at h
    by_cases h2 : st.terminated = true
    · rw [if_pos h2] at h
      injection h with h
      subst h
      exact Or.inr h2
    · rw [if_neg h2] at h
      by_cases h3 : st.idleTargets = []
      · rw [if_pos h3] at h
        rcases hc : checkForResponse env ts true st with st2 | st2 | st2 <;>
          rw [hc] at h <;> cases h
      · rw [if_neg h3] at h
        by_cases h4 : st.ready = [] ∧ st.idleTargets.length = ts.length
        · rw [if_pos h4] at h
          rcases hp : st.pending with _ | ⟨p, rest⟩
          · rw [hp] at h
            injection h with h
            subst h
            exact Or.inl hp
          · rw [hp] at h
            cases h
        · rw [if_neg h4] at h
          rcases hc : checkForResponse env ts (dispatchScan st ts).2 (dispatchScan st ts).1
            with st3 | st3 | st3 <;> rw [hc] at h <;> cases h

theorem loopIter_exit_cases (env : Env) (ts : List TargetSpec) (st st' : EngineState)
    (h : loopIter env ts st = IterOut.exit st') :
    st'.pending = [] ∨ st'.terminated = true :=
  loopIterCore_exit_cases env ts (pollTerm env st) st' h

theorem runLoop_done_cases (env : Env) (ts : List TargetSpec) :
    ∀ (fuel : Nat) (st st' : EngineState),
      runLoop env ts fuel st = LoopOut.done st' →
      st'.pending = [] ∨ st'.terminated = true := by
  intro fuel
  induction fuel with
  | zero => intro st st' h; cases h
  | succ n ih =>
    intro st st' h
    unfold runLoop at h
    rcases hi : loopIter env ts st with st2 | st2 | st2 <;> rw [hi] at h
    · cases h
      exact loopIter_exit_cases env ts st _ hi
    · exact ih st2 st' h
    · cases h

theorem epilogue_of_exit (ts : List TargetSpec) (st : EngineState)
    (h : st.pending = [] ∨ st.terminated = true) : epilogue ts st = st := by
  unfold epilogue
  rcases h with h | h
  · rw [h]
    by_cases ht : st.terminated = true
    · rw [if_pos ht]
    · rw [if_neg ht]
      rfl
  · rw [if_pos h]

/-- C1: the claim says that if termination is requested during a run,
every descriptor still pending when the dispatch loop exits gets an
UNTESTED result with cause "execution terminated"; in particular a run
terminated with 10 tests pending and none dispatched records that result
for all 10 ids.  The code does the opposite: the marking loop of lines
280-283 runs only when termination was NOT requested, and the loop can
only exit with a non-empty pending list when termination WAS requested,
so the marking is dead code.  First part: the concrete 10-test run with
termination requested before the first iteration ends normally with no
results recorded at all.  Second part: after any loop exit whatever, the
post-loop marking changes nothing. -/
theorem C1_terminated_pending_get_no_results :
    ((RunModel exEnvTerm [exTgt] exTenIds 1 50).exit = RTExit.normal
      ∧ (RunModel exEnvTerm [exTgt] exTenIds 1 50).st.stream = []
      ∧ (RunModel exEnvTerm [exTgt] exTenIds 1 50).st.testResults = [])
    ∧ ∀ (env : Env) (ts : List TargetSpec) (fuel : Nat) (st st' : EngineState),
        runLoop env ts fuel st = LoopOut.done st' → epilogue ts st' = st' := by
  constructor
  · exact ⟨by decide, by decide, by decide⟩
  · intro env ts fuel st st' h
    exact epilogue_of_exit ts st' (runLoop_done_cases env ts fuel st st' h)

/-- Witness for C1: the dead-code fact applied to a concrete loop exit. -/
theorem C1_terminated_pending_get_no_results_witness :
    epilogue [exTgt] (pollTerm exEnv (initState [exTgt]))
      = pollTerm exEnv (initState [exTgt]) :=
  C1_terminated_pending_get_no_results.2 exEnv [exTgt] 1 (initState [exTgt])
    (pollTerm exEnv (initState [exTgt])) (by decide)

/-- C2: the claim says Run returns a truthy value iff some result had an
unexpected outcome.  The Run of execution_engine.py has no return
statement at all, so it always returns None (falsy) -- even for a run
whose single test FAILs while PASS was expected -- and its constructor
does not even accept the expectations argument its caller in cmdline.py
passes.  First part: the modelled Run returns None on every input.
Remaining parts: the concrete failing run completes normally, its stream
contains a FAIL result for test a, and Run still returns None. -/
theorem C2_run_always_returns_none :
    (∀ (env : Env) (ts : List TargetSpec) (testIds : List String) (ns fuel : Nat),
        (RunModel env ts testIds ns fuel).ret = none)
    ∧ (RunModel exEnv [exTgt] ["a"] 1 50).exit = RTExit.normal
    ∧ (∃ r, r ∈ (RunModel exEnv [exTgt] ["a"] 1 50).st.stream
        ∧ r.kind = RKind.TEST ∧ r.id = "a" ∧ r.outcome = Outcome.fail)
    ∧ (RunModel exEnv [exTgt] ["a"] 1 50).ret = none := by
  refine ⟨?_, by decide, ?_, by decide⟩
  · intro env ts ids ns fuel
    unfold RunModel
    rcases runTestsModel env ts ids fuel with ⟨st, exit⟩
    cases exit <;> rfl
  · exact ⟨mkTestResult "a" Outcome.fail "t", by decide, by decide, by decide, by decide⟩

/-- A wire on which every write fails and every read fails. -/
def exWireDead : Wire := { dumpOk := fun _ => false, loadReply := none }

/-- Counterexample to C8: the claim says a resource setup or cleanup
assignment whose exchange with the remote process fails gets an UNTESTED
result.  The code constructs Result(Result.RESOURCE, ..., Result.ERROR,
...) and NoteException leaves the outcome at its ERROR default
(rsh_target.py lines 96-99), so on a dead pipe the setup result for
resource r has outcome ERROR, not UNTESTED. -/
theorem C8_resource_failure_counterexample :
    (rshSetUpResource exWireDead "r" 0).outcome = Outcome.error
    ∧ ¬ (rshSetUpResource exWireDead "r" 0).outcome = Outcome.untested
    ∧ (rshCleanUpResource exWireDead "r" 0).outcome = Outcome.error
    ∧ ¬ (rshCleanUpResource exWireDead "r" 0).outcome = Outcome.untested := by
  decide

/-- C8 as amended: for every assignment whose exchange fails (the reply
cannot be read, or every write fails), the remote target synthesizes and
reports a result carrying the failure cause instead of dropping the
assignment: an ERROR test result for a test assignment, and an ERROR
resource result annotated with the setup/cleanup action for a resource
assignment. -/
theorem C8_failed_assignment_synthesizes_error :
    ∀ (w : Wire) (id : String) (ctx : Nat),
      (w.loadReply = none ∨ ∀ v, w.dumpOk v = false) →
      ((rshRunTest w id ctx).kind = RKind.TEST
        ∧ (rshRunTest w id ctx).id = id
        ∧ (rshRunTest w id ctx).outcome = Outcome.error
        ∧ (rshRunTest w id ctx).cause.isSome = true)
      ∧ ((rshSetUpResource w id ctx).kind = RKind.RESOURCE
        ∧ (rshSetUpResource w id ctx).id = id
        ∧ (rshSetUpResource w id ctx).outcome = Outcome.error
        ∧ (rshSetUpResource w id ctx).cause.isSome = true
        ∧ (resultActionKey, "setup") ∈ (rshSetUpResource w id ctx).annotations)
      ∧ ((rshCleanUpResource w id ctx).kind = RKind.RESOURCE
        ∧ (rshCleanUpResource w id ctx).id = id
        ∧ (rshCleanUpResource w id ctx).outcome = Outcome.error
        ∧ (rshCleanUpResource w id ctx).cause.isSome = true
        ∧ (resultActionKey, "cleanup") ∈ (rshCleanUpResource w id ctx).annotations) := by
  intro w id ctx hfail
  have syn : ∀ tag, (if w.dumpOk (PickleValue.cmd tag id ctx) then w.loadReply else none)
      = none := by
    intro tag
    rcases hfail with h | h
    · by_cases hd : w.dumpOk (PickleValue.cmd tag id ctx) = true <;> simp [hd, h]
    · simp [h]
  unfold rshRunTest rshSetUpResource rshCleanUpResource
  have hrt := syn "RunTest"
  have hsu := syn "SetUpResource"
  have hcu := syn "CleanUpResource"
  by_cases h1 : w.dumpOk (PickleValue.cmd "RunTest" id ctx) = true <;>
    by_cases h2 : w.dumpOk (PickleValue.cmd "SetUpResource" id ctx) = true <;>
    by_cases h3 : w.dumpOk (PickleValue.cmd "CleanUpResource" id ctx) = true <;>
    simp_all [rshSynthTest, rshSynthResource, noteException]

/-- Witness for C8's amended theorem at the dead wire. -/
theorem C8_failed_assignment_synthesizes_error_witness :
    ((rshRunTest exWireDead "x" 0).kind = RKind.TEST
      ∧ (rshRunTest exWireDead "x" 0).id = "x"
      ∧ (rshRunTest exWireDead "x" 0).outcome = Outcome.error
      ∧ (rshRunTest exWireDead "x" 0).cause.isSome = true)
    ∧ ((rshSetUpResource exWireDead "x" 0).kind = RKind.RESOURCE
      ∧ (rshSetUpResource exWireDead "x" 0).id = "x"
      ∧ (rshSetUpResource exWireDead "x" 0).outcome = Outcome.error
      ∧ (rshSetUpResource exWireDead "x" 0).cause.isSome = true
      ∧ (resultActionKey, "setup") ∈ (rshSetUpResource exWireDead "x" 0).annotations)
    ∧ ((rshCleanUpResource exWireDead "x" 0).kind = RKind.RESOURCE
      ∧ (rshCleanUpResource exWireDead "x" 0).id = "x"
      ∧ (rshCleanUpResource exWireDead "x" 0).outcome = Outcome.error
      ∧ (rshCleanUpResource exWireDead "x" 0).cause.isSome = true
      ∧ (resultActionKey, "cleanup") ∈ (rshCleanUpResource exWireDead "x" 0).annotations) :=
  C8_failed_assignment_synthesizes_error exWireDead "x" 0 (Or.inl rfl)

/-! ## Accounting used by the run invariants -/

/-- The keys of an association list. -/
def keysOf {α : Type} (l : List (String × α)) : List String := l.map Prod.fst

/-- How many places currently account for test i: one for membership of
the pending list, one for an in-flight assignment, one for a queued
result, one for each TEST result written to the streams.  Every test id
holds exactly one such token throughout a run, which is the heart of the
exactly-one-result property. -/
def tok (i : String) (st : EngineState) : Nat :=
  st.pending.count i
    + st.inFlight.countP (fun a => decide (a.1 = i))
    + st.queue.countP (fun r => decide (r.kind = RKind.TEST ∧ r.id = i))
    + st.stream.countP (fun r => decide (r.kind = RKind.TEST ∧ r.id = i))

/-- The number of "failed prerequisite" results written for test i. -/
def fpCount (i : String) (st : EngineState) : Nat :=
  st.stream.countP (fun r => decide (r.id = i ∧ r.cause = some (qmMessage "failed prerequisite")))

/-- Graph nodes that were never pushed onto the ready list by a
prerequisite-count decrement; each node can be pushed at most once, and
the measure below charges two units for the potential push. -/
def unpushed (st : EngineState) : List String :=
  (keysOf st.graph).filter (fun i => decide (i ∉ st.readyLog))

/-- A termination measure for the dispatch loop: every loop iteration
strictly decreases it (given the invariants), so the loop cannot run
forever. -/
def loopMeasure (st : EngineState) : Nat :=
  3 * st.pending.length
    + (st.ready.filter (fun i => decide (i ∉ st.pending))).length
    + 2 * st.inFlight.length
    + st.queue.length
    + 2 * (unpushed st).length

/-- The run invariant: everything that holds of the engine state after
graph construction and is preserved by every loop iteration.  ids is the
requested test-id list, ts the target list. -/
structure Inv (ids : List String) (ts : List TargetSpec) (st : EngineState) : Prop where
  desc_keys_nodup : (keysOf st.descriptors).Nodup
  graph_keys : keysOf st.graph = keysOf st.descriptors
  pending_keys : ∀ i ∈ st.pending, i ∈ keysOf st.descriptors
  pending_nodup : st.pending.Nodup
  ready_keys : ∀ i ∈ st.ready, i ∈ keysOf st.descriptors
  ready_nodup : st.ready.Nodup
  ready_count0 : ∀ i ∈ st.ready, countOf st i = 0
  counts_nonneg : ∀ i, 0 ≤ countOf st i
  log_le_one : ∀ i, st.readyLog.count i ≤ 1
  log_zero_of_pos : ∀ i, 0 < countOf st i → st.readyLog.count i = 0
  edges_keys : ∀ i, ∀ e ∈ edgesOf st i, e.1 ∈ keysOf st.descriptors
  idle_keys : ∀ n ∈ st.idleTargets, n ∈ ts.map TargetSpec.name
  idle_nodup : st.idleTargets.Nodup
  flight_keys : ∀ a ∈ st.inFlight, a.1 ∈ keysOf st.descriptors ∧ a.2 ∈ ts.map TargetSpec.name
  queue_ok : ∀ r ∈ st.queue, r.kind = RKind.TEST ∧ r.id ∈ keysOf st.descriptors
    ∧ r.cause = none ∧ ∃ t ∈ ts, r.targetName = some t.name
  load_flight : ∀ t ∈ ts, loadOf st t.name = st.inFlight.countP (fun a => decide (a.2 = t.name))
  busy_bound : ∀ t ∈ ts, t.name ∉ st.idleTargets →
    t.concurrency ≤ loadOf st t.name
      + st.queue.countP (fun r => decide (r.targetName = some t.name))
  disp_keys : ∀ i ∈ st.dispatched, i ∈ keysOf st.descriptors
  disp_not_pending : ∀ i ∈ st.dispatched, i ∉ st.pending
  tok_eq : ∀ i, tok i st = if i ∈ ids then 1 else 0
  fp_not : ∀ i, 0 < fpCount i st → i ∉ st.pending ∧ i ∉ st.dispatched

/-! ## Lemmas about the primitive state operations -/

theorem countOf_setCount_self (st : EngineState) (i : String) (c : Int)
    (h : i ∈ keysOf st.graph) : countOf (setCount st i c) i = c := by
  have hs : (assocFind i st.graph).isSome := (assocFind_mem_keys i st.graph).2 h
  unfold countOf setCount
  simp only [assocFind_modify, if_pos rfl]
  rcases ho : assocFind i st.graph with _ | v
  · rw [ho] at hs
    cases hs
  · rfl

theorem countOf_setCount_other (st : EngineState) (i j : String) (c : Int)
    (h : j ≠ i) : countOf (setCount st i c) j = countOf st j := by
  unfold countOf setCount
  simp only [assocFind_modify, if_neg h]

theorem edgesOf_setCount (st : EngineState) (i j : String) (c : Int) :
    edgesOf (setCount st i c) j = edgesOf st j := by
  unfold edgesOf setCount
  simp only [assocFind_modify]
  by_cases h : j = i
  · rw [if_pos h]
    rcases assocFind j st.graph with _ | v <;> rfl
  · rw [if_neg h]

theorem keysOf_setCount (st : EngineState) (i : String) (c : Int) :
    keysOf (setCount st i c).graph = keysOf st.graph := by
  unfold setCount keysOf
  exact assocModify_keys i _ st.graph

theorem loadOf_replace_self (n : String) (v : Nat) (l : List (String × Nat)) :
    (assocFind n (assocReplace n v l)).getD 0 = v := by
  rw [assocFind_replace_self]
  rfl

theorem loadOf_replace_other (n m : String) (v : Nat) (l : List (String × Nat))
    (h : m ≠ n) : (assocFind m (assocReplace n v l)).getD 0 = (assocFind m l).getD 0 := by
  rw [assocFind_replace_other n m v l h]

/-- The parts of the state that _UpdateDependentTests never touches (it
only reads and writes graph counts, the pending, ready and log lists,
and records results). -/
structure CascadeFrame (st st' : EngineState) : Prop where
  descriptors_eq : st'.descriptors = st.descriptors
  idle_eq : st'.idleTargets = st.idleTargets
  loads_eq : st'.loads = st.loads
  inFlight_eq : st'.inFlight = st.inFlight
  queue_eq : st'.queue = st.queue
  dispatched_eq : st'.dispatched = st.dispatched
  terminated_eq : st'.terminated = st.terminated
  pending_sub : st'.pending.Sublist st.pending
  stream_ext : ∃ l, st'.stream = st.stream ++ l

theorem CascadeFrame.refl (st : EngineState) : CascadeFrame st st :=
  ⟨rfl, rfl, rfl, rfl, rfl, rfl, rfl, List.Sublist.refl _, ⟨[], by simp⟩⟩

theorem CascadeFrame.trans {s1 s2 s3 : EngineState}
    (h1 : CascadeFrame s1 s2) (h2 : CascadeFrame s2 s3) : CascadeFrame s1 s3 := by
  refine ⟨?_, ?_, ?_, ?_, ?_, ?_, ?_, ?_, ?_⟩
  · rw [h2.descriptors_eq, h1.descriptors_eq]
  · rw [h2.idle_eq, h1.idle_eq]
  · rw [h2.loads_eq, h1.loads_eq]
  · rw [h2.inFlight_eq, h1.inFlight_eq]
  · rw [h2.queue_eq, h1.queue_eq]
  · rw [h2.dispatched_eq, h1.dispatched_eq]
  · rw [h2.terminated_eq, h1.terminated_eq]
  · exact h2.pending_sub.trans h1.pending_sub
  · rcases h1.stream_ext with ⟨l1, e1⟩
    rcases h2.stream_ext with ⟨l2, e2⟩
    exact ⟨l1 ++ l2, by rw [e2, e1, List.append_assoc]⟩

/-- _AddResult on a result with no associated target only stores the
result and writes it to the streams (execution_engine.py lines 387-391:
no idle-list update happens). -/
theorem addResult_no_target (ts : List TargetSpec) (st : EngineState) (r : Result)
    (hk : r.kind = RKind.TEST) (ht : r.targetName = none) :
    addResult ts st r
      = { st with testResults := assocReplace r.id r st.testResults
                  stream := st.stream ++ [r] } := by
  unfold addResult noteIdleTarget findTargetForResult storeResult
  rw [ht, hk]

/-- The shape of _AddUntestedResult's effect on the state. -/
theorem addUntestedResult_eq (ts : List TargetSpec) (st : EngineState)
    (n cause : String) (an : List (String × String)) :
    addUntestedResult ts st n cause an
      = { st with
          testResults := assocReplace n
            { kind := RKind.TEST, id := n, outcome := Outcome.untested
              cause := some cause, annotations := an, targetName := none } st.testResults
          stream := st.stream ++
            [{ kind := RKind.TEST, id := n, outcome := Outcome.untested
               cause := some cause, annotations := an, targetName := none }] } := by
  unfold addUntestedResult
  exact addResult_no_target ts st _ rfl rfl

theorem goEdges_frame (ts : List TargetSpec) (rec : EngineState → String → EngineState)
    (hrec : ∀ s i, CascadeFrame s (rec s i)) :
    ∀ (es : List (String × Outcome)) (st : EngineState) (descId : String) (oc : Outcome),
      CascadeFrame st (goEdges ts rec st es descId oc) := by
  intro es
  induction es with
  | nil => intro st descId oc; exact CascadeFrame.refl st
  | cons e rest ih =>
    intro st descId oc
    rcases e with ⟨d, o⟩
    show CascadeFrame st (goEdges ts rec st ((d, o) :: rest) descId oc)
    unfold goEdges
    by_cases h0 : countOf st d = 0
    · rw [if_pos h0]
      exact ih st descId oc
    · rw [if_neg h0]
      by_cases hoc : oc ≠ o
      · rw [if_pos hoc]
        by_cases hp : d ∈ (setCount st d 0).pending
        · rw [if_pos hp]
          have f1 : CascadeFrame st (setCount st d 0) :=
            ⟨rfl, rfl, rfl, rfl, rfl, rfl, rfl, List.Sublist.refl _, ⟨[], by simp [setCount]⟩⟩
          have f2 : CascadeFrame (setCount st d 0) (removePending (setCount st d 0) d) :=
            ⟨rfl, rfl, rfl, rfl, rfl, rfl, rfl, List.erase_sublist _ _, ⟨[], by simp [removePending]⟩⟩
          set st2 := removePending (setCount st d 0) d with hst2
          have f3 : CascadeFrame st2 (addUntestedResult ts st2 d
              (qmMessage "failed prerequisite")
              [("qmtest.prequisite", descId), ("qmtest.outcome", oc.str),
               ("qmtest.expected_outcome", o.str)]) := by
            rw [addUntestedResult_eq]
            exact ⟨rfl, rfl, rfl, rfl, rfl, rfl, rfl, List.Sublist.refl _, ⟨_, rfl⟩⟩
          set st3 := addUntestedResult ts st2 d (qmMessage "failed prerequisite")
              [("qmtest.prequisite", descId), ("qmtest.outcome", oc.str),
               ("qmtest.expected_outcome", o.str)] with hst3
          have f4 : CascadeFrame st3 (rec st3 d) := hrec st3 d
          have f5 : CascadeFrame (rec st3 d) (goEdges ts rec (rec st3 d) rest descId oc) :=
            ih (rec st3 d) descId oc
          exact ((((f1.trans f2).trans f3).trans f4).trans f5)
        · rw [if_neg hp]
          have f1 : CascadeFrame st (setCount st d 0) :=
            ⟨rfl, rfl, rfl, rfl, rfl, rfl, rfl, List.Sublist.refl _, ⟨[], by simp [setCount]⟩⟩
          exact f1.trans (ih (setCount st d 0) descId oc)
      · rw [if_neg hoc]
        have f1 : CascadeFrame st
            (if countOf st d - 1 = 0 then pushReady (setCount st d (countOf st d - 1)) d
             else setCount st d (countOf st d - 1)) := by
          by_cases hz : countOf st d - 1 = 0
          · rw [if_pos hz]
            exact ⟨rfl, rfl, rfl, rfl, rfl, rfl, rfl, List.Sublist.refl _,
              ⟨[], by simp [pushReady, setCount]⟩⟩
          · rw [if_neg hz]
            exact ⟨rfl, rfl, rfl, rfl, rfl, rfl, rfl, List.Sublist.refl _,
              ⟨[], by simp [setCount]⟩⟩
        exact f1.trans (ih _ descId oc)

theorem cascade_frame (ts : List TargetSpec) :
    ∀ (fuel : Nat) (st : EngineState) (descId : String) (oc : Outcome),
      CascadeFrame st (cascade ts fuel st descId oc) := by
  intro fuel
  induction fuel with
  | zero => intro st descId oc; exact CascadeFrame.refl st
  | succ n ih =>
    intro st descId oc
    exact goEdges_frame ts _ (fun s i => ih s i Outcome.untested) (edgesOf st descId) st descId oc

theorem updateDependentTests_frame (ts : List TargetSpec) (st : EngineState)
    (descId : String) (oc : Outcome) :
    CascadeFrame st (updateDependentTests ts st descId oc) :=
  cascade_frame ts (st.pending.length + 1) st descId oc

theorem countOf_setCount (st : EngineState) (i d : String) (c : Int) :
    countOf (setCount st d c) i
      = if i = d ∧ i ∈ keysOf st.graph then c else countOf st i := by
  unfold countOf setCount
  simp only [assocFind_modify]
  by_cases h1 : i = d
  · subst h1
    by_cases h2 : i ∈ keysOf st.graph
    · have hs : (assocFind i st.graph).isSome := (assocFind_mem_keys i st.graph).2 h2
      rcases ho : assocFind i st.graph with _ | v
      · rw [ho] at hs; cases hs
      · simp [h2]
    · have hs : ¬ (assocFind i st.graph).isSome := fun hh =>
        h2 ((assocFind_mem_keys i st.graph).1 hh)
      rcases ho : assocFind i st.graph with _ | v
      · simp [h2]
      · rw [ho] at hs; simp at hs
  · simp [h1]

theorem tok_setCount (st : EngineState) (i d : String) (c : Int) :
    tok i (setCount st d c) = tok i st := rfl

theorem fpCount_setCount (st : EngineState) (i d : String) (c : Int) :
    fpCount i (setCount st d c) = fpCount i st := rfl

theorem loopMeasure_setCount (st : EngineState) (d : String) (c : Int) :
    loopMeasure (setCount st d c) = loopMeasure st := by
  unfold loopMeasure unpushed
  rw [keysOf_setCount]
  rfl

/-- Setting a count preserves the run invariant as long as the new value
is the zero used for cancellation. -/
theorem setZero_inv (ids : List String) (ts : List TargetSpec) (st : EngineState)
    (d : String) (hI : Inv ids ts st) : Inv ids ts (setCount st d 0) := by
  refine ⟨hI.desc_keys_nodup, ?_, hI.pending_keys, hI.pending_nodup, hI.ready_keys,
    hI.ready_nodup, ?_, ?_, hI.log_le_one, ?_, ?_, hI.idle_keys, hI.idle_nodup,
    hI.flight_keys, hI.queue_ok, hI.load_flight, hI.busy_bound, hI.disp_keys,
    hI.disp_not_pending, ?_, ?_⟩
  · show keysOf (setCount st d 0).graph = keysOf st.descriptors
    rw [keysOf_setCount]
    exact hI.graph_keys
  · intro i hi
    rw [countOf_setCount]
    by_cases h : i = d ∧ i ∈ keysOf st.graph
    · rw [if_pos h]
    · rw [if_neg h]
      exact hI.ready_count0 i hi
  · intro i
    rw [countOf_setCount]
    by_cases h : i = d ∧ i ∈ keysOf st.graph
    · rw [if_pos h]
    · rw [if_neg h]
      exact hI.counts_nonneg i
  · intro i hpos
    rw [countOf_setCount] at hpos
    by_cases h : i = d ∧ i ∈ keysOf st.graph
    · rw [if_pos h] at hpos
      omega
    · rw [if_neg h] at hpos
      exact hI.log_zero_of_pos i hpos
  · intro i e he
    have : edgesOf (setCount st d 0) i = edgesOf st i := edgesOf_setCount st d i 0
    rw [this] at he
    exact hI.edges_keys i e he
  · intro i
    rw [tok_setCount]
    exact hI.tok_eq i
  · intro i hpos
    rw [fpCount_setCount] at hpos
    exact hI.fp_not i hpos

/-- The effect of appending one result to the stream (with any update of
the results dictionary) on the token count of a test. -/
theorem tok_stream_append (st : EngineState) (tr : List (String × Result)) (r : Result)
    (i : String) :
    tok i { st with testResults := tr, stream := st.stream ++ [r] }
      = tok i st + (if r.kind = RKind.TEST ∧ r.id = i then 1 else 0) := by
  unfold tok
  simp only [List.countP_append, List.countP_cons, List.countP_nil, Nat.zero_add,
    decide_eq_true_eq]
  omega

/-- The same for the failed-prerequisite count. -/
theorem fpCount_stream_append (st : EngineState) (tr : List (String × Result)) (r : Result)
    (i : String) :
    fpCount i { st with testResults := tr, stream := st.stream ++ [r] }
      = fpCount i st
        + (if r.id = i ∧ r.cause = some (qmMessage "failed prerequisite") then 1 else 0) := by
  unfold fpCount
  simp only [List.countP_append, List.countP_cons, List.countP_nil, Nat.zero_add,
    decide_eq_true_eq]


theorem tok_removePending (st : EngineState) (p i : String)
    (hnd : st.pending.Nodup) (hp : p ∈ st.pending) :
    tok i (removePending st p) + (if i = p then 1 else 0) = tok i st := by
  have key : tok i (removePending st p)
      = (st.pending.erase p).count i + st.inFlight.countP (fun a => decide (a.1 = i))
        + st.queue.countP (fun r => decide (r.kind = RKind.TEST ∧ r.id = i))
        + st.stream.countP (fun r => decide (r.kind = RKind.TEST ∧ r.id = i)) := rfl
  have key2 : tok i st
      = st.pending.count i + st.inFlight.countP (fun a => decide (a.1 = i))
        + st.queue.countP (fun r => decide (r.kind = RKind.TEST ∧ r.id = i))
        + st.stream.countP (fun r => decide (r.kind = RKind.TEST ∧ r.id = i)) := rfl
  rw [key, key2]
  by_cases h : i = p
  · subst h
    have h1 : st.pending.count i = 1 := List.count_eq_one_of_mem hnd hp
    have h2 : (st.pending.erase i).count i = st.pending.count i - 1 :=
      List.count_erase_self i st.pending
    rw [if_pos rfl]
    omega
  · have h2 : (st.pending.erase p).count i = st.pending.count i :=
      List.count_erase_of_ne h st.pending
    rw [if_neg h]
    omega

theorem fpCount_removePending (st : EngineState) (p i : String) :
    fpCount i (removePending st p) = fpCount i st := rfl

/-- Removing a pending test and recording an UNTESTED result for it
preserves the run invariant and lowers the measure by exactly three. -/
theorem removeRecord_inv (ids : List String) (ts : List TargetSpec) (st : EngineState)
    (p ca : String) (an : List (String × String))
    (hI : Inv ids ts st) (hp : p ∈ st.pending) (hnr : p ∉ st.ready) :
    Inv ids ts (addUntestedResult ts (removePending st p) p ca an)
    ∧ loopMeasure (addUntestedResult ts (removePending st p) p ca an) + 3
        = loopMeasure st := by
  rw [addUntestedResult_eq]
  constructor
  · refine ⟨hI.desc_keys_nodup, hI.graph_keys, ?_, hI.pending_nodup.erase p,
      hI.ready_keys, hI.ready_nodup, hI.ready_count0, hI.counts_nonneg,
      hI.log_le_one, hI.log_zero_of_pos, hI.edges_keys, hI.idle_keys, hI.idle_nodup,
      hI.flight_keys, hI.queue_ok, hI.load_flight, hI.busy_bound, hI.disp_keys,
      ?_, ?_, ?_⟩
    · intro i hi
      exact hI.pending_keys i (List.erase_subset p st.pending hi)
    · intro i hi
      exact fun hmem => hI.disp_not_pending i hi (List.erase_subset p st.pending hmem)
    · intro i
      rw [tok_stream_append]
      have h1 := tok_removePending st p i hI.pending_nodup hp
      have h2 := hI.tok_eq i
      by_cases h : i = p
      · subst h
        rw [if_pos rfl] at h1
        rw [if_pos ⟨rfl, rfl⟩]
        omega
      · rw [if_neg h] at h1
        rw [if_neg (fun hh => h hh.2.symm)]
        omega
    · intro i hpos
      rw [fpCount_stream_append] at hpos
      rw [fpCount_removePending] at hpos
      by_cases h : i = p
      · subst h
        constructor
        · intro hmem
          rcases (hI.pending_nodup.mem_erase_iff).1 hmem with ⟨hne, _⟩
          exact hne rfl
        · intro hmem
          exact hI.disp_not_pending i hmem hp
      · rw [if_neg (fun hh => h hh.1.symm)] at hpos
        simp only [Nat.add_zero] at hpos
        rcases hI.fp_not i hpos with ⟨hnp, hnd⟩
        exact ⟨fun hmem => hnp (List.erase_subset p st.pending hmem), hnd⟩
  · have hlen : (st.pending.erase p).length + 1 = st.pending.length :=
      List.length_erase_add_one hp
    have hfil : st.ready.filter (fun i => decide (i ∉ st.pending.erase p))
        = st.ready.filter (fun i => decide (i ∉ st.pending)) := by
      apply List.filter_congr
      intro x hx
      have hxp : x ≠ p := fun hh => hnr (hh ▸ hx)
      by_cases hmem : x ∈ st.pending
      · have hm2 : x ∈ st.pending.erase p := (hI.pending_nodup.mem_erase_iff).2 ⟨hxp, hmem⟩
        simp [hmem, hm2]
      · have hm2 : x ∉ st.pending.erase p :=
          fun hh => hmem (List.erase_subset p st.pending hh)
        simp [hmem, hm2]
    show 3 * (st.pending.erase p).length
        + (st.ready.filter (fun i => decide (i ∉ st.pending.erase p))).length
        + 2 * st.inFlight.length + st.queue.length
        + 2 * ((keysOf st.graph).filter (fun i => decide (i ∉ st.readyLog))).length + 3
      = 3 * st.pending.length
        + (st.ready.filter (fun i => decide (i ∉ st.pending))).length
        + 2 * st.inFlight.length + st.queue.length
        + 2 * ((keysOf st.graph).filter (fun i => decide (i ∉ st.readyLog))).length
    rw [hfil]
    omega

theorem tok_pushReady (st : EngineState) (d i : String) :
    tok i (pushReady st d) = tok i st := rfl

theorem fpCount_pushReady (st : EngineState) (d i : String) :
    fpCount i (pushReady st d) = fpCount i st := rfl

/-- Decrementing a positive prerequisite count (and pushing the test to
the ready queue when the count reaches zero) preserves the run invariant
and does not increase the measure. -/
theorem decrement_step_inv (ids : List String) (ts : List TargetSpec) (st : EngineState)
    (d : String) (hI : Inv ids ts st) (h0 : countOf st d ≠ 0)
    (hdk : d ∈ keysOf st.descriptors) :
    Inv ids ts (if countOf st d - 1 = 0 then pushReady (setCount st d (countOf st d - 1)) d
                else setCount st d (countOf st d - 1))
    ∧ loopMeasure (if countOf st d - 1 = 0 then pushReady (setCount st d (countOf st d - 1)) d
                   else setCount st d (countOf st d - 1)) ≤ loopMeasure st := by
  have hpos : 0 < countOf st d := lt_of_le_of_ne (hI.counts_nonneg d) (Ne.symm h0)
  have hlog0 : st.readyLog.count d = 0 := hI.log_zero_of_pos d hpos
  have hdg : d ∈ keysOf st.graph := by rw [hI.graph_keys]; exact hdk
  have hdnr : d ∉ st.ready := fun hmem => h0 (hI.ready_count0 d hmem)
  have hcnt : ∀ i, countOf (setCount st d (countOf st d - 1)) i
      = if i = d then countOf st d - 1 else countOf st i := by
    intro i
    rw [countOf_setCount]
    by_cases h : i = d
    · rw [if_pos ⟨h, h ▸ hdg⟩, if_pos h]
    · rw [if_neg (fun hh => h hh.1), if_neg h]
  by_cases hz : countOf st d - 1 = 0
  · rw [if_pos hz]
    set st1 := setCount st d (countOf st d - 1) with hst1
    have hfields : (pushReady st1 d).ready = st.ready ++ [d]
        ∧ (pushReady st1 d).readyLog = st.readyLog ++ [d] := ⟨rfl, rfl⟩
    constructor
    · refine ⟨hI.desc_keys_nodup, ?_, hI.pending_keys, hI.pending_nodup, ?_, ?_, ?_, ?_,
        ?_, ?_, ?_, hI.idle_keys, hI.idle_nodup, hI.flight_keys, hI.queue_ok,
        hI.load_flight, hI.busy_bound, hI.disp_keys, hI.disp_not_pending, ?_, ?_⟩
      · show keysOf (setCount st d _).graph = keysOf st.descriptors
        rw [keysOf_setCount]
        exact hI.graph_keys
      · intro i hi
        rcases List.mem_append.1 hi with hi | hi
        · exact hI.ready_keys i hi
        · rw [List.mem_singleton.1 hi]
          exact hdk
      · show (st.ready ++ [d]).Nodup
        simp [List.nodup_append, hI.ready_nodup, hdnr]
      · intro i hi
        show countOf (setCount st d (countOf st d - 1)) i = 0
        rw [hcnt]
        rcases List.mem_append.1 hi with hi | hi
        · rw [if_neg (fun (hh : i = d) => hdnr (hh ▸ hi))]
          exact hI.ready_count0 i hi
        · rw [if_pos (List.mem_singleton.1 hi)]
          exact hz
      · intro i
        show 0 ≤ countOf (setCount st d (countOf st d - 1)) i
        rw [hcnt]
        by_cases h : i = d
        · rw [if_pos h]
          omega
        · rw [if_neg h]
          exact hI.counts_nonneg i
      · intro i
        show (st.readyLog ++ [d]).count i ≤ 1
        rw [List.count_append]
        by_cases h : i = d
        · subst h
          rw [hlog0]
          simp
        · have h1 := hI.log_le_one i
          have hs : List.count i [d] = 0 := by
            rw [List.count_eq_zero]
            simp
            exact h
          omega
      · intro i hip
        show (st.readyLog ++ [d]).count i = 0
        have hip2 : 0 < countOf st1 i := hip
        rw [hcnt] at hip2
        by_cases h : i = d
        · rw [if_pos h] at hip2
          omega
        · rw [if_neg h] at hip2
          have hs : List.count i [d] = 0 := by
            rw [List.count_eq_zero]
            simp
            exact h
          rw [List.count_append, hI.log_zero_of_pos i hip2, hs]
      · intro i e he
        have : edgesOf (pushReady st1 d) i = edgesOf st i := edgesOf_setCount st d i _
        rw [this] at he
        exact hI.edges_keys i e he
      · intro i
        rw [tok_pushReady, tok_setCount]
        exact hI.tok_eq i
      · intro i hp
        rw [fpCount_pushReady, fpCount_setCount] at hp
        exact hI.fp_not i hp
    · -- measure bound
      have hUsub : unpushed (pushReady st1 d)
          = (unpushed st).filter (fun i => decide (¬ i = d)) := by
        unfold unpushed
        show ((keysOf (setCount st d _).graph).filter
            (fun i => decide (i ∉ st.readyLog ++ [d])))
          = ((keysOf st.graph).filter (fun i => decide (i ∉ st.readyLog))).filter
              (fun i => decide (¬ i = d))
        rw [keysOf_setCount, List.filter_filter]
        apply List.filter_congr
        intro x _
        by_cases h1 : x ∈ st.readyLog
        · simp [h1]
        · by_cases h2 : x = d <;> simp [h1, h2]
      have hdU : d ∈ unpushed st := by
        unfold unpushed
        refine List.mem_filter.2 ⟨hdg, ?_⟩
        simp
        exact List.count_eq_zero.1 hlog0
      have hUnodup : (unpushed st).Nodup := by
        unfold unpushed
        refine List.Nodup.filter _ ?_
        rw [hI.graph_keys]
        exact hI.desc_keys_nodup
      have hUlen : ((unpushed st).filter (fun i => decide (¬ i = d))).length + 1
          = (unpushed st).length := by
        have : (unpushed st).filter (fun i => decide (¬ i = d)) = (unpushed st).erase d := by
          rw [hUnodup.erase_eq_filter d]
          apply List.filter_congr
          intro x _
          by_cases h : x = d <;> simp [h]
        rw [this]
        exact List.length_erase_add_one hdU
      have hready : ((st.ready ++ [d]).filter
            (fun i => decide (i ∉ st.pending))).length
          ≤ (st.ready.filter (fun i => decide (i ∉ st.pending))).length + 1 := by
        rw [List.filter_append]
        rw [List.length_append]
        have : ((([d] : List String)).filter (fun i => decide (i ∉ st.pending))).length ≤ 1 :=
          List.length_filter_le _ _
        omega
      show 3 * st.pending.length
          + ((st.ready ++ [d]).filter (fun i => decide (i ∉ st.pending))).length
          + 2 * st.inFlight.length + st.queue.length
          + 2 * (unpushed (pushReady st1 d)).length
        ≤ loopMeasure st
      rw [hUsub]
      unfold loopMeasure
      omega
  · rw [if_neg hz]
    constructor
    · refine ⟨hI.desc_keys_nodup, ?_, hI.pending_keys, hI.pending_nodup, hI.ready_keys,
        hI.ready_nodup, ?_, ?_, hI.log_le_one, ?_, ?_, hI.idle_keys, hI.idle_nodup,
        hI.flight_keys, hI.queue_ok, hI.load_flight, hI.busy_bound, hI.disp_keys,
        hI.disp_not_pending, ?_, ?_⟩
      · show keysOf (setCount st d _).graph = keysOf st.descriptors
        rw [keysOf_setCount]
        exact hI.graph_keys
      · intro i hi
        rw [hcnt]
        rw [if_neg (fun (hh : i = d) => hdnr (hh ▸ hi))]
        exact hI.ready_count0 i hi
      · intro i
        rw [hcnt]
        by_cases h : i = d
        · rw [if_pos h]
          omega
        · rw [if_neg h]
          exact hI.counts_nonneg i
      · intro i hip
        rw [hcnt] at hip
        by_cases h : i = d
        · subst h
          exact hlog0
        · rw [if_neg h] at hip
          exact hI.log_zero_of_pos i hip
      · intro i e he
        have : edgesOf (setCount st d (countOf st d - 1)) i = edgesOf st i :=
          edgesOf_setCount st d i _
        rw [this] at he
        exact hI.edges_keys i e he
      · intro i
        rw [tok_setCount]
        exact hI.tok_eq i
      · intro i hp
        rw [fpCount_setCount] at hp
        exact hI.fp_not i hp
    · rw [loopMeasure_setCount]

/-- The edge loop of _UpdateDependentTests preserves the run invariant
and does not increase the measure, given that the recursive propagation
does. -/
theorem goEdges_inv (ids : List String) (ts : List TargetSpec)
    (rec : EngineState → String → EngineState)
    (hrecF : ∀ s i, CascadeFrame s (rec s i))
    (hrec : ∀ s i, Inv ids ts s →
      Inv ids ts (rec s i) ∧ loopMeasure (rec s i) ≤ loopMeasure s) :
    ∀ (es : List (String × Outcome)) (st : EngineState) (descId : String) (oc : Outcome),
      Inv ids ts st → (∀ e ∈ es, e.1 ∈ keysOf st.descriptors) →
      Inv ids ts (goEdges ts rec st es descId oc)
      ∧ loopMeasure (goEdges ts rec st es descId oc) ≤ loopMeasure st := by
  intro es
  induction es with
  | nil =>
    intro st descId oc hI _
    exact ⟨hI, le_refl _⟩
  | cons e rest ih =>
    intro st descId oc hI hes
    rcases e with ⟨d, o⟩
    have hdk : d ∈ keysOf st.descriptors := hes (d, o) (List.mem_cons_self _ _)
    have hrest : ∀ e ∈ rest, e.1 ∈ keysOf st.descriptors :=
      fun e he => hes e (List.mem_cons_of_mem _ he)
    show Inv ids ts (goEdges ts rec st ((d, o) :: rest) descId oc) ∧ _
    unfold goEdges
    by_cases h0 : countOf st d = 0
    · rw [if_pos h0]
      exact ih st descId oc hI hrest
    · rw [if_neg h0]
      by_cases hoc : oc ≠ o
      · rw [if_pos hoc]
        by_cases hp : d ∈ (setCount st d 0).pending
        · rw [if_pos hp]
          have hI1 : Inv ids ts (setCount st d 0) := setZero_inv ids ts st d hI
          have hm1 : loopMeasure (setCount st d 0) = loopMeasure st :=
            loopMeasure_setCount st d 0
          have hp' : d ∈ (setCount st d 0).pending := hp
          have hnr : d ∉ (setCount st d 0).ready :=
            fun hmem => h0 (hI.ready_count0 d hmem)
          have h3 := removeRecord_inv ids ts (setCount st d 0) d
            (qmMessage "failed prerequisite")
            [("qmtest.prequisite", descId), ("qmtest.outcome", Outcome.str oc),
             ("qmtest.expected_outcome", Outcome.str o)] hI1 hp' hnr
          set st3 := addUntestedResult ts (removePending (setCount st d 0) d) d
            (qmMessage "failed prerequisite")
            [("qmtest.prequisite", descId), ("qmtest.outcome", Outcome.str oc),
             ("qmtest.expected_outcome", Outcome.str o)] with hst3
          have h4 := hrec st3 d h3.1
          have h4d : (rec st3 d).descriptors = st.descriptors :=
            (hrecF st3 d).descriptors_eq
          have h5 := ih (rec st3 d) descId oc h4.1
            (fun e he => by rw [h4d]; exact hrest e he)
          refine ⟨h5.1, ?_⟩
          show loopMeasure (goEdges ts rec (rec st3 d) rest descId oc) ≤ loopMeasure st
          have hA := h5.2
          have hB := h4.2
          have hC := h3.2
          omega
        · rw [if_neg hp]
          have hI1 : Inv ids ts (setCount st d 0) := setZero_inv ids ts st d hI
          have h5 := ih (setCount st d 0) descId oc hI1 hrest
          refine ⟨h5.1, ?_⟩
          have := h5.2
          rw [loopMeasure_setCount] at this
          exact this
      · rw [if_neg hoc]
        have h2 := decrement_step_inv ids ts st d hI h0 hdk
        have h5 := ih (if countOf st d - 1 = 0 then pushReady (setCount st d (countOf st d - 1)) d
            else setCount st d (countOf st d - 1)) descId oc h2.1 ?_
        · refine ⟨h5.1, le_trans h5.2 h2.2⟩
        · intro e he
          by_cases hz : countOf st d - 1 = 0
          · rw [if_pos hz]
            exact hrest e he
          · rw [if_neg hz]
            exact hrest e he

/-- _UpdateDependentTests preserves the run invariant and does not
increase the measure, at any fuel. -/
theorem cascade_inv (ids : List String) (ts : List TargetSpec) :
    ∀ (fuel : Nat) (st : EngineState) (descId : String) (oc : Outcome),
      Inv ids ts st →
      Inv ids ts (cascade ts fuel st descId oc)
      ∧ loopMeasure (cascade ts fuel st descId oc) ≤ loopMeasure st := by
  intro fuel
  induction fuel with
  | zero =>
    intro st descId oc hI
    exact ⟨hI, le_refl _⟩
  | succ n ih =>
    intro st descId oc hI
    exact goEdges_inv ids ts (fun s i => cascade ts n s i Outcome.untested)
      (fun s i => cascade_frame ts n s i Outcome.untested)
      (fun s i hIs => ih s i Outcome.untested hIs)
      (edgesOf st descId) st descId oc hI (hI.edges_keys descId)

theorem updateDependentTests_inv (ids : List String) (ts : List TargetSpec)
    (st : EngineState) (descId : String) (oc : Outcome) (hI : Inv ids ts st) :
    Inv ids ts (updateDependentTests ts st descId oc)
    ∧ loopMeasure (updateDependentTests ts st descId oc) ≤ loopMeasure st :=
  cascade_inv ids ts (st.pending.length + 1) st descId oc hI

theorem countP_eraseIdx_get {α : Type} (p : α → Bool) :
    ∀ (l : List α) (j : Nat) (h : j < l.length),
      (l.eraseIdx j).countP p + (if p (l.get ⟨j, h⟩) then 1 else 0) = l.countP p := by
  intro l
  induction l with
  | nil => intro j h; cases h
  | cons a rest ih =>
    intro j h
    cases j with
    | zero =>
      show rest.countP p + _ = (a :: rest).countP p
      rw [List.countP_cons]
      have hg : (a :: rest).get ⟨0, h⟩ = a := rfl
      rw [hg]
    | succ j =>
      have hj : j < rest.length := by
        simpa using h
      show (a :: rest.eraseIdx j).countP p + _ = (a :: rest).countP p
      rw [List.countP_cons, List.countP_cons]
      have hi2 := ih j hj
      have hg : (a :: rest).get ⟨j + 1, h⟩ = rest.get ⟨j, hj⟩ := rfl
      rw [hg]
      by_cases hp : p a
      · rw [if_pos hp]
        omega
      · rw [if_neg hp]
        omega

/-- A target finishing an assignment preserves the run invariant and
lowers the measure by one. -/
theorem completeAt_inv (ids : List String) (ts : List TargetSpec) (env : Env)
    (st : EngineState) (i : Nat) (hI : Inv ids ts st) :
    Inv ids ts (completeAt env st i)
    ∧ (st.inFlight = [] → completeAt env st i = st)
    ∧ (st.inFlight ≠ [] → loopMeasure (completeAt env st i) + 1 = loopMeasure st
        ∧ (completeAt env st i).queue ≠ []) := by
  rcases hfl : st.inFlight with _ | ⟨x, xs⟩
  · constructor
    · show Inv ids ts (match st.inFlight with
        | [] => st
        | x :: xs => _)
      rw [hfl]
      exact hI
    · constructor
      · intro _
        show (match st.inFlight with | [] => st | x :: xs => _) = st
        rw [hfl]
      · intro hne
        exact absurd rfl hne
  · -- the in-flight list is x :: xs
    have hred : completeAt env st i
        = (let l := x :: xs
           let j := i % l.length
           let a := l.get ⟨j, Nat.mod_lt _ (by simp [l])⟩
           { st with
             inFlight := l.eraseIdx j
             loads := assocReplace a.2 ((loadOf st a.2) - 1) st.loads
             queue := st.queue ++ [mkTestResult a.1 (env.outcomeOf a.1) a.2] }) := by
      unfold completeAt
      rw [hfl]
    set l := x :: xs with hl
    have hlen : 0 < l.length := by simp [hl]
    set j := i % l.length with hj
    have hjlt : j < l.length := Nat.mod_lt _ hlen
    set a := l.get ⟨j, hjlt⟩ with ha
    have hamem : a ∈ st.inFlight := by
      rw [hfl, ha]
      exact List.get_mem l j hjlt
    have hastate := hI.flight_keys a hamem
    have hred2 : completeAt env st i
        = { st with
            inFlight := l.eraseIdx j
            loads := assocReplace a.2 ((loadOf st a.2) - 1) st.loads
            queue := st.queue ++ [mkTestResult a.1 (env.outcomeOf a.1) a.2] } := hred
    rw [hred2]
    have hflight : st.inFlight = l := hfl
    have hkey : ∀ (p : String × String → Bool),
        (l.eraseIdx j).countP p + (if p a = true then 1 else 0) = l.countP p := by
      intro p
      have hc := countP_eraseIdx_get p l j hjlt
      rw [← ha] at hc
      exact hc
    refine ⟨?_, ?_, ?_⟩
    · refine ⟨hI.desc_keys_nodup, hI.graph_keys, hI.pending_keys, hI.pending_nodup,
        hI.ready_keys, hI.ready_nodup, hI.ready_count0, hI.counts_nonneg,
        hI.log_le_one, hI.log_zero_of_pos, hI.edges_keys, hI.idle_keys, hI.idle_nodup,
        ?_, ?_, ?_, ?_, hI.disp_keys, hI.disp_not_pending, ?_, ?_⟩
      · intro b hb
        have : b ∈ l := (List.eraseIdx_sublist l j).subset hb
        rw [← hflight] at this
        exact hI.flight_keys b this
      · intro r hr
        rcases List.mem_append.1 hr with hr | hr
        · exact hI.queue_ok r hr
        · rw [List.mem_singleton.1 hr]
          refine ⟨rfl, hastate.1, rfl, ?_⟩
          rcases List.mem_map.1 hastate.2 with ⟨t, ht, hname⟩
          refine ⟨t, ht, ?_⟩
          show some a.2 = some t.name
          rw [hname]
      · intro t ht
        have hlf := hI.load_flight t ht
        rw [hflight] at hlf
        show (assocFind t.name (assocReplace a.2 ((loadOf st a.2) - 1) st.loads)).getD 0
            = (l.eraseIdx j).countP (fun b => decide (b.2 = t.name))
        have hcp := hkey (fun b => decide (b.2 = t.name))
        simp only [decide_eq_true_eq] at hcp
        by_cases hn : t.name = a.2
        · rw [if_pos hn.symm] at hcp
          rw [hn, loadOf_replace_self]
          rw [hn] at hlf hcp
          omega
        · rw [if_neg (fun (hh : a.2 = t.name) => hn hh.symm)] at hcp
          rw [loadOf_replace_other _ _ _ _ hn]
          unfold loadOf at hlf
          omega
      · intro t ht hnid
        have hbb := hI.busy_bound t ht hnid
        have hlf := hI.load_flight t ht
        rw [hflight] at hlf
        show t.concurrency ≤ (assocFind t.name (assocReplace a.2 ((loadOf st a.2) - 1) st.loads)).getD 0
            + (st.queue ++ [mkTestResult a.1 (env.outcomeOf a.1) a.2]).countP
              (fun r => decide (r.targetName = some t.name))
        rw [List.countP_append]
        have hcp := hkey (fun b => decide (b.2 = t.name))
        simp only [decide_eq_true_eq] at hcp
        by_cases hn : t.name = a.2
        · rw [if_pos hn.symm] at hcp
          have hone : ([mkTestResult a.1 (env.outcomeOf a.1) a.2]).countP
              (fun r => decide (r.targetName = some t.name)) = 1 := by
            simp [mkTestResult, hn]
          rw [hone, hn, loadOf_replace_self]
          rw [hn] at hbb hlf hcp
          omega
        · rw [if_neg (fun (hh : a.2 = t.name) => hn hh.symm)] at hcp
          have hzero : ([mkTestResult a.1 (env.outcomeOf a.1) a.2]).countP
              (fun r => decide (r.targetName = some t.name)) = 0 := by
            simp [mkTestResult]
            exact fun hh => hn hh.symm
          rw [loadOf_replace_other _ _ _ _ hn, hzero]
          unfold loadOf at hbb
          omega
      · intro b
        have htk := hI.tok_eq b
        show st.pending.count b
            + (l.eraseIdx j).countP (fun c => decide (c.1 = b))
            + (st.queue ++ [mkTestResult a.1 (env.outcomeOf a.1) a.2]).countP
                (fun r => decide (r.kind = RKind.TEST ∧ r.id = b))
            + st.stream.countP (fun r => decide (r.kind = RKind.TEST ∧ r.id = b))
          = if b ∈ ids then 1 else 0
        rw [List.countP_append]
        unfold tok at htk
        rw [hflight] at htk
        have hcp := hkey (fun c => decide (c.1 = b))
        simp only [decide_eq_true_eq] at hcp
        by_cases hb : a.1 = b
        · rw [if_pos hb] at hcp
          have h2 : ([mkTestResult a.1 (env.outcomeOf a.1) a.2]).countP
              (fun r => decide (r.kind = RKind.TEST ∧ r.id = b)) = 1 := by
            simp [mkTestResult, hb]
          rw [h2]
          omega
        · rw [if_neg hb] at hcp
          have h2 : ([mkTestResult a.1 (env.outcomeOf a.1) a.2]).countP
              (fun r => decide (r.kind = RKind.TEST ∧ r.id = b)) = 0 := by
            simp [mkTestResult, hb]
          rw [h2]
          omega
      · intro b hb
        have : fpCount b { st with
            inFlight := l.eraseIdx j
            loads := assocReplace a.2 ((loadOf st a.2) - 1) st.loads
            queue := st.queue ++ [mkTestResult a.1 (env.outcomeOf a.1) a.2] }
            = fpCount b st := rfl
        rw [this] at hb
        exact hI.fp_not b hb
    · intro hemp
      exact absurd hemp (by simp [hl])
    · intro _
      constructor
      · show loopMeasure { st with
            inFlight := l.eraseIdx j
            loads := assocReplace a.2 ((loadOf st a.2) - 1) st.loads
            queue := st.queue ++ [mkTestResult a.1 (env.outcomeOf a.1) a.2] } + 1
          = loopMeasure st
        unfold loopMeasure unpushed
        have h1 : (l.eraseIdx j).length + 1 = l.length := by
          rw [List.length_eraseIdx_of_lt hjlt]
          omega
        have h2 : (st.queue ++ [mkTestResult a.1 (env.outcomeOf a.1) a.2]).length
            = st.queue.length + 1 := by
          rw [List.length_append]
          rfl
        have h3 : st.inFlight.length = l.length := by rw [hflight]
        simp only
        rw [h2]
        omega
      · show st.queue ++ [mkTestResult a.1 (env.outcomeOf a.1) a.2] ≠ []
        simp

theorem findTargetForResult_named (ts : List TargetSpec) (r : Result) (tn : String)
    (h : r.targetName = some tn) (hex : ∃ t ∈ ts, t.name = tn) :
    ∃ t, findTargetForResult ts r = some t ∧ t ∈ ts ∧ t.name = tn := by
  rcases hf : ts.find? (fun t => decide (t.name = tn)) with _ | t
  · exfalso
    rcases hex with ⟨u, hu, hname⟩
    have := List.find?_eq_none.1 hf u hu
    simp [hname] at this
  · have hp := List.find?_some hf
    have hmem := List.mem_of_find?_eq_some hf
    simp at hp
    refine ⟨t, ?_, hmem, hp⟩
    show (match r.targetName with
          | none => none
          | some tn =>
            match ts.find? (fun t => decide (t.name = tn)) with
            | some t => some t
            | none => ts.getLast?) = some t
    rw [h]
    show (match ts.find? (fun t => decide (t.name = tn)) with
          | some t => some t
          | none => ts.getLast?) = some t
    rw [hf]

theorem targetIsIdle_congr (st' st : EngineState) (t : TargetSpec)
    (h : st'.loads = st.loads) : targetIsIdle st' t = targetIsIdle st t := by
  unfold targetIsIdle loadOf
  rw [h]

/-- The shape of _AddResult on a TEST result carrying a target name. -/
theorem addResult_target_shape (ts : List TargetSpec) (st : EngineState) (r : Result)
    (t : TargetSpec) (hk : r.kind = RKind.TEST)
    (hfind : findTargetForResult ts r = some t) :
    addResult ts st r
      = (if t.name ∉ st.idleTargets ∧ targetIsIdle st t
         then { st with testResults := assocReplace r.id r st.testResults,
                        idleTargets := st.idleTargets ++ [t.name],
                        stream := st.stream ++ [r] }
         else { st with testResults := assocReplace r.id r st.testResults,
                        stream := st.stream ++ [r] }) := by
  simp only [addResult, noteIdleTarget, storeResult, hk, hfind]
  rw [targetIsIdle_congr { st with testResults := assocReplace r.id r st.testResults } st t rfl]
  by_cases hc : t.name ∉ st.idleTargets ∧ targetIsIdle st t
  · rw [if_pos hc, if_pos hc]
  · rw [if_neg hc, if_neg hc]

/-- Processing one dequeued TEST result (the body of _CheckForResponse
lines 296-313) preserves the run invariant and lowers the measure by at
least one. -/
theorem processResult_pop_inv (ids : List String) (ts : List TargetSpec)
    (hts : (ts.map TargetSpec.name).Nodup)
    (st : EngineState) (r : Result) (rest : List Result)
    (hq : st.queue = r :: rest) (hI : Inv ids ts st) :
    Inv ids ts (processResult ts { st with queue := rest } r)
    ∧ loopMeasure (processResult ts { st with queue := rest } r) + 1 ≤ loopMeasure st := by
  have hrq : r ∈ st.queue := by rw [hq]; exact List.mem_cons_self r rest
  rcases hI.queue_ok r hrq with ⟨hk, hid, hcause, tn0, htn0, hname0⟩
  rcases findTargetForResult_named ts r tn0.name hname0 ⟨tn0, htn0, rfl⟩ with
    ⟨t, hfind, htmem, htname⟩
  -- the state after _AddResult
  have hshape := addResult_target_shape ts { st with queue := rest } r t hk hfind
  -- Inv after _AddResult, by cases on whether the idle list is extended
  have hq_counts : ∀ (p : Result → Bool),
      st.queue.countP p = rest.countP p + (if p r = true then 1 else 0) := by
    intro p
    rw [hq, List.countP_cons]
  have main : Inv ids ts (addResult ts { st with queue := rest } r)
      ∧ loopMeasure (addResult ts { st with queue := rest } r) + 1 = loopMeasure st := by
    rw [hshape]
    by_cases hc : t.name ∉ ({ st with queue := rest } : EngineState).idleTargets
        ∧ targetIsIdle { st with queue := rest } t
    · rw [if_pos hc]
      constructor
      · refine ⟨hI.desc_keys_nodup, hI.graph_keys, hI.pending_keys, hI.pending_nodup,
          hI.ready_keys, hI.ready_nodup, hI.ready_count0, hI.counts_nonneg,
          hI.log_le_one, hI.log_zero_of_pos, hI.edges_keys, ?_, ?_, hI.flight_keys,
          ?_, hI.load_flight, ?_, hI.disp_keys, hI.disp_not_pending, ?_, ?_⟩
        · intro n hn
          rcases List.mem_append.1 hn with hn | hn
          · exact hI.idle_keys n hn
          · rw [List.mem_singleton.1 hn]
            exact List.mem_map_of_mem TargetSpec.name htmem
        · show (st.idleTargets ++ [t.name]).Nodup
          have h1 : t.name ∉ st.idleTargets := hc.1
          simp [List.nodup_append, hI.idle_nodup, h1]
        · intro r' hr'
          have : r' ∈ st.queue := by
            rw [hq]
            exact List.mem_cons_of_mem r hr'
          exact hI.queue_ok r' this
        · intro u hu hnid
          have hnid0 : u.name ∉ st.idleTargets :=
            fun hmem => hnid (List.mem_append.2 (Or.inl hmem))
          have hune : ¬ u.name = t.name := by
            intro he
            apply hnid
            show u.name ∈ st.idleTargets ++ [t.name]
            rw [he]
            exact List.mem_append.2 (Or.inr (List.mem_singleton.2 rfl))
          have hbb := hI.busy_bound u hu hnid0
          have hcnt := hq_counts (fun x => decide (x.targetName = some u.name))
          simp only [decide_eq_true_eq] at hcnt
          have hncond : ¬ (r.targetName = some u.name) := by
            rw [hname0]
            intro he
            injection he with he
            exact hune (htname.trans he).symm
          rw [if_neg hncond] at hcnt
          show u.concurrency ≤ loadOf st u.name
              + rest.countP (fun x => decide (x.targetName = some u.name))
          omega
        · intro b
          have htk := hI.tok_eq b
          unfold tok at htk
          have hcnt := hq_counts (fun x => decide (x.kind = RKind.TEST ∧ x.id = b))
          show st.pending.count b + st.inFlight.countP (fun a => decide (a.1 = b))
              + rest.countP (fun x => decide (x.kind = RKind.TEST ∧ x.id = b))
              + (st.stream ++ [r]).countP (fun x => decide (x.kind = RKind.TEST ∧ x.id = b))
            = if b ∈ ids then 1 else 0
          rw [List.countP_append, List.countP_cons, List.countP_nil]
          omega
        · intro b hb
          have hzero : ([r]).countP
              (fun x => decide (x.id = b ∧ x.cause = some (qmMessage "failed prerequisite")))
              = 0 := by
            simp [hcause]
          have hb2 : 0 < (st.stream ++ [r]).countP
              (fun x => decide (x.id = b ∧ x.cause = some (qmMessage "failed prerequisite"))) := hb
          rw [List.countP_append, hzero] at hb2
          simp only [Nat.add_zero] at hb2
          exact hI.fp_not b hb2
      · show 3 * st.pending.length
            + (st.ready.filter (fun i => decide (i ∉ st.pending))).length
            + 2 * st.inFlight.length + rest.length
            + 2 * ((keysOf st.graph).filter (fun i => decide (i ∉ st.readyLog))).length + 1
          = loopMeasure st
        unfold loopMeasure unpushed
        have hlq : st.queue.length = rest.length + 1 := by rw [hq]; rfl
        omega
    · rw [if_neg hc]
      constructor
      · refine ⟨hI.desc_keys_nodup, hI.graph_keys, hI.pending_keys, hI.pending_nodup,
          hI.ready_keys, hI.ready_nodup, hI.ready_count0, hI.counts_nonneg,
          hI.log_le_one, hI.log_zero_of_pos, hI.edges_keys, hI.idle_keys, hI.idle_nodup,
          hI.flight_keys, ?_, hI.load_flight, ?_, hI.disp_keys, hI.disp_not_pending,
          ?_, ?_⟩
        · intro r' hr'
          have : r' ∈ st.queue := by
            rw [hq]
            exact List.mem_cons_of_mem r hr'
          exact hI.queue_ok r' this
        · intro u hu hnid
          have hbb := hI.busy_bound u hu hnid
          have hcnt := hq_counts (fun x => decide (x.targetName = some u.name))
          show u.concurrency ≤ loadOf st u.name
              + rest.countP (fun x => decide (x.targetName = some u.name))
          by_cases hun : u.name = t.name
          · -- the target of r itself: it was not re-added, so it is not idle
            have hut : u = t := List.inj_on_of_nodup_map hts hu htmem hun
            subst hut
            have hni : ¬ (targetIsIdle { st with queue := rest } u = true) :=
              fun hidle => hc ⟨hnid, hidle⟩
            have hle : u.concurrency ≤ loadOf st u.name := by
              unfold targetIsIdle at hni
              simp only [decide_eq_true_eq, Nat.not_lt] at hni
              exact hni
            omega
          · simp only [decide_eq_true_eq] at hcnt
            have hncond : ¬ (r.targetName = some u.name) := by
              rw [hname0]
              intro he
              injection he with he
              exact hun (htname.trans he).symm
            rw [if_neg hncond] at hcnt
            omega
        · intro b
          have htk := hI.tok_eq b
          unfold tok at htk
          have hcnt := hq_counts (fun x => decide (x.kind = RKind.TEST ∧ x.id = b))
          show st.pending.count b + st.inFlight.countP (fun a => decide (a.1 = b))
              + rest.countP (fun x => decide (x.kind = RKind.TEST ∧ x.id = b))
              + (st.stream ++ [r]).countP (fun x => decide (x.kind = RKind.TEST ∧ x.id = b))
            = if b ∈ ids then 1 else 0
          rw [List.countP_append, List.countP_cons, List.countP_nil]
          omega
        · intro b hb
          have hzero : ([r]).countP
              (fun x => decide (x.id = b ∧ x.cause = some (qmMessage "failed prerequisite")))
              = 0 := by
            simp [hcause]
          have hb2 : 0 < (st.stream ++ [r]).countP
              (fun x => decide (x.id = b ∧ x.cause = some (qmMessage "failed prerequisite"))) := hb
          rw [List.countP_append, hzero] at hb2
          simp only [Nat.add_zero] at hb2
          exact hI.fp_not b hb2
      · show 3 * st.pending.length
            + (st.ready.filter (fun i => decide (i ∉ st.pending))).length
            + 2 * st.inFlight.length + rest.length
            + 2 * ((keysOf st.graph).filter (fun i => decide (i ∉ st.readyLog))).length + 1
          = loopMeasure st
        unfold loopMeasure unpushed
        have hlq : st.queue.length = rest.length + 1 := by rw [hq]; rfl
        omega
  -- the dependent-test update
  unfold processResult
  rw [if_pos hk]
  rcases hd : assocFind r.id (addResult ts { st with queue := rest } r).descriptors
      with _ | d
  · have h2 := main.2
    refine ⟨main.1, ?_⟩
    show loopMeasure (addResult ts { st with queue := rest } r) + 1 ≤ loopMeasure st
    omega
  · have hupd := updateDependentTests_inv ids ts (addResult ts { st with queue := rest } r)
      r.id r.outcome main.1
    refine ⟨hupd.1, ?_⟩
    show loopMeasure (updateDependentTests ts (addResult ts { st with queue := rest } r)
        r.id r.outcome) + 1 ≤ loopMeasure st
    have h1 := hupd.2
    have h2 := main.2
    omega

/-- The run invariant ignores the termination flag, the iteration counter
and the poll clock. -/
theorem Inv_flags (ids : List String) (ts : List TargetSpec) (st : EngineState)
    (b : Bool) (c n : Nat) (hI : Inv ids ts st) :
    Inv ids ts { st with terminated := b, clock := c, iter := n } :=
  ⟨hI.desc_keys_nodup, hI.graph_keys, hI.pending_keys, hI.pending_nodup,
   hI.ready_keys, hI.ready_nodup, hI.ready_count0, hI.counts_nonneg,
   hI.log_le_one, hI.log_zero_of_pos, hI.edges_keys, hI.idle_keys,
   hI.idle_nodup, hI.flight_keys, hI.queue_ok, hI.load_flight,
   hI.busy_bound, hI.disp_keys, hI.disp_not_pending, hI.tok_eq, hI.fp_not⟩

theorem bumpClock_inv (ids : List String) (ts : List TargetSpec) (st : EngineState)
    (hI : Inv ids ts st) : Inv ids ts (bumpClock st) :=
  Inv_flags ids ts st st.terminated (st.clock + 1) st.iter hI

theorem pollTerm_inv (ids : List String) (ts : List TargetSpec) (env : Env)
    (st : EngineState) (hI : Inv ids ts st) : Inv ids ts (pollTerm env st) :=
  Inv_flags ids ts st (st.terminated || env.termAt st.iter) st.clock (st.iter + 1) hI

/-- The environment's optional pre-poll completion preserves the
invariant and never raises the measure. -/
theorem maybeDeliver_inv (ids : List String) (ts : List TargetSpec) (env : Env)
    (st : EngineState) (hI : Inv ids ts st) :
    Inv ids ts (maybeDeliver env st)
    ∧ loopMeasure (maybeDeliver env st) ≤ loopMeasure st := by
  unfold maybeDeliver
  rcases env.deliver st.clock with _ | i
  · exact ⟨hI, le_refl _⟩
  · have h := completeAt_inv ids ts env st i hI
    constructor
    · exact h.1
    · show loopMeasure (completeAt env st i) ≤ loopMeasure st
      by_cases hf : st.inFlight = []
      · rw [h.2.1 hf]
      · have := (h.2.2 hf).1
        omega

/-- The blocking wait preserves the invariant; a received response
strictly lowers the measure, and blocking forever can only happen with
nothing in flight and nothing queued. -/
theorem waitPhase_inv (ids : List String) (ts : List TargetSpec)
    (hts : (ts.map TargetSpec.name).Nodup) (env : Env) (st : EngineState)
    (hI : Inv ids ts st) (hq : st.queue = []) :
    (∀ st', waitPhase env ts st = CheckOut.got st' →
        Inv ids ts st' ∧ loopMeasure st' + 1 ≤ loopMeasure st)
    ∧ (∀ st', waitPhase env ts st = CheckOut.blockedForever st' →
        st'.queue = [] ∧ st'.inFlight = [] ∧ Inv ids ts st'
          ∧ loopMeasure st' ≤ loopMeasure st)
    ∧ (∀ st', waitPhase env ts st ≠ CheckOut.nothing st') := by
  rcases hfl : st.inFlight with _ | ⟨x, xs⟩
  · have hred : waitPhase env ts st = CheckOut.blockedForever st := by
      unfold waitPhase
      rw [hfl]
    rw [hred]
    refine ⟨?_, ?_, ?_⟩
    · intro st' h
      cases h
    · intro st' h
      injection h with h
      subst h
      exact ⟨hq, hfl, hI, le_refl _⟩
    · intro st' h
      cases h
  · have hfne : st.inFlight ≠ [] := by
      rw [hfl]
      simp
    have hc := completeAt_inv ids ts env st (env.force st.clock) hI
    have hc2 := hc.2.2 hfne
    rcases hq3 : (completeAt env st (env.force st.clock)).queue with _ | ⟨r, rest⟩
    · exact absurd hq3 hc2.2
    · have hred : waitPhase env ts st = CheckOut.got (processResult ts
          { completeAt env st (env.force st.clock) with queue := rest } r) := by
        unfold waitPhase
        rw [hfl, hq3]
      rw [hred]
      refine ⟨?_, ?_, ?_⟩
      · intro st' h
        injection h with h
        subst h
        have hp := processResult_pop_inv ids ts hts
          (completeAt env st (env.force st.clock)) r rest hq3 hc.1
        refine ⟨hp.1, ?_⟩
        have h2 : loopMeasure (completeAt env st (env.force st.clock)) ≤ loopMeasure st := by
          have := hc2.1
          omega
        exact Nat.le_trans hp.2 h2
      · intro st' h
        cases h
      · intro st' h
        cases h

/-- _CheckForResponse preserves the invariant: a received response
strictly lowers the measure; "no response" leaves the measure bounded and
happens only in non-blocking mode; blocking forever can only happen with
an empty queue and nothing in flight. -/
theorem checkForResponse_inv (ids : List String) (ts : List TargetSpec)
    (hts : (ts.map TargetSpec.name).Nodup) (env : Env) (wait : Bool)
    (st : EngineState) (hI : Inv ids ts st) :
    (∀ st', checkForResponse env ts wait st = CheckOut.got st' →
        Inv ids ts st' ∧ loopMeasure st' + 1 ≤ loopMeasure st)
    ∧ (∀ st', checkForResponse env ts wait st = CheckOut.nothing st' →
        Inv ids ts st' ∧ loopMeasure st' ≤ loopMeasure st ∧ wait = false)
    ∧ (∀ st', checkForResponse env ts wait st = CheckOut.blockedForever st' →
        st'.queue = [] ∧ st'.inFlight = [] ∧ Inv ids ts st'
          ∧ loopMeasure st' ≤ loopMeasure st) := by
  have hI1 : Inv ids ts (bumpClock st) := bumpClock_inv ids ts st hI
  have hm1 : loopMeasure (bumpClock st) = loopMeasure st := rfl
  have hmd := maybeDeliver_inv ids ts env (bumpClock st) hI1
  have hI2 : Inv ids ts (maybeDeliver env (bumpClock st)) := hmd.1
  have hm2 : loopMeasure (maybeDeliver env (bumpClock st)) ≤ loopMeasure st := by
    have := hmd.2
    omega
  rcases hq2 : (maybeDeliver env (bumpClock st)).queue with _ | ⟨r, rest⟩
  · rcases hw : wait with _ | _
    · have hred : checkForResponse env ts false st
          = CheckOut.nothing (maybeDeliver env (bumpClock st)) := by
        unfold checkForResponse pollPhase
        rw [hq2]
        rfl
      rw [hred]
      refine ⟨?_, ?_, ?_⟩
      · intro st' h
        cases h
      · intro st' h
        injection h with h
        subst h
        exact ⟨hI2, hm2, rfl⟩
      · intro st' h
        cases h
    · have hred : checkForResponse env ts true st
          = waitPhase env ts (maybeDeliver env (bumpClock st)) := by
        unfold checkForResponse pollPhase
        rw [hq2]
        rfl
      rw [hred]
      have hwp := waitPhase_inv ids ts hts env (maybeDeliver env (bumpClock st)) hI2 hq2
      refine ⟨?_, ?_, ?_⟩
      · intro st' h
        have h1 := hwp.1 st' h
        refine ⟨h1.1, ?_⟩
        have h2 := h1.2
        omega
      · intro st' h
        exact absurd h (hwp.2.2 st')
      · intro st' h
        have h1 := hwp.2.1 st' h
        refine ⟨h1.1, h1.2.1, h1.2.2.1, ?_⟩
        have h2 := h1.2.2.2
        omega
  · have hred : checkForResponse env ts wait st = CheckOut.got (processResult ts
        { maybeDeliver env (bumpClock st) with queue := rest } r) := by
      unfold checkForResponse pollPhase
      rw [hq2]
    rw [hred]
    refine ⟨?_, ?_, ?_⟩
    · intro st' h
      injection h with h
      subst h
      have hp := processResult_pop_inv ids ts hts
        (maybeDeliver env (bumpClock st)) r rest hq2 hI2
      refine ⟨hp.1, ?_⟩
      exact Nat.le_trans hp.2 hm2
    · intro st' h
      cases h
    · intro st' h
      cases h

/-! ## The dispatch scan (lines 219-261) -/

/-- The state right after a successful dispatch of descId to target tn
(ready and pending entries removed, target.RunTest performed), before
the idle-list adjustment of lines 250-261. -/
def dispatchState (st : EngineState) (descId tn : String) : EngineState :=
  { st with
    ready := st.ready.erase descId
    pending := st.pending.erase descId
    inFlight := st.inFlight ++ [(descId, tn)]
    loads := assocReplace tn ((loadOf st tn) + 1) st.loads
    dispatched := st.dispatched ++ [descId] }

/-- The idle-list adjustment after a dispatch: when the dispatch made the
chosen target busy, the target leaves the idle list. -/
def postIdle (ts : List TargetSpec) (st : EngineState) (tn : String) : EngineState :=
  if (match ts.find? (fun t => t.name = tn) with
      | some t => ! targetIsIdle st t
      | none => false) = true
  then { st with idleTargets := st.idleTargets.erase tn }
  else st

theorem countP_append_singleton {α : Type} (l : List α) (x : α) (p : α → Bool) :
    (l ++ [x]).countP p = l.countP p + (if p x then 1 else 0) := by
  rw [List.countP_append]
  simp [List.countP_cons]

/-- Filtering after erasing one element of a duplicate-free list is
erasing after filtering. -/
theorem filter_erase_comm (l : List String) (p : String → Bool) (d : String)
    (hn : l.Nodup) : (l.erase d).filter p = (l.filter p).erase d := by
  rw [hn.erase_eq_filter, List.filter_filter, (hn.filter p).erase_eq_filter,
    List.filter_filter]
  apply List.filter_congr
  intro x _
  exact Bool.and_comm _ _

theorem findIdleFor_mem (st : EngineState) (ts : List TargetSpec) (descId : String)
    (l : List String) (tn : String) (h : findIdleFor st ts descId l = some tn) :
    tn ∈ l ∧ canRunOn st ts descId tn = true := by
  induction l with
  | nil => cases h
  | cons n rest ih =>
    unfold findIdleFor at h
    by_cases hc : canRunOn st ts descId n = true
    · rw [if_pos hc] at h
      injection h with h
      subst h
      exact ⟨List.mem_cons_self n rest, hc⟩
    · rw [if_neg hc] at h
      rcases ih h with ⟨h1, h2⟩
      exact ⟨List.mem_cons_of_mem n h1, h2⟩

theorem findMatchGo_mem (st : EngineState) (ts : List TargetSpec)
    (l : List String) (descId tn : String)
    (h : findMatchGo st ts l = some (descId, tn)) :
    descId ∈ l ∧ tn ∈ st.idleTargets ∧ canRunOn st ts descId tn = true := by
  induction l with
  | nil => cases h
  | cons d rest ih =>
    unfold findMatchGo at h
    rcases hf : findIdleFor st ts d st.idleTargets with _ | n
    · rw [hf] at h
      rcases ih h with ⟨h1, h2, h3⟩
      exact ⟨List.mem_cons_of_mem d h1, h2, h3⟩
    · rw [hf] at h
      injection h with h
      injection h with h1 h2
      rcases findIdleFor_mem st ts d st.idleTargets n hf with ⟨hm, hcan⟩
      refine ⟨?_, ?_, ?_⟩
      · rw [← h1]
        exact List.mem_cons_self d rest
      · rw [← h2]
        exact hm
      · rw [← h1, ← h2]
        exact hcan

/-- What a successful scan guarantees: the chosen test is ready, the
chosen target is idle, and the target accepts the test's group. -/
theorem findMatch_mem (st : EngineState) (ts : List TargetSpec) (descId tn : String)
    (h : findMatch st ts = some (descId, tn)) :
    descId ∈ st.ready ∧ tn ∈ st.idleTargets ∧ canRunOn st ts descId tn = true :=
  findMatchGo_mem st ts st.ready descId tn h

/-- A test/target pair the group check accepts names a loaded descriptor
and a real target. -/
theorem canRunOn_spec (st : EngineState) (ts : List TargetSpec) (descId tn : String)
    (h : canRunOn st ts descId tn = true) :
    descId ∈ keysOf st.descriptors ∧ tn ∈ ts.map TargetSpec.name := by
  unfold canRunOn at h
  rcases hd : assocFind descId st.descriptors with _ | d
  · rw [hd] at h
    exact Bool.noConfusion h
  · rw [hd] at h
    rcases hf : ts.find? (fun t => t.name = tn) with _ | t
    · rw [hf] at h
      exact Bool.noConfusion h
    · constructor
      · refine (assocFind_mem_keys descId st.descriptors).1 ?_
        rw [hd]
        rfl
      · have ht : t ∈ ts := List.mem_of_find?_eq_some hf
        have hpt := @List.find?_some TargetSpec (fun u => decide (u.name = tn)) t ts hf
        have hn : t.name = tn := of_decide_eq_true hpt
        rw [← hn]
        exact List.mem_map_of_mem TargetSpec.name ht

theorem dispatchScan_none (st : EngineState) (ts : List TargetSpec)
    (h : findMatch st ts = none) : dispatchScan st ts = (st, true) := by
  unfold dispatchScan
  rw [h]

theorem dispatchScan_eq_some_pending (st : EngineState) (ts : List TargetSpec)
    (descId tn : String) (h : findMatch st ts = some (descId, tn))
    (hp : descId ∈ st.pending) :
    dispatchScan st ts = (postIdle ts (dispatchState st descId tn) tn, false) := by
  unfold dispatchScan
  rw [h]
  show (if descId ∈ st.pending then (postIdle ts (dispatchState st descId tn) tn, false)
        else ({ st with ready := st.ready.erase descId }, false))
      = (postIdle ts (dispatchState st descId tn) tn, false)
  rw [if_pos hp]

theorem dispatchScan_eq_some_skip (st : EngineState) (ts : List TargetSpec)
    (descId tn : String) (h : findMatch st ts = some (descId, tn))
    (hp : descId ∉ st.pending) :
    dispatchScan st ts = ({ st with ready := st.ready.erase descId }, false) := by
  unfold dispatchScan
  rw [h]
  show (if descId ∈ st.pending then (postIdle ts (dispatchState st descId tn) tn, false)
        else ({ st with ready := st.ready.erase descId }, false))
      = ({ st with ready := st.ready.erase descId }, false)
  rw [if_neg hp]

/-- The idle-list adjustment preserves the run invariant: a target is
only dropped from the idle list when its load reached its concurrency. -/
theorem postIdle_inv (ids : List String) (ts : List TargetSpec)
    (hts : (ts.map TargetSpec.name).Nodup) (st : EngineState) (tn : String)
    (hI : Inv ids ts st) : Inv ids ts (postIdle ts st tn) := by
  unfold postIdle
  split
  next hni =>
    rcases hf : ts.find? (fun t => t.name = tn) with _ | t
    · rw [hf] at hni
      exact Bool.noConfusion hni
    · rw [hf] at hni
      have hni' : (! targetIsIdle st t) = true := hni
      have hidle : targetIsIdle st t = false := by
        rwa [Bool.not_eq_true'] at hni'
      have hle : t.concurrency ≤ loadOf st t.name := by
        have := of_decide_eq_false hidle
        omega
      have hpt := @List.find?_some TargetSpec (fun u => decide (u.name = tn)) t ts hf
      have htn : t.name = tn := of_decide_eq_true hpt
      have ht : t ∈ ts := List.mem_of_find?_eq_some hf
      refine ⟨hI.desc_keys_nodup, hI.graph_keys, hI.pending_keys, hI.pending_nodup,
        hI.ready_keys, hI.ready_nodup, hI.ready_count0, hI.counts_nonneg,
        hI.log_le_one, hI.log_zero_of_pos, hI.edges_keys, ?_, hI.idle_nodup.erase tn,
        hI.flight_keys, hI.queue_ok, hI.load_flight, ?_, hI.disp_keys,
        hI.disp_not_pending, hI.tok_eq, hI.fp_not⟩
      · intro n hn
        have hn' : n ∈ st.idleTargets.erase tn := hn
        exact hI.idle_keys n (List.erase_subset tn st.idleTargets hn')
      · intro t' ht' hni2
        have hni2' : t'.name ∉ st.idleTargets.erase tn := hni2
        show t'.concurrency ≤ loadOf st t'.name
            + st.queue.countP (fun r => decide (r.targetName = some t'.name))
        by_cases hmem : t'.name ∈ st.idleTargets
        · have hname : t'.name = t.name := by
            by_contra hne
            exact hni2' (hI.idle_nodup.mem_erase_iff.2 ⟨fun hh => hne (hh.trans htn.symm), hmem⟩)
          have hut : t' = t := List.inj_on_of_nodup_map hts ht' ht hname
          rw [hut]
          exact Nat.le_trans hle (Nat.le_add_right _ _)
        · exact hI.busy_bound t' ht' hmem
  next => exact hI

theorem loopMeasure_postIdle (ts : List TargetSpec) (st : EngineState) (tn : String) :
    loopMeasure (postIdle ts st tn) = loopMeasure st := by
  unfold postIdle
  split
  · rfl
  · rfl

/-- A successful dispatch of a still-pending ready test preserves the run
invariant and lowers the measure by exactly one (three for leaving the
pending list, plus two for joining the in-flight list). -/
theorem dispatch_inv (ids : List String) (ts : List TargetSpec)
    (hts : (ts.map TargetSpec.name).Nodup) (st : EngineState)
    (descId tn : String) (hI : Inv ids ts st)
    (hr : descId ∈ st.ready) (hcan : canRunOn st ts descId tn = true)
    (hp : descId ∈ st.pending) :
    Inv ids ts (postIdle ts (dispatchState st descId tn) tn)
    ∧ loopMeasure (postIdle ts (dispatchState st descId tn) tn) + 1 = loopMeasure st := by
  rcases canRunOn_spec st ts descId tn hcan with ⟨hdk, htnm⟩
  have hload : ∀ n, loadOf (dispatchState st descId tn) n
      = if n = tn then loadOf st n + 1 else loadOf st n := by
    intro n
    show (assocFind n (assocReplace tn (loadOf st tn + 1) st.loads)).getD 0
        = if n = tn then loadOf st n + 1 else loadOf st n
    by_cases hn : n = tn
    · subst hn
      rw [loadOf_replace_self, if_pos rfl]
    · rw [loadOf_replace_other tn n _ st.loads hn, if_neg hn]
      rfl
  have htok : ∀ i, tok i (dispatchState st descId tn) = tok i st := by
    intro i
    show (st.pending.erase descId).count i
        + (st.inFlight ++ [(descId, tn)]).countP (fun a => decide (a.1 = i))
        + st.queue.countP (fun r => decide (r.kind = RKind.TEST ∧ r.id = i))
        + st.stream.countP (fun r => decide (r.kind = RKind.TEST ∧ r.id = i))
        = tok i st
    unfold tok
    rw [countP_append_singleton]
    by_cases h : i = descId
    · have hcond : ((fun (a : String × String) => decide (a.1 = i)) (descId, tn)) = true := by
        simp only [decide_eq_true_eq]
        exact h.symm
      rw [if_pos hcond, h, List.count_erase_self,
        List.count_eq_one_of_mem hI.pending_nodup hp]
      omega
    · rw [List.count_erase_of_ne h]
      have hcond : ¬(((fun (a : String × String) => decide (a.1 = i)) (descId, tn)) = true) := by
        simp only [decide_eq_true_eq]
        exact fun hh => h hh.symm
      rw [if_neg hcond]
      omega
  have hmain : Inv ids ts (dispatchState st descId tn) := by
    refine ⟨hI.desc_keys_nodup, hI.graph_keys, ?_, hI.pending_nodup.erase descId,
      ?_, hI.ready_nodup.erase descId, ?_, hI.counts_nonneg, hI.log_le_one,
      hI.log_zero_of_pos, hI.edges_keys, hI.idle_keys, hI.idle_nodup, ?_,
      hI.queue_ok, ?_, ?_, ?_, ?_, ?_, ?_⟩
    · intro i hi
      have hi' : i ∈ st.pending.erase descId := hi
      exact hI.pending_keys i (List.erase_subset descId st.pending hi')
    · intro i hi
      have hi' : i ∈ st.ready.erase descId := hi
      exact hI.ready_keys i (List.erase_subset descId st.ready hi')
    · intro i hi
      have hi' : i ∈ st.ready.erase descId := hi
      exact hI.ready_count0 i (List.erase_subset descId st.ready hi')
    · intro a ha
      have ha' : a ∈ st.inFlight ++ [(descId, tn)] := ha
      rcases List.mem_append.1 ha' with hm | hm
      · exact hI.flight_keys a hm
      · rw [List.mem_singleton.1 hm]
        exact ⟨hdk, htnm⟩
    · intro t' ht'
      show loadOf (dispatchState st descId tn) t'.name
          = (st.inFlight ++ [(descId, tn)]).countP (fun a => decide (a.2 = t'.name))
      rw [hload, countP_append_singleton]
      have hlf := hI.load_flight t' ht'
      by_cases hn : t'.name = tn
      · rw [if_pos hn]
        have hcond : ((fun (a : String × String) => decide (a.2 = t'.name)) (descId, tn))
            = true := by
          simp only [decide_eq_true_eq]
          exact hn.symm
        rw [if_pos hcond]
        omega
      · rw [if_neg hn]
        have hcond : ¬(((fun (a : String × String) => decide (a.2 = t'.name)) (descId, tn))
            = true) := by
          simp only [decide_eq_true_eq]
          exact fun hh => hn hh.symm
        rw [if_neg hcond]
        omega
    · intro t' ht' hni
      have hni' : t'.name ∉ st.idleTargets := hni
      have hb := hI.busy_bound t' ht' hni'
      show t'.concurrency ≤ loadOf (dispatchState st descId tn) t'.name
          + st.queue.countP (fun r => decide (r.targetName = some t'.name))
      rw [hload]
      by_cases hn : t'.name = tn
      · rw [if_pos hn]
        omega
      · rw [if_neg hn]
        omega
    · intro i hi
      have hi' : i ∈ st.dispatched ++ [descId] := hi
      rcases List.mem_append.1 hi' with hm | hm
      · exact hI.disp_keys i hm
      · rw [List.mem_singleton.1 hm]
        exact hdk
    · intro i hi hmem
      have hi' : i ∈ st.dispatched ++ [descId] := hi
      have hmem' : i ∈ st.pending.erase descId := hmem
      rcases List.mem_append.1 hi' with hm | hm
      · exact hI.disp_not_pending i hm (List.erase_subset descId st.pending hmem')
      · rw [List.mem_singleton.1 hm] at hmem'
        exact (hI.pending_nodup.mem_erase_iff.1 hmem').1 rfl
    · intro i
      rw [htok i]
      exact hI.tok_eq i
    · intro i hpos
      have hpos' : 0 < fpCount i st := hpos
      rcases hI.fp_not i hpos' with ⟨hnp, hnd⟩
      constructor
      · intro hmem
        have hmem' : i ∈ st.pending.erase descId := hmem
        exact hnp (List.erase_subset descId st.pending hmem')
      · intro hmem
        have hmem' : i ∈ st.dispatched ++ [descId] := hmem
        rcases List.mem_append.1 hmem' with hm | hm
        · exact hnd hm
        · have hid : i = descId := List.mem_singleton.1 hm
          subst hid
          exact hnp hp
  have hmeas : loopMeasure (dispatchState st descId tn) + 1 = loopMeasure st := by
    show 3 * (st.pending.erase descId).length
        + ((st.ready.erase descId).filter
            (fun i => decide (i ∉ st.pending.erase descId))).length
        + 2 * (st.inFlight ++ [(descId, tn)]).length
        + st.queue.length
        + 2 * ((keysOf st.graph).filter (fun i => decide (i ∉ st.readyLog))).length + 1
      = loopMeasure st
    have hlen1 : (st.pending.erase descId).length + 1 = st.pending.length :=
      List.length_erase_add_one hp
    have hlen2 : (st.inFlight ++ [(descId, tn)]).length = st.inFlight.length + 1 := by
      simp
    have hfil : ((st.ready.erase descId).filter
          (fun i => decide (i ∉ st.pending.erase descId))).length
        = (st.ready.filter (fun i => decide (i ∉ st.pending))).length := by
      have hstep1 : (st.ready.erase descId).filter
            (fun i => decide (i ∉ st.pending.erase descId))
          = (st.ready.erase descId).filter (fun i => decide (i ∉ st.pending)) := by
        apply List.filter_congr
        intro x hx
        have hxd : x ≠ descId := (hI.ready_nodup.mem_erase_iff.1 hx).1
        by_cases hmem : x ∈ st.pending
        · have hm2 : x ∈ st.pending.erase descId :=
            hI.pending_nodup.mem_erase_iff.2 ⟨hxd, hmem⟩
          simp [hmem, hm2]
        · have hm2 : x ∉ st.pending.erase descId :=
            fun hh => hmem (List.erase_subset descId st.pending hh)
          simp [hmem, hm2]
      rw [hstep1, filter_erase_comm st.ready _ descId hI.ready_nodup]
      rw [List.erase_of_not_mem]
      intro hh
      rcases List.mem_filter.1 hh with ⟨_, hpd⟩
      rw [decide_eq_true_eq] at hpd
      exact hpd hp
    unfold loopMeasure unpushed
    rw [hfil]
    omega
  refine ⟨postIdle_inv ids ts hts (dispatchState st descId tn) tn hmain, ?_⟩
  rw [loopMeasure_postIdle]
  exact hmeas

/-- The whole dispatch scan, successful case: the invariant is preserved,
the measure drops by exactly one, and the wait flag is cleared. -/
theorem dispatchScan_some_inv (ids : List String) (ts : List TargetSpec)
    (hts : (ts.map TargetSpec.name).Nodup) (st : EngineState) (hI : Inv ids ts st)
    (descId tn : String) (h : findMatch st ts = some (descId, tn)) :
    Inv ids ts (dispatchScan st ts).1
    ∧ loopMeasure (dispatchScan st ts).1 + 1 = loopMeasure st
    ∧ (dispatchScan st ts).2 = false := by
  rcases findMatch_mem st ts descId tn h with ⟨hr, hidle, hcan⟩
  by_cases hp : descId ∈ st.pending
  · rw [dispatchScan_eq_some_pending st ts descId tn h hp]
    have hd := dispatch_inv ids ts hts st descId tn hI hr hcan hp
    exact ⟨hd.1, hd.2, rfl⟩
  · rw [dispatchScan_eq_some_skip st ts descId tn h hp]
    refine ⟨?_, ?_, rfl⟩
    · refine ⟨hI.desc_keys_nodup, hI.graph_keys, hI.pending_keys, hI.pending_nodup,
        ?_, hI.ready_nodup.erase descId, ?_, hI.counts_nonneg, hI.log_le_one,
        hI.log_zero_of_pos, hI.edges_keys, hI.idle_keys, hI.idle_nodup,
        hI.flight_keys, hI.queue_ok, hI.load_flight, hI.busy_bound, hI.disp_keys,
        hI.disp_not_pending, hI.tok_eq, hI.fp_not⟩
      · intro i hi
        have hi' : i ∈ st.ready.erase descId := hi
        exact hI.ready_keys i (List.erase_subset descId st.ready hi')
      · intro i hi
        have hi' : i ∈ st.ready.erase descId := hi
        exact hI.ready_count0 i (List.erase_subset descId st.ready hi')
    · show 3 * st.pending.length
          + ((st.ready.erase descId).filter (fun i => decide (i ∉ st.pending))).length
          + 2 * st.inFlight.length + st.queue.length
          + 2 * ((keysOf st.graph).filter (fun i => decide (i ∉ st.readyLog))).length + 1
        = loopMeasure st
      have hfil : ((st.ready.erase descId).filter
            (fun i => decide (i ∉ st.pending))).length + 1
          = (st.ready.filter (fun i => decide (i ∉ st.pending))).length := by
        rw [filter_erase_comm st.ready _ descId hI.ready_nodup]
        apply List.length_erase_add_one
        apply List.mem_filter.2
        refine ⟨hr, ?_⟩
        rw [decide_eq_true_eq]
        exact hp
      unfold loopMeasure unpushed
      omega
/-! ## Frame lemmas: which parts of the state each step leaves alone -/

theorem completeAt_untouched (env : Env) (st : EngineState) (i : Nat) :
    (completeAt env st i).descriptors = st.descriptors
    ∧ (completeAt env st i).pending = st.pending
    ∧ (completeAt env st i).ready = st.ready
    ∧ (completeAt env st i).idleTargets = st.idleTargets
    ∧ (completeAt env st i).terminated = st.terminated := by
  unfold completeAt
  rcases st.inFlight with _ | ⟨x, xs⟩
  · exact ⟨rfl, rfl, rfl, rfl, rfl⟩
  · exact ⟨rfl, rfl, rfl, rfl, rfl⟩

theorem maybeDeliver_untouched (env : Env) (st : EngineState) :
    (maybeDeliver env st).descriptors = st.descriptors
    ∧ (maybeDeliver env st).pending = st.pending
    ∧ (maybeDeliver env st).ready = st.ready
    ∧ (maybeDeliver env st).idleTargets = st.idleTargets
    ∧ (maybeDeliver env st).terminated = st.terminated := by
  unfold maybeDeliver
  rcases env.deliver st.clock with _ | i
  · exact ⟨rfl, rfl, rfl, rfl, rfl⟩
  · exact completeAt_untouched env st i

theorem storeResult_descriptors (st : EngineState) (r : Result) :
    (storeResult st r).descriptors = st.descriptors := by
  unfold storeResult
  rcases r.kind with _ | _
  · rfl
  · rfl

theorem noteIdleTarget_descriptors (ts : List TargetSpec) (st : EngineState) (r : Result) :
    (noteIdleTarget ts st r).descriptors = st.descriptors := by
  unfold noteIdleTarget
  rcases findTargetForResult ts r with _ | t
  · rfl
  · show (if t.name ∉ st.idleTargets ∧ targetIsIdle st t then
        { st with idleTargets := st.idleTargets ++ [t.name] } else st).descriptors
      = st.descriptors
    split
    · rfl
    · rfl

theorem addResult_descriptors (ts : List TargetSpec) (st : EngineState) (r : Result) :
    (addResult ts st r).descriptors = st.descriptors := by
  show (noteIdleTarget ts (storeResult st r) r).descriptors = st.descriptors
  rw [noteIdleTarget_descriptors, storeResult_descriptors]

theorem processResult_descriptors (ts : List TargetSpec) (st : EngineState) (r : Result) :
    (processResult ts st r).descriptors = st.descriptors := by
  unfold processResult
  by_cases hk : r.kind = RKind.TEST
  · rw [if_pos hk]
    rcases hd : assocFind r.id (addResult ts st r).descriptors with _ | d
    · show (addResult ts st r).descriptors = st.descriptors
      exact addResult_descriptors ts st r
    · show (updateDependentTests ts (addResult ts st r) r.id r.outcome).descriptors
          = st.descriptors
      rw [(updateDependentTests_frame ts (addResult ts st r) r.id r.outcome).descriptors_eq]
      exact addResult_descriptors ts st r
  · rw [if_neg hk]
    exact addResult_descriptors ts st r

theorem storeResult_terminated (st : EngineState) (r : Result) :
    (storeResult st r).terminated = st.terminated := by
  unfold storeResult
  rcases r.kind with _ | _
  · rfl
  · rfl

theorem noteIdleTarget_terminated (ts : List TargetSpec) (st : EngineState) (r : Result) :
    (noteIdleTarget ts st r).terminated = st.terminated := by
  unfold noteIdleTarget
  rcases findTargetForResult ts r with _ | t
  · rfl
  · show (if t.name ∉ st.idleTargets ∧ targetIsIdle st t then
        { st with idleTargets := st.idleTargets ++ [t.name] } else st).terminated
      = st.terminated
    split
    · rfl
    · rfl

theorem addResult_terminated (ts : List TargetSpec) (st : EngineState) (r : Result) :
    (addResult ts st r).terminated = st.terminated := by
  show (noteIdleTarget ts (storeResult st r) r).terminated = st.terminated
  rw [noteIdleTarget_terminated, storeResult_terminated]

theorem processResult_terminated (ts : List TargetSpec) (st : EngineState) (r : Result) :
    (processResult ts st r).terminated = st.terminated := by
  unfold processResult
  by_cases hk : r.kind = RKind.TEST
  · rw [if_pos hk]
    rcases hd : assocFind r.id (addResult ts st r).descriptors with _ | d
    · show (addResult ts st r).terminated = st.terminated
      exact addResult_terminated ts st r
    · show (updateDependentTests ts (addResult ts st r) r.id r.outcome).terminated
          = st.terminated
      rw [(updateDependentTests_frame ts (addResult ts st r) r.id r.outcome).terminated_eq]
      exact addResult_terminated ts st r
  · rw [if_neg hk]
    exact addResult_terminated ts st r

theorem dispatchScan_descriptors (st : EngineState) (ts : List TargetSpec) :
    (dispatchScan st ts).1.descriptors = st.descriptors := by
  rcases hm : findMatch st ts with _ | ⟨d, tn⟩
  · rw [dispatchScan_none st ts hm]
  · by_cases hp : d ∈ st.pending
    · rw [dispatchScan_eq_some_pending st ts d tn hm hp]
      show (postIdle ts (dispatchState st d tn) tn).descriptors = st.descriptors
      unfold postIdle
      split
      · rfl
      · rfl
    · rw [dispatchScan_eq_some_skip st ts d tn hm hp]

theorem dispatchScan_terminated (st : EngineState) (ts : List TargetSpec) :
    (dispatchScan st ts).1.terminated = st.terminated := by
  rcases hm : findMatch st ts with _ | ⟨d, tn⟩
  · rw [dispatchScan_none st ts hm]
  · by_cases hp : d ∈ st.pending
    · rw [dispatchScan_eq_some_pending st ts d tn hm hp]
      show (postIdle ts (dispatchState st d tn) tn).terminated = st.terminated
      unfold postIdle
      split
      · rfl
      · rfl
    · rw [dispatchScan_eq_some_skip st ts d tn hm hp]

/-- Whatever _CheckForResponse returns, the descriptor dictionary is
untouched. -/
theorem checkForResponse_descriptors (env : Env) (ts : List TargetSpec) (wait : Bool)
    (st : EngineState) :
    ∀ st', (checkForResponse env ts wait st = CheckOut.got st'
        ∨ checkForResponse env ts wait st = CheckOut.nothing st'
        ∨ checkForResponse env ts wait st = CheckOut.blockedForever st') →
      st'.descriptors = st.descriptors := by
  have hMd : (maybeDeliver env (bumpClock st)).descriptors = st.descriptors :=
    (maybeDeliver_untouched env (bumpClock st)).1
  rcases hq2 : (maybeDeliver env (bumpClock st)).queue with _ | ⟨r, rest⟩
  · cases wait
    · have hred : checkForResponse env ts false st
          = CheckOut.nothing (maybeDeliver env (bumpClock st)) := by
        unfold checkForResponse pollPhase
        rw [hq2]
        rfl
      intro st' hdisj
      rcases hdisj with h | h | h
      · rw [hred] at h
        cases h
      · rw [hred] at h
        injection h with h
        subst h
        exact hMd
      · rw [hred] at h
        cases h
    · have hred : checkForResponse env ts true st
          = waitPhase env ts (maybeDeliver env (bumpClock st)) := by
        unfold checkForResponse pollPhase
        rw [hq2]
        rfl
      rcases hfl : (maybeDeliver env (bumpClock st)).inFlight with _ | ⟨x, xs⟩
      · have hred2 : waitPhase env ts (maybeDeliver env (bumpClock st))
            = CheckOut.blockedForever (maybeDeliver env (bumpClock st)) := by
          unfold waitPhase
          rw [hfl]
        intro st' hdisj
        rcases hdisj with h | h | h
        · rw [hred, hred2] at h
          cases h
        · rw [hred, hred2] at h
          cases h
        · rw [hred, hred2] at h
          injection h with h
          subst h
          exact hMd
      · have hCd : (completeAt env (maybeDeliver env (bumpClock st))
            (env.force (maybeDeliver env (bumpClock st)).clock)).descriptors
            = st.descriptors :=
          (completeAt_untouched env (maybeDeliver env (bumpClock st)) _).1.trans hMd
        rcases hq3 : (completeAt env (maybeDeliver env (bumpClock st))
            (env.force (maybeDeliver env (bumpClock st)).clock)).queue with _ | ⟨r, rest⟩
        · have hred2 : waitPhase env ts (maybeDeliver env (bumpClock st))
              = CheckOut.blockedForever (completeAt env (maybeDeliver env (bumpClock st))
                  (env.force (maybeDeliver env (bumpClock st)).clock)) := by
            unfold waitPhase
            rw [hfl, hq3]
          intro st' hdisj
          rcases hdisj with h | h | h
          · rw [hred, hred2] at h
            cases h
          · rw [hred, hred2] at h
            cases h
          · rw [hred, hred2] at h
            injection h with h
            subst h
            exact hCd
        · have hred2 : waitPhase env ts (maybeDeliver env (bumpClock st))
              = CheckOut.got (processResult ts
                  { completeAt env (maybeDeliver env (bumpClock st))
                      (env.force (maybeDeliver env (bumpClock st)).clock) with
                    queue := rest } r) := by
            unfold waitPhase
            rw [hfl, hq3]
          intro st' hdisj
          rcases hdisj with h | h | h
          · rw [hred, hred2] at h
            injection h with h
            subst h
            exact (processResult_descriptors ts _ r).trans hCd
          · rw [hred, hred2] at h
            cases h
          · rw [hred, hred2] at h
            cases h
  · have hred : checkForResponse env ts wait st
        = CheckOut.got (processResult ts
            { maybeDeliver env (bumpClock st) with queue := rest } r) := by
      unfold checkForResponse pollPhase
      rw [hq2]
    intro st' hdisj
    rcases hdisj with h | h | h
    · rw [hred] at h
      injection h with h
      subst h
      exact (processResult_descriptors ts _ r).trans hMd
    · rw [hred] at h
      cases h
    · rw [hred] at h
      cases h

/-- Whatever _CheckForResponse returns, the termination flag is
untouched. -/
theorem checkForResponse_terminated (env : Env) (ts : List TargetSpec) (wait : Bool)
    (st : EngineState) :
    ∀ st', (checkForResponse env ts wait st = CheckOut.got st'
        ∨ checkForResponse env ts wait st = CheckOut.nothing st'
        ∨ checkForResponse env ts wait st = CheckOut.blockedForever st') →
      st'.terminated = st.terminated := by
  have hMd : (maybeDeliver env (bumpClock st)).terminated = st.terminated :=
    (maybeDeliver_untouched env (bumpClock st)).2.2.2.2
  rcases hq2 : (maybeDeliver env (bumpClock st)).queue with _ | ⟨r, rest⟩
  · cases wait
    · have hred : checkForResponse env ts false st
          = CheckOut.nothing (maybeDeliver env (bumpClock st)) := by
        unfold checkForResponse pollPhase
        rw [hq2]
        rfl
      intro st' hdisj
      rcases hdisj with h | h | h
      · rw [hred] at h
        cases h
      · rw [hred] at h
        injection h with h
        subst h
        exact hMd
      · rw [hred] at h
        cases h
    · have hred : checkForResponse env ts true st
          = waitPhase env ts (maybeDeliver env (bumpClock st)) := by
        unfold checkForResponse pollPhase
        rw [hq2]
        rfl
      rcases hfl : (maybeDeliver env (bumpClock st)).inFlight with _ | ⟨x, xs⟩
      · have hred2 : waitPhase env ts (maybeDeliver env (bumpClock st))
            = CheckOut.blockedForever (maybeDeliver env (bumpClock st)) := by
          unfold waitPhase
          rw [hfl]
        intro st' hdisj
        rcases hdisj with h | h | h
        · rw [hred, hred2] at h
          cases h
        · rw [hred, hred2] at h
          cases h
        · rw [hred, hred2] at h
          injection h with h
          subst h
          exact hMd
      · have hCd : (completeAt env (maybeDeliver env (bumpClock st))
            (env.force (maybeDeliver env (bumpClock st)).clock)).terminated
            = st.terminated :=
          (completeAt_untouched env (maybeDeliver env (bumpClock st)) _).2.2.2.2.trans hMd
        rcases hq3 : (completeAt env (maybeDeliver env (bumpClock st))
            (env.force (maybeDeliver env (bumpClock st)).clock)).queue with _ | ⟨r, rest⟩
        · have hred2 : waitPhase env ts (maybeDeliver env (bumpClock st))
              = CheckOut.blockedForever (completeAt env (maybeDeliver env (bumpClock st))
                  (env.force (maybeDeliver env (bumpClock st)).clock)) := by
            unfold waitPhase
            rw [hfl, hq3]
          intro st' hdisj
          rcases hdisj with h | h | h
          · rw [hred, hred2] at h
            cases h
          · rw [hred, hred2] at h
            cases h
          · rw [hred, hred2] at h
            injection h with h
            subst h
            exact hCd
        · have hred2 : waitPhase env ts (maybeDeliver env (bumpClock st))
              = CheckOut.got (processResult ts
                  { completeAt env (maybeDeliver env (bumpClock st))
                      (env.force (maybeDeliver env (bumpClock st)).clock) with
                    queue := rest } r) := by
            unfold waitPhase
            rw [hfl, hq3]
          intro st' hdisj
          rcases hdisj with h | h | h
          · rw [hred, hred2] at h
            injection h with h
            subst h
            exact (processResult_terminated ts _ r).trans hCd
          · rw [hred, hred2] at h
            cases h
          · rw [hred, hred2] at h
            cases h
  · have hred : checkForResponse env ts wait st
        = CheckOut.got (processResult ts
            { maybeDeliver env (bumpClock st) with queue := rest } r) := by
      unfold checkForResponse pollPhase
      rw [hq2]
    intro st' hdisj
    rcases hdisj with h | h | h
    · rw [hred] at h
      injection h with h
      subst h
      exact (processResult_terminated ts _ r).trans hMd
    · rw [hred] at h
      cases h
    · rw [hred] at h
      cases h

/-- Blocking forever is only possible in blocking mode with an empty
response queue and nothing in flight; the idle list is untouched and the
invariant still holds. -/
theorem checkForResponse_blocked (ids : List String) (ts : List TargetSpec)
    (env : Env) (wait : Bool) (st st' : EngineState) (hI : Inv ids ts st)
    (h : checkForResponse env ts wait st = CheckOut.blockedForever st') :
    wait = true ∧ st'.queue = [] ∧ st'.inFlight = []
    ∧ st'.idleTargets = st.idleTargets ∧ Inv ids ts st' := by
  have hIM : Inv ids ts (maybeDeliver env (bumpClock st)) :=
    (maybeDeliver_inv ids ts env (bumpClock st) (bumpClock_inv ids ts st hI)).1
  have hMi : (maybeDeliver env (bumpClock st)).idleTargets = st.idleTargets :=
    (maybeDeliver_untouched env (bumpClock st)).2.2.2.1
  rcases hq2 : (maybeDeliver env (bumpClock st)).queue with _ | ⟨r, rest⟩
  · cases wait
    · have hred : checkForResponse env ts false st
          = CheckOut.nothing (maybeDeliver env (bumpClock st)) := by
        unfold checkForResponse pollPhase
        rw [hq2]
        rfl
      rw [hred] at h
      cases h
    · have hred : checkForResponse env ts true st
          = waitPhase env ts (maybeDeliver env (bumpClock st)) := by
        unfold checkForResponse pollPhase
        rw [hq2]
        rfl
      rw [hred] at h
      rcases hfl : (maybeDeliver env (bumpClock st)).inFlight with _ | ⟨x, xs⟩
      · have hred2 : waitPhase env ts (maybeDeliver env (bumpClock st))
            = CheckOut.blockedForever (maybeDeliver env (bumpClock st)) := by
          unfold waitPhase
          rw [hfl]
        rw [hred2] at h
        injection h with h
        subst h
        exact ⟨rfl, hq2, hfl, hMi, hIM⟩
      · have hfne : (maybeDeliver env (bumpClock st)).inFlight ≠ [] := by
          rw [hfl]
          simp
        have hc := completeAt_inv ids ts env (maybeDeliver env (bumpClock st))
          (env.force (maybeDeliver env (bumpClock st)).clock) hIM
        have hqne := (hc.2.2 hfne).2
        rcases hq3 : (completeAt env (maybeDeliver env (bumpClock st))
            (env.force (maybeDeliver env (bumpClock st)).clock)).queue with _ | ⟨r, rest⟩
        · exact absurd hq3 hqne
        · have hred2 : waitPhase env ts (maybeDeliver env (bumpClock st))
              = CheckOut.got (processResult ts
                  { completeAt env (maybeDeliver env (bumpClock st))
                      (env.force (maybeDeliver env (bumpClock st)).clock) with
                    queue := rest } r) := by
            unfold waitPhase
            rw [hfl, hq3]
          rw [hred2] at h
          cases h
  · have hred : checkForResponse env ts wait st
        = CheckOut.got (processResult ts
            { maybeDeliver env (bumpClock st) with queue := rest } r) := by
      unfold checkForResponse pollPhase
      rw [hq2]
    rw [hred] at h
    cases h

/-- A failed scan of the idle targets means no idle target accepts the
test. -/
theorem findIdleFor_eq_none (st : EngineState) (ts : List TargetSpec) (descId : String)
    (l : List String) (h : findIdleFor st ts descId l = none) :
    ∀ tn ∈ l, ¬ (canRunOn st ts descId tn = true) := by
  induction l with
  | nil =>
    intro tn htn
    cases htn
  | cons n rest ih =>
    unfold findIdleFor at h
    by_cases hc : canRunOn st ts descId n = true
    · rw [if_pos hc] at h
      cases h
    · rw [if_neg hc] at h
      intro tn htn
      rcases List.mem_cons.1 htn with heq | htn
      · rw [heq]
        exact hc
      · exact ih h tn htn

/-- A normal loop exit hands back the iteration's entry state (with the
termination flag polled). -/
theorem loopIter_exit_eq (env : Env) (ts : List TargetSpec) (st st' : EngineState)
    (h : loopIter env ts st = IterOut.exit st') : st' = pollTerm env st := by
  unfold loopIter loopIterCore at h
  by_cases h1 : (pollTerm env st).pending = [] ∧ (pollTerm env st).ready = []
  · rw [if_pos h1] at h
    injection h with h
    exact h.symm
  · rw [if_neg h1] at h
    by_cases h2 : (pollTerm env st).terminated = true
    · rw [if_pos h2] at h
      injection h with h
      exact h.symm
    · rw [if_neg h2] at h
      by_cases h3 : (pollTerm env st).idleTargets = []
      · rw [if_pos h3] at h
        rcases hc : checkForResponse env ts true (pollTerm env st) with s2 | s2 | s2 <;>
          rw [hc] at h <;> cases h
      · rw [if_neg h3] at h
        by_cases h4 : (pollTerm env st).ready = []
            ∧ (pollTerm env st).idleTargets.length = ts.length
        · rw [if_pos h4] at h
          rcases hp : (pollTerm env st).pending with _ | ⟨p, rest⟩
          · rw [hp] at h
            injection h with h
            exact h.symm
          · rw [hp] at h
            cases h
        · rw [if_neg h4] at h
          rcases hc : checkForResponse env ts (dispatchScan (pollTerm env st) ts).2
              (dispatchScan (pollTerm env st) ts).1 with s2 | s2 | s2 <;>
            rw [hc] at h <;> cases h

/-- Every continuing loop iteration preserves the run invariant, strictly
decreases the measure, and leaves the descriptor dictionary alone. -/
theorem loopIter_next_inv (ids : List String) (ts : List TargetSpec)
    (hts : (ts.map TargetSpec.name).Nodup) (env : Env) (st st' : EngineState)
    (hI : Inv ids ts st) (h : loopIter env ts st = IterOut.next st') :
    Inv ids ts st' ∧ loopMeasure st' < loopMeasure st
    ∧ st'.descriptors = st.descriptors := by
  have hI0 : Inv ids ts (pollTerm env st) := pollTerm_inv ids ts env st hI
  have hm0 : loopMeasure (pollTerm env st) = loopMeasure st := rfl
  unfold loopIter loopIterCore at h
  by_cases h1 : (pollTerm env st).pending = [] ∧ (pollTerm env st).ready = []
  · rw [if_pos h1] at h
    cases h
  · rw [if_neg h1] at h
    by_cases h2 : (pollTerm env st).terminated = true
    · rw [if_pos h2] at h
      cases h
    · rw [if_neg h2] at h
      by_cases h3 : (pollTerm env st).idleTargets = []
      · rw [if_pos h3] at h
        have hCR := checkForResponse_inv ids ts hts env true (pollTerm env st) hI0
        rcases hc : checkForResponse env ts true (pollTerm env st) with s2 | s2 | s2 <;>
            rw [hc] at h
        · injection h with h
          subst h
          rcases hCR.1 s2 hc with ⟨hIs, hms⟩
          refine ⟨hIs, by omega, ?_⟩
          exact checkForResponse_descriptors env ts true (pollTerm env st) s2 (Or.inl hc)
        · rcases hCR.2.1 s2 hc with ⟨_, _, hw⟩
          cases hw
        · cases h
      · rw [if_neg h3] at h
        by_cases h4 : (pollTerm env st).ready = []
            ∧ (pollTerm env st).idleTargets.length = ts.length
        · rw [if_pos h4] at h
          rcases hp : (pollTerm env st).pending with _ | ⟨p, rest⟩
          · rw [hp] at h
            cases h
          · rw [hp] at h
            injection h with h
            subst h
            have hpmem : p ∈ (pollTerm env st).pending := by
              rw [hp]
              exact List.mem_cons_self p rest
            have hpnr : p ∉ (pollTerm env st).ready := by
              rw [h4.1]
              simp
            have hrr := removeRecord_inv ids ts (pollTerm env st) p
              (qmMessage "dependency cycle") [] hI0 hpmem hpnr
            have hupd := updateDependentTests_inv ids ts
              (addUntestedResult ts (removePending (pollTerm env st) p) p
                (qmMessage "dependency cycle") []) p Outcome.untested hrr.1
            refine ⟨hupd.1, ?_, ?_⟩
            · have ha := hupd.2
              have hb := hrr.2
              omega
            · rw [(updateDependentTests_frame ts
                (addUntestedResult ts (removePending (pollTerm env st) p) p
                  (qmMessage "dependency cycle") []) p Outcome.untested).descriptors_eq]
              rw [addUntestedResult_eq]
              rfl
        · rw [if_neg h4] at h
          rcases hm : findMatch (pollTerm env st) ts with _ | ⟨descId, tn⟩
          · rw [dispatchScan_none (pollTerm env st) ts hm] at h
            have hCR := checkForResponse_inv ids ts hts env true (pollTerm env st) hI0
            rcases hc : checkForResponse env ts ((pollTerm env st, true)).2
                ((pollTerm env st, true)).1 with s2 | s2 | s2 <;> rw [hc] at h
            · injection h with h
              subst h
              have hc2 : checkForResponse env ts true (pollTerm env st)
                  = CheckOut.got s2 := hc
              rcases hCR.1 s2 hc2 with ⟨hIs, hms⟩
              refine ⟨hIs, by omega, ?_⟩
              exact checkForResponse_descriptors env ts true (pollTerm env st) s2
                (Or.inl hc2)
            · have hc2 : checkForResponse env ts true (pollTerm env st)
                  = CheckOut.nothing s2 := hc
              rcases hCR.2.1 s2 hc2 with ⟨_, _, hw⟩
              cases hw
            · cases h
          · have hscan := dispatchScan_some_inv ids ts hts (pollTerm env st) hI0
              descId tn hm
            have hCR := checkForResponse_inv ids ts hts env
              (dispatchScan (pollTerm env st) ts).2 (dispatchScan (pollTerm env st) ts).1
              hscan.1
            rcases hc : checkForResponse env ts (dispatchScan (pollTerm env st) ts).2
                (dispatchScan (pollTerm env st) ts).1 with s2 | s2 | s2 <;> rw [hc] at h
            · injection h with h
              subst h
              rcases hCR.1 s2 hc with ⟨hIs, hms⟩
              have hsc := hscan.2.1
              refine ⟨hIs, by omega, ?_⟩
              have hd := checkForResponse_descriptors env ts
                (dispatchScan (pollTerm env st) ts).2 (dispatchScan (pollTerm env st) ts).1
                s2 (Or.inl hc)
              exact hd.trans (dispatchScan_descriptors (pollTerm env st) ts)
            · injection h with h
              subst h
              rcases hCR.2.1 s2 hc with ⟨hIs, hms, _⟩
              have hsc := hscan.2.1
              refine ⟨hIs, by omega, ?_⟩
              have hd := checkForResponse_descriptors env ts
                (dispatchScan (pollTerm env st) ts).2 (dispatchScan (pollTerm env st) ts).1
                s2 (Or.inr (Or.inl hc))
              exact hd.trans (dispatchScan_descriptors (pollTerm env st) ts)
            · cases h

/-- Under sane targets (at least one target, every concurrency positive,
distinct names) and a database whose loaded descriptors all have a
matching target group, the dispatch loop can never block forever. -/
theorem loopIter_no_stuck (ids : List String) (ts : List TargetSpec)
    (hne : ts ≠ []) (hconc : ∀ t ∈ ts, 1 ≤ t.concurrency)
    (hts : (ts.map TargetSpec.name).Nodup) (env : Env) (st st' : EngineState)
    (hI : Inv ids ts st)
    (hmatch : ∀ k d, assocFind k st.descriptors = some d →
        ∃ t ∈ ts, d.targetGroup ∈ t.groups) :
    loopIter env ts st ≠ IterOut.stuck st' := by
  intro h
  have hI0 : Inv ids ts (pollTerm env st) := pollTerm_inv ids ts env st hI
  unfold loopIter loopIterCore at h
  by_cases h1 : (pollTerm env st).pending = [] ∧ (pollTerm env st).ready = []
  · rw [if_pos h1] at h
    cases h
  · rw [if_neg h1] at h
    by_cases h2 : (pollTerm env st).terminated = true
    · rw [if_pos h2] at h
      cases h
    · rw [if_neg h2] at h
      by_cases h3 : (pollTerm env st).idleTargets = []
      · rw [if_pos h3] at h
        rcases hc : checkForResponse env ts true (pollTerm env st) with s2 | s2 | s2 <;>
            rw [hc] at h
        · cases h
        · cases h
        · injection h with h
          subst h
          rcases checkForResponse_blocked ids ts env true (pollTerm env st) s2 hI0 hc
            with ⟨_, hq', hfl', hidle', hI'⟩
          rcases List.exists_mem_of_ne_nil ts hne with ⟨t, ht⟩
          have hnil : t.name ∉ s2.idleTargets := by
            rw [hidle', h3]
            simp
          have hb2 := hI'.busy_bound t ht hnil
          have hl := hI'.load_flight t ht
          rw [hfl'] at hl
          simp only [List.countP_nil] at hl
          rw [hq'] at hb2
          simp only [List.countP_nil] at hb2
          have hc1 := hconc t ht
          omega
      · rw [if_neg h3] at h
        by_cases h4 : (pollTerm env st).ready = []
            ∧ (pollTerm env st).idleTargets.length = ts.length
        · rw [if_pos h4] at h
          rcases hp : (pollTerm env st).pending with _ | ⟨p, rest⟩
          · rw [hp] at h
            cases h
          · rw [hp] at h
            cases h
        · rw [if_neg h4] at h
          rcases hm : findMatch (pollTerm env st) ts with _ | ⟨descId, tn⟩
          · rw [dispatchScan_none (pollTerm env st) ts hm] at h
            rcases hc : checkForResponse env ts ((pollTerm env st, true)).2
                ((pollTerm env st, true)).1 with s2 | s2 | s2 <;> rw [hc] at h
            · cases h
            · cases h
            · injection h with h
              subst h
              have hc2 : checkForResponse env ts true (pollTerm env st)
                  = CheckOut.blockedForever s2 := hc
              rcases checkForResponse_blocked ids ts env true (pollTerm env st) s2
                hI0 hc2 with ⟨_, hq', hfl', hidle', hI'⟩
              -- every target is idle: a busy target would violate its own bound
              have hall : ∀ t ∈ ts, t.name ∈ s2.idleTargets := by
                intro t ht
                by_contra hni
                have hb2 := hI'.busy_bound t ht hni
                have hl := hI'.load_flight t ht
                rw [hfl'] at hl
                simp only [List.countP_nil] at hl
                rw [hq'] at hb2
                simp only [List.countP_nil] at hb2
                have hc1 := hconc t ht
                omega
              -- hence the idle list has exactly one entry per target
              have hsub : (ts.map TargetSpec.name) ⊆ s2.idleTargets := by
                intro x hx
                rcases List.mem_map.1 hx with ⟨t, ht, hxt⟩
                rw [← hxt]
                exact hall t ht
              have hlen1 : ts.length ≤ s2.idleTargets.length := by
                have := (hts.subperm hsub).length_le
                rwa [List.length_map] at this
              have hlen2 : s2.idleTargets.length ≤ ts.length := by
                have hsub2 : s2.idleTargets ⊆ ts.map TargetSpec.name := by
                  intro x hx
                  exact hI'.idle_keys x hx
                have := (hI'.idle_nodup.subperm hsub2).length_le
                rwa [List.length_map] at this
              have hleneq : (pollTerm env st).idleTargets.length = ts.length := by
                rw [← hidle']
                omega
              rcases hr : (pollTerm env st).ready with _ | ⟨d, drest⟩
              · exact h4 ⟨hr, hleneq⟩
              · -- a ready test exists; its accepting target is idle, so the
                -- scan could not have failed
                have hdk : d ∈ keysOf (pollTerm env st).descriptors := by
                  apply hI0.ready_keys
                  rw [hr]
                  exact List.mem_cons_self d drest
                have hsome := (assocFind_mem_keys d (pollTerm env st).descriptors).2 hdk
                rcases ho : assocFind d (pollTerm env st).descriptors with _ | desc
                · rw [ho] at hsome
                  cases hsome
                · have ho2 : assocFind d st.descriptors = some desc := ho
                  rcases hmatch d desc ho2 with ⟨t, ht, hgrp⟩
                  rcases hfind : ts.find? (fun u => u.name = t.name) with _ | t2
                  · have hnp := List.find?_eq_none.1 hfind t ht
                    simp at hnp
                  · have ht2 : t2 ∈ ts := List.mem_of_find?_eq_some hfind
                    have hpt := @List.find?_some TargetSpec
                      (fun u => decide (u.name = t.name)) t2 ts hfind
                    have hname : t2.name = t.name := of_decide_eq_true hpt
                    have ht2t : t2 = t := List.inj_on_of_nodup_map hts ht2 ht hname
                    have hcan : canRunOn (pollTerm env st) ts d t.name = true := by
                      unfold canRunOn
                      rw [ho, hfind, ht2t]
                      exact decide_eq_true hgrp
                    have htmem : t.name ∈ (pollTerm env st).idleTargets := by
                      rw [← hidle']
                      exact hall t ht
                    have hfm : findMatchGo (pollTerm env st) ts
                        ((pollTerm env st).ready) = none := hm
                    rw [hr] at hfm
                    unfold findMatchGo at hfm
                    rcases hf2 : findIdleFor (pollTerm env st) ts d
                        (pollTerm env st).idleTargets with _ | nn
                    · exact findIdleFor_eq_none (pollTerm env st) ts d
                        (pollTerm env st).idleTargets hf2 t.name htmem hcan
                    · rw [hf2] at hfm
                      cases hfm
          · have hscan := dispatchScan_some_inv ids ts hts (pollTerm env st) hI0
              descId tn hm
            rcases hc : checkForResponse env ts (dispatchScan (pollTerm env st) ts).2
                (dispatchScan (pollTerm env st) ts).1 with s2 | s2 | s2 <;> rw [hc] at h
            · cases h
            · cases h
            · injection h with h
              subst h
              rcases checkForResponse_blocked ids ts env
                (dispatchScan (pollTerm env st) ts).2 (dispatchScan (pollTerm env st) ts).1
                s2 hscan.1 hc with ⟨hw, _, _, _, _⟩
              rw [hscan.2.2] at hw
              cases hw

/-- A continuing iteration can only change the termination flag through
the poll at the loop condition. -/
theorem loopIter_next_terminated (env : Env) (ts : List TargetSpec) (st st' : EngineState)
    (h : loopIter env ts st = IterOut.next st') :
    st'.terminated = (pollTerm env st).terminated := by
  unfold loopIter loopIterCore at h
  by_cases h1 : (pollTerm env st).pending = [] ∧ (pollTerm env st).ready = []
  · rw [if_pos h1] at h
    cases h
  · rw [if_neg h1] at h
    by_cases h2 : (pollTerm env st).terminated = true
    · rw [if_pos h2] at h
      cases h
    · rw [if_neg h2] at h
      by_cases h3 : (pollTerm env st).idleTargets = []
      · rw [if_pos h3] at h
        rcases hc : checkForResponse env ts true (pollTerm env st) with s2 | s2 | s2 <;>
            rw [hc] at h
        · injection h with h
          subst h
          exact checkForResponse_terminated env ts true (pollTerm env st) s2 (Or.inl hc)
        · injection h with h
          subst h
          exact checkForResponse_terminated env ts true (pollTerm env st) s2
            (Or.inr (Or.inl hc))
        · cases h
      · rw [if_neg h3] at h
        by_cases h4 : (pollTerm env st).ready = []
            ∧ (pollTerm env st).idleTargets.length = ts.length
        · rw [if_pos h4] at h
          rcases hp : (pollTerm env st).pending with _ | ⟨p, rest⟩
          · rw [hp] at h
            cases h
          · rw [hp] at h
            injection h with h
            subst h
            rw [(updateDependentTests_frame ts
              (addUntestedResult ts (removePending (pollTerm env st) p) p
                (qmMessage "dependency cycle") []) p Outcome.untested).terminated_eq]
            rw [addUntestedResult_eq]
            rfl
        · rw [if_neg h4] at h
          rcases hc : checkForResponse env ts (dispatchScan (pollTerm env st) ts).2
              (dispatchScan (pollTerm env st) ts).1 with s2 | s2 | s2 <;> rw [hc] at h
          · injection h with h
            subst h
            have hd := checkForResponse_terminated env ts
              (dispatchScan (pollTerm env st) ts).2 (dispatchScan (pollTerm env st) ts).1
              s2 (Or.inl hc)
            exact hd.trans (dispatchScan_terminated (pollTerm env st) ts)
          · injection h with h
            subst h
            have hd := checkForResponse_terminated env ts
              (dispatchScan (pollTerm env st) ts).2 (dispatchScan (pollTerm env st) ts).1
              s2 (Or.inr (Or.inl hc))
            exact hd.trans (dispatchScan_terminated (pollTerm env st) ts)
          · cases h

/-- The dispatch loop preserves the run invariant through to a normal
exit, and never touches the descriptor dictionary. -/
theorem runLoop_done_inv (ids : List String) (ts : List TargetSpec)
    (hts : (ts.map TargetSpec.name).Nodup) (env : Env) :
    ∀ (fuel : Nat) (st st' : EngineState), Inv ids ts st →
      runLoop env ts fuel st = LoopOut.done st' →
      Inv ids ts st' ∧ st'.descriptors = st.descriptors := by
  intro fuel
  induction fuel with
  | zero =>
    intro st st' _ h
    cases h
  | succ n ih =>
    intro st st' hI h
    unfold runLoop at h
    rcases hi : loopIter env ts st with s2 | s2 | s2 <;> rw [hi] at h
    · injection h with h
      subst h
      have he := loopIter_exit_eq env ts st s2 hi
      constructor
      · rw [he]
        exact pollTerm_inv ids ts env st hI
      · rw [he]
        rfl
    · have hstep := loopIter_next_inv ids ts hts env st s2 hI hi
      rcases ih s2 st' hstep.1 h with ⟨hI', hd'⟩
      exact ⟨hI', hd'.trans hstep.2.2⟩
    · cases h

/-- When the environment never requests termination, the loop leaves the
termination flag alone. -/
theorem runLoop_done_terminated (env : Env) (ts : List TargetSpec)
    (hterm : ∀ n, env.termAt n = false) :
    ∀ (fuel : Nat) (st st' : EngineState),
      runLoop env ts fuel st = LoopOut.done st' →
      st'.terminated = st.terminated := by
  intro fuel
  induction fuel with
  | zero =>
    intro st st' h
    cases h
  | succ n ih =>
    intro st st' h
    unfold runLoop at h
    rcases hi : loopIter env ts st with s2 | s2 | s2 <;> rw [hi] at h
    · injection h with h
      subst h
      have he := loopIter_exit_eq env ts st s2 hi
      rw [he]
      show (st.terminated || env.termAt st.iter) = st.terminated
      rw [hterm st.iter, Bool.or_false]
    · have h2 := loopIter_next_terminated env ts st s2 hi
      have h3 := ih s2 st' h
      rw [h3, h2]
      show (st.terminated || env.termAt st.iter) = st.terminated
      rw [hterm st.iter, Bool.or_false]
    · cases h

/-- With enough fuel (one unit above the measure), the dispatch loop
terminates normally: it cannot hang and it cannot run out of fuel. -/
theorem runLoop_term (ids : List String) (ts : List TargetSpec)
    (hne : ts ≠ []) (hconc : ∀ t ∈ ts, 1 ≤ t.concurrency)
    (hts : (ts.map TargetSpec.name).Nodup) (env : Env) :
    ∀ (fuel : Nat) (st : EngineState), Inv ids ts st →
      (∀ k d, assocFind k st.descriptors = some d →
        ∃ t ∈ ts, d.targetGroup ∈ t.groups) →
      loopMeasure st < fuel →
      ∃ st', runLoop env ts fuel st = LoopOut.done st' ∧ Inv ids ts st'
        ∧ st'.descriptors = st.descriptors := by
  intro fuel
  induction fuel with
  | zero =>
    intro st _ _ hlt
    exact absurd hlt (Nat.not_lt_zero _)
  | succ n ih =>
    intro st hI hmatch hlt
    unfold runLoop
    rcases hi : loopIter env ts st with s2 | s2 | s2
    · have he := loopIter_exit_eq env ts st s2 hi
      refine ⟨s2, rfl, ?_, ?_⟩
      · rw [he]
        exact pollTerm_inv ids ts env st hI
      · rw [he]
        rfl
    · have hstep := loopIter_next_inv ids ts hts env st s2 hI hi
      have hm2 : ∀ k d, assocFind k s2.descriptors = some d →
          ∃ t ∈ ts, d.targetGroup ∈ t.groups := by
        intro k d hkd
        rw [hstep.2.2] at hkd
        exact hmatch k d hkd
      have hlt2 : loopMeasure s2 < n := by
        have := hstep.2.1
        omega
      rcases ih s2 hstep.1 hm2 hlt2 with ⟨st3, hrun, hI3, hd3⟩
      refine ⟨st3, ?_, hI3, ?_⟩
      · exact hrun
      · rw [hd3, hstep.2.2]
    · exact absurd hi (loopIter_no_stuck ids ts hne hconc hts env st s2 hI hmatch)

/-! ## The cleanup phase of Run: stopping targets and draining responses -/

theorem storeResult_untouched (st : EngineState) (r : Result) :
    (storeResult st r).queue = st.queue ∧ (storeResult st r).inFlight = st.inFlight
    ∧ (storeResult st r).pending = st.pending := by
  unfold storeResult
  rcases r.kind with _ | _
  · exact ⟨rfl, rfl, rfl⟩
  · exact ⟨rfl, rfl, rfl⟩

theorem noteIdleTarget_untouched (ts : List TargetSpec) (st : EngineState) (r : Result) :
    (noteIdleTarget ts st r).queue = st.queue
    ∧ (noteIdleTarget ts st r).inFlight = st.inFlight
    ∧ (noteIdleTarget ts st r).pending = st.pending := by
  unfold noteIdleTarget
  rcases findTargetForResult ts r with _ | t
  · exact ⟨rfl, rfl, rfl⟩
  · show (if t.name ∉ st.idleTargets ∧ targetIsIdle st t then
        { st with idleTargets := st.idleTargets ++ [t.name] } else st).queue = st.queue
      ∧ (if t.name ∉ st.idleTargets ∧ targetIsIdle st t then
        { st with idleTargets := st.idleTargets ++ [t.name] } else st).inFlight = st.inFlight
      ∧ (if t.name ∉ st.idleTargets ∧ targetIsIdle st t then
        { st with idleTargets := st.idleTargets ++ [t.name] } else st).pending = st.pending
    split
    · exact ⟨rfl, rfl, rfl⟩
    · exact ⟨rfl, rfl, rfl⟩

theorem addResult_untouched (ts : List TargetSpec) (st : EngineState) (r : Result) :
    (addResult ts st r).queue = st.queue ∧ (addResult ts st r).inFlight = st.inFlight
    ∧ (addResult ts st r).pending = st.pending := by
  refine ⟨?_, ?_, ?_⟩
  · show (noteIdleTarget ts (storeResult st r) r).queue = st.queue
    rw [(noteIdleTarget_untouched ts (storeResult st r) r).1,
      (storeResult_untouched st r).1]
  · show (noteIdleTarget ts (storeResult st r) r).inFlight = st.inFlight
    rw [(noteIdleTarget_untouched ts (storeResult st r) r).2.1,
      (storeResult_untouched st r).2.1]
  · show (noteIdleTarget ts (storeResult st r) r).pending = st.pending
    rw [(noteIdleTarget_untouched ts (storeResult st r) r).2.2,
      (storeResult_untouched st r).2.2]

theorem processResult_untouched (ts : List TargetSpec) (st : EngineState) (r : Result) :
    (processResult ts st r).queue = st.queue
    ∧ (processResult ts st r).inFlight = st.inFlight
    ∧ (processResult ts st r).pending.Sublist st.pending := by
  unfold processResult
  have hbase : (addResult ts st r).queue = st.queue
      ∧ (addResult ts st r).inFlight = st.inFlight
      ∧ (addResult ts st r).pending.Sublist st.pending :=
    ⟨(addResult_untouched ts st r).1, (addResult_untouched ts st r).2.1,
      (addResult_untouched ts st r).2.2 ▸ List.Sublist.refl _⟩
  by_cases hk : r.kind = RKind.TEST
  · rw [if_pos hk]
    rcases hd : assocFind r.id (addResult ts st r).descriptors with _ | d
    · exact hbase
    · have hf := updateDependentTests_frame ts (addResult ts st r) r.id r.outcome
      refine ⟨?_, ?_, ?_⟩
      · show (updateDependentTests ts (addResult ts st r) r.id r.outcome).queue = st.queue
        rw [hf.queue_eq]
        exact hbase.1
      · show (updateDependentTests ts (addResult ts st r) r.id r.outcome).inFlight
            = st.inFlight
        rw [hf.inFlight_eq]
        exact hbase.2.1
      · show (updateDependentTests ts (addResult ts st r) r.id r.outcome).pending.Sublist
            st.pending
        exact hf.pending_sub.trans hbase.2.2
  · rw [if_neg hk]
    exact hbase

theorem completeAt_nil (env : Env) (st : EngineState) (i : Nat)
    (h : st.inFlight = []) : completeAt env st i = st := by
  unfold completeAt
  rw [h]

/-- The drain steps of Run (line 137): with nothing in flight, a
non-blocking poll just pops the head of the response queue, or reports
the queue empty. -/
theorem checkForResponse_drain (env : Env) (ts : List TargetSpec) (st : EngineState)
    (hfl : st.inFlight = []) :
    (st.queue = [] → checkForResponse env ts false st = CheckOut.nothing (bumpClock st))
    ∧ (∀ r rest, st.queue = r :: rest →
        checkForResponse env ts false st
          = CheckOut.got (processResult ts { bumpClock st with queue := rest } r)) := by
  have hM : maybeDeliver env (bumpClock st) = bumpClock st := by
    unfold maybeDeliver
    rcases env.deliver (bumpClock st).clock with _ | i
    · rfl
    · exact completeAt_nil env (bumpClock st) i hfl
  have hbq : (bumpClock st).queue = st.queue := rfl
  constructor
  · intro hq
    unfold checkForResponse pollPhase
    rw [hM, hbq, hq]
    rfl
  · intro r rest hq
    unfold checkForResponse pollPhase
    rw [hM, hbq, hq]

/-- The final drain: with nothing in flight and enough fuel, drainAll
empties the response queue while preserving the invariant, and can only
shrink the pending list. -/
theorem drainAll_inv (ids : List String) (ts : List TargetSpec)
    (hts : (ts.map TargetSpec.name).Nodup) (env : Env) :
    ∀ (fuel : Nat) (st : EngineState), Inv ids ts st → st.inFlight = [] →
      st.queue.length < fuel →
      Inv ids ts (drainAll env ts fuel st)
      ∧ (drainAll env ts fuel st).queue = []
      ∧ (drainAll env ts fuel st).inFlight = []
      ∧ (drainAll env ts fuel st).pending.Sublist st.pending := by
  intro fuel
  induction fuel with
  | zero =>
    intro st _ _ hlen
    exact absurd hlen (Nat.not_lt_zero _)
  | succ n ih =>
    intro st hI hfl hlen
    rcases hq : st.queue with _ | ⟨r, rest⟩
    · have hstep := (checkForResponse_drain env ts st hfl).1 hq
      have he : drainAll env ts (n + 1) st = bumpClock st := by
        unfold drainAll
        rw [hstep]
      rw [he]
      exact ⟨bumpClock_inv ids ts st hI, hq, hfl, List.Sublist.refl _⟩
    · have hstep := (checkForResponse_drain env ts st hfl).2 r rest hq
      have he : drainAll env ts (n + 1) st
          = drainAll env ts n (processResult ts { bumpClock st with queue := rest } r) := by
        show (match checkForResponse env ts false st with
              | CheckOut.got st2 => drainAll env ts n st2
              | CheckOut.nothing st2 => st2
              | CheckOut.blockedForever st2 => st2)
            = drainAll env ts n (processResult ts { bumpClock st with queue := rest } r)
        rw [hstep]
      have hq' : (bumpClock st).queue = r :: rest := hq
      have hP := processResult_pop_inv ids ts hts (bumpClock st) r rest hq'
        (bumpClock_inv ids ts st hI)
      have hun := processResult_untouched ts { bumpClock st with queue := rest } r
      have hPq : (processResult ts { bumpClock st with queue := rest } r).queue
          = rest := hun.1
      have hPf : (processResult ts { bumpClock st with queue := rest } r).inFlight
          = [] := hun.2.1.trans hfl
      have hPp : (processResult ts { bumpClock st with queue := rest } r).pending.Sublist
          st.pending := hun.2.2
      have hlen2 : (processResult ts { bumpClock st with queue := rest } r).queue.length
          < n := by
        rw [hPq]
        have hc : st.queue.length = rest.length + 1 := by
          rw [hq]
          rfl
        omega
      rcases ih (processResult ts { bumpClock st with queue := rest } r) hP.1 hPf hlen2
        with ⟨h1, h2, h3, h4⟩
      rw [he]
      exact ⟨h1, h2, h3, h4.trans hPp⟩

theorem countP_split {α : Type} (p q : α → Bool) :
    ∀ l : List α,
      l.countP p = (l.filter q).countP p + (l.filter (fun a => ! q a)).countP p := by
  intro l
  induction l with
  | nil => rfl
  | cons a t ih =>
    rcases hq : q a with _ | _
    · have h1 : (a :: t).filter q = t.filter q := by
        rw [List.filter_cons, hq]
        rfl
      have h2 : (a :: t).filter (fun x => ! q x) = a :: t.filter (fun x => ! q x) := by
        rw [List.filter_cons]
        show (if (! q a) = true then _ else _) = _
        rw [hq]
        rfl
      rw [List.countP_cons, h1, h2, List.countP_cons]
      omega
    · have h1 : (a :: t).filter q = a :: t.filter q := by
        rw [List.filter_cons, hq]
        rfl
      have h2 : (a :: t).filter (fun x => ! q x) = t.filter (fun x => ! q x) := by
        rw [List.filter_cons]
        show (if (! q a) = true then _ else _) = _
        rw [hq]
        rfl
      rw [List.countP_cons, h1, List.countP_cons, h2]
      omega

/-- Stopping one target (Target.Stop per the spec: in-flight work
finishes and results reach the response queue) preserves the run
invariant; its in-flight assignments all leave the in-flight list. -/
theorem completeAllOf_inv (ids : List String) (ts : List TargetSpec) (env : Env)
    (st : EngineState) (t0 : TargetSpec) (ht0 : t0 ∈ ts) (hI : Inv ids ts st) :
    Inv ids ts (completeAllOf env st t0.name)
    ∧ (completeAllOf env st t0.name).pending = st.pending
    ∧ (completeAllOf env st t0.name).inFlight
        = st.inFlight.filter (fun a => decide (¬ a.2 = t0.name)) := by
  have hfilt : st.inFlight.filter (fun a => decide (¬ a.2 = t0.name))
      = st.inFlight.filter (fun a => ! decide (a.2 = t0.name)) := by
    apply List.filter_congr
    intro x _
    exact decide_not
  have hmine : ∀ a ∈ st.inFlight.filter (fun a => decide (a.2 = t0.name)),
      a ∈ st.inFlight ∧ a.2 = t0.name := by
    intro a ha
    have hpa := @List.of_mem_filter (String × String)
      (fun x => decide (x.2 = t0.name)) a st.inFlight ha
    exact ⟨List.mem_of_mem_filter ha, of_decide_eq_true hpa⟩
  have hnot : ∀ a ∈ st.inFlight.filter (fun a => decide (¬ a.2 = t0.name)),
      a ∈ st.inFlight ∧ ¬ a.2 = t0.name := by
    intro a ha
    have hpa := @List.of_mem_filter (String × String)
      (fun x => decide (¬ x.2 = t0.name)) a st.inFlight ha
    exact ⟨List.mem_of_mem_filter ha, of_decide_eq_true hpa⟩
  refine ⟨?_, rfl, rfl⟩
  refine ⟨hI.desc_keys_nodup, hI.graph_keys, hI.pending_keys, hI.pending_nodup,
    hI.ready_keys, hI.ready_nodup, hI.ready_count0, hI.counts_nonneg,
    hI.log_le_one, hI.log_zero_of_pos, hI.edges_keys, hI.idle_keys, hI.idle_nodup,
    ?_, ?_, ?_, ?_, hI.disp_keys, hI.disp_not_pending, ?_, ?_⟩
  · intro a ha
    have ha' : a ∈ st.inFlight.filter (fun a => decide (¬ a.2 = t0.name)) := ha
    exact hI.flight_keys a (hnot a ha').1
  · intro r hr
    have hr' : r ∈ st.queue ++ (st.inFlight.filter (fun a => decide (a.2 = t0.name))).map
        (fun a => mkTestResult a.1 (env.outcomeOf a.1) a.2) := hr
    rcases List.mem_append.1 hr' with hm | hm
    · exact hI.queue_ok r hm
    · rcases List.mem_map.1 hm with ⟨a, ha, hfa⟩
      rcases hmine a ha with ⟨hain, hatn⟩
      rw [← hfa]
      refine ⟨rfl, ?_, rfl, t0, ht0, ?_⟩
      · exact (hI.flight_keys a hain).1
      · show some a.2 = some t0.name
        rw [hatn]
  · intro t ht
    show (assocFind t.name (assocReplace t0.name 0 st.loads)).getD 0
        = (st.inFlight.filter (fun a => decide (¬ a.2 = t0.name))).countP
            (fun a => decide (a.2 = t.name))
    by_cases hn : t.name = t0.name
    · rw [hn, loadOf_replace_self]
      symm
      apply List.countP_eq_zero.2
      intro a ha
      rcases hnot a ha with ⟨_, hne⟩
      intro hp
      exact hne (of_decide_eq_true hp)
    · rw [loadOf_replace_other t0.name t.name 0 st.loads hn]
      have hlf := hI.load_flight t ht
      unfold loadOf at hlf
      rw [hlf, List.countP_filter]
      apply List.countP_congr
      intro a _
      constructor
      · intro hp
        have h1 := of_decide_eq_true hp
        have h2 : decide (¬ a.2 = t0.name) = true := by
          apply decide_eq_true
          intro hh
          exact hn (h1.symm.trans hh)
        show (decide (a.2 = t.name) && decide (¬ a.2 = t0.name)) = true
        rw [hp, h2]
        rfl
      · intro hp
        have hp' : (decide (a.2 = t.name) && decide (¬ a.2 = t0.name)) = true := hp
        simp only [Bool.and_eq_true] at hp'
        exact hp'.1
  · intro t ht hni
    have hni' : t.name ∉ st.idleTargets := hni
    have hb := hI.busy_bound t ht hni'
    show t.concurrency ≤ (assocFind t.name (assocReplace t0.name 0 st.loads)).getD 0
        + (st.queue ++ (st.inFlight.filter (fun a => decide (a.2 = t0.name))).map
            (fun a => mkTestResult a.1 (env.outcomeOf a.1) a.2)).countP
            (fun r => decide (r.targetName = some t.name))
    rw [List.countP_append]
    by_cases hn : t.name = t0.name
    · rw [hn, loadOf_replace_self]
      have hmap : ((st.inFlight.filter (fun a => decide (a.2 = t0.name))).map
          (fun a => mkTestResult a.1 (env.outcomeOf a.1) a.2)).countP
            (fun r => decide (r.targetName = some t0.name))
          = (st.inFlight.filter (fun a => decide (a.2 = t0.name))).length := by
        rw [List.countP_map]
        apply List.countP_eq_length.2
        intro a ha
        rcases hmine a ha with ⟨_, hatn⟩
        show decide ((some a.2 : Option String) = some t0.name) = true
        apply decide_eq_true
        rw [hatn]
      rw [hmap, ← List.countP_eq_length_filter]
      have hlf := hI.load_flight t ht
      unfold loadOf at hlf hb
      rw [hn] at hlf hb
      omega
    · have hmap : ((st.inFlight.filter (fun a => decide (a.2 = t0.name))).map
          (fun a => mkTestResult a.1 (env.outcomeOf a.1) a.2)).countP
            (fun r => decide (r.targetName = some t.name)) = 0 := by
        rw [List.countP_map]
        apply List.countP_eq_zero.2
        intro a ha
        rcases hmine a ha with ⟨_, hatn⟩
        intro hp
        have h1 : (some a.2 : Option String) = some t.name := of_decide_eq_true hp
        injection h1 with h1
        exact hn (h1.symm.trans hatn)
      rw [hmap, loadOf_replace_other t0.name t.name 0 st.loads hn]
      have hlf := hI.load_flight t ht
      unfold loadOf at hlf hb
      omega
  · intro i
    have hsplit := countP_split (fun (a : String × String) => decide (a.1 = i))
      (fun a => decide (a.2 = t0.name)) st.inFlight
    have hmap : ((st.inFlight.filter (fun a => decide (a.2 = t0.name))).map
        (fun a => mkTestResult a.1 (env.outcomeOf a.1) a.2)).countP
          (fun r => decide (r.kind = RKind.TEST ∧ r.id = i))
        = (st.inFlight.filter (fun a => decide (a.2 = t0.name))).countP
          (fun a => decide (a.1 = i)) := by
      rw [List.countP_map]
      apply List.countP_congr
      intro a _
      show decide (RKind.TEST = RKind.TEST ∧ a.1 = i) = true
          ↔ decide (a.1 = i) = true
      constructor
      · intro hp
        exact decide_eq_true (of_decide_eq_true hp).2
      · intro hp
        exact decide_eq_true ⟨rfl, of_decide_eq_true hp⟩
    have htq := hI.tok_eq i
    unfold tok at htq ⊢
    show st.pending.count i
        + ((st.inFlight.filter (fun a => decide (¬ a.2 = t0.name))).countP
            (fun a => decide (a.1 = i)))
        + ((st.queue ++ (st.inFlight.filter (fun a => decide (a.2 = t0.name))).map
            (fun a => mkTestResult a.1 (env.outcomeOf a.1) a.2)).countP
            (fun r => decide (r.kind = RKind.TEST ∧ r.id = i)))
        + (st.stream.countP (fun r => decide (r.kind = RKind.TEST ∧ r.id = i)))
        = if i ∈ ids then 1 else 0
    rw [List.countP_append, hmap, hfilt]
    omega
  · intro i hpos
    have hpos2 : 0 < st.stream.countP
        (fun r => decide (r.id = i ∧ r.cause = some (qmMessage "failed prerequisite"))) :=
      hpos
    exact hI.fp_not i hpos2

/-- The target-stopping fold of Run: the invariant survives, the pending
list is untouched, and every processed target's in-flight work is gone. -/
theorem stopFold_inv (ids : List String) (ts : List TargetSpec) (env : Env) :
    ∀ (l : List TargetSpec) (st : EngineState), (∀ t ∈ l, t ∈ ts) → Inv ids ts st →
      Inv ids ts (l.foldl (fun s t => completeAllOf env s t.name) st)
      ∧ (l.foldl (fun s t => completeAllOf env s t.name) st).pending = st.pending
      ∧ (∀ a ∈ (l.foldl (fun s t => completeAllOf env s t.name) st).inFlight,
          a ∈ st.inFlight ∧ ∀ t ∈ l, ¬ a.2 = t.name) := by
  intro l
  induction l with
  | nil =>
    intro st _ hI
    exact ⟨hI, rfl, fun a ha => ⟨ha, fun t ht => absurd ht (List.not_mem_nil t)⟩⟩
  | cons t l' ih =>
    intro st hsub hI
    have ht : t ∈ ts := hsub t (List.mem_cons_self t l')
    have hC := completeAllOf_inv ids ts env st t ht hI
    have hfold : (t :: l').foldl (fun s t => completeAllOf env s t.name) st
        = l'.foldl (fun s t => completeAllOf env s t.name) (completeAllOf env st t.name) :=
      rfl
    rw [hfold]
    rcases ih (completeAllOf env st t.name) (fun u hu => hsub u (List.mem_cons_of_mem t hu))
      hC.1 with ⟨h1, h2, h3⟩
    refine ⟨h1, h2.trans hC.2.1, ?_⟩
    intro a ha
    rcases h3 a ha with ⟨hain, hrest⟩
    rw [hC.2.2] at hain
    have hpa := @List.of_mem_filter (String × String)
      (fun x => decide (¬ x.2 = t.name)) a st.inFlight hain
    have hnot := of_decide_eq_true hpa
    refine ⟨List.mem_of_mem_filter hain, ?_⟩
    intro u hu
    rcases List.mem_cons.1 hu with heq | hu'
    · rw [heq]
      exact hnot
    · exact hrest u hu'

/-- Run's target-stopping loop (lines 131-134): the invariant survives,
pending is untouched, and nothing remains in flight. -/
theorem stopAllTargets_inv (ids : List String) (ts : List TargetSpec) (env : Env)
    (st : EngineState) (hI : Inv ids ts st) :
    Inv ids ts (stopAllTargets env ts st)
    ∧ (stopAllTargets env ts st).pending = st.pending
    ∧ (stopAllTargets env ts st).inFlight = [] := by
  rcases stopFold_inv ids ts env ts st (fun t ht => ht) hI with ⟨h1, h2, h3⟩
  refine ⟨h1, h2, ?_⟩
  apply List.eq_nil_iff_forall_not_mem.2
  intro a ha
  rcases h3 a ha with ⟨_, hnone⟩
  have hk := h1.flight_keys a ha
  rcases List.mem_map.1 hk.2 with ⟨t, ht, htn⟩
  exact hnone t ht htn.symm

/-! ## Graph construction (lines 161-184) establishes the run invariant -/

theorem keysOf_replace_not_mem {α : Type} (k : String) (v : α) :
    ∀ l : List (String × α), k ∉ keysOf l →
      keysOf (assocReplace k v l) = keysOf l ++ [k] := by
  intro l
  induction l with
  | nil =>
    intro _
    rfl
  | cons p rest ih =>
    intro h
    rcases p with ⟨k', v'⟩
    have h1 : ¬ (k = k') := by
      intro hh
      apply h
      show k ∈ k' :: keysOf rest
      rw [hh]
      exact List.mem_cons_self _ _
    have h2 : k ∉ keysOf rest := by
      intro hh
      exact h (List.mem_cons_of_mem k' hh)
    show keysOf (if k' = k then (k, v) :: rest else (k', v') :: assocReplace k v rest)
        = keysOf ((k', v') :: rest) ++ [k]
    rw [if_neg (fun hh => h1 hh.symm)]
    show k' :: keysOf (assocReplace k v rest) = (k' :: keysOf rest) ++ [k]
    rw [ih h2]
    rfl

/-- The state of the engine while _RunTests builds the graph (lines
161-171): all worklists but pending untouched, every processed id either
loaded (one descriptor, one zero-count node, one pending entry) or
failed (one UNTESTED load-failure result in the streams). -/
structure BuildInv (env : Env) (ts : List TargetSpec) (done : List String)
    (st : EngineState) : Prop where
  ready_nil : st.ready = []
  idle_eq : st.idleTargets = ts.map TargetSpec.name
  loads_nil : st.loads = []
  inFlight_nil : st.inFlight = []
  queue_nil : st.queue = []
  disp_nil : st.dispatched = []
  log_nil : st.readyLog = []
  term_false : st.terminated = false
  desc_nodup : (keysOf st.descriptors).Nodup
  graph_keys : keysOf st.graph = keysOf st.descriptors
  keys_iff : ∀ i, i ∈ keysOf st.descriptors ↔ (i ∈ done ∧ (env.getTest i).isSome)
  pending_iff : ∀ i, i ∈ st.pending ↔ i ∈ keysOf st.descriptors
  pending_nodup : st.pending.Nodup
  counts_zero : ∀ i, countOf st i = 0
  edges_nil : ∀ i, edgesOf st i = []
  tok_done : ∀ i, tok i st = if i ∈ done then 1 else 0
  fp_zero : ∀ i, fpCount i st = 0
  desc_src : ∀ k dd, assocFind k st.descriptors = some dd → env.getTest k = some dd
  fail_stream : ∀ i ∈ done, env.getTest i = none → loadFailureResult i ∈ st.stream

theorem initState_build (env : Env) (ts : List TargetSpec) :
    BuildInv env ts [] (initState ts) := by
  refine ⟨rfl, rfl, rfl, rfl, rfl, rfl, rfl, rfl, List.nodup_nil, rfl, ?_, ?_,
    List.nodup_nil, ?_, ?_, ?_, ?_, ?_, ?_⟩
  · intro i
    simp [keysOf, initState]
  · intro i
    simp [keysOf, initState]
  · intro i
    rfl
  · intro i
    rfl
  · intro i
    simp [tok, initState]
  · intro i
    rfl
  · intro k dd h
    cases h
  · intro i hi
    cases hi

theorem createNodes_build (env : Env) (ts : List TargetSpec) :
    ∀ (todo done : List String) (st : EngineState),
      BuildInv env ts done st → todo.Nodup → (∀ i ∈ todo, i ∉ done) →
      BuildInv env ts (done ++ todo) (createNodes env ts todo st) := by
  intro todo
  induction todo with
  | nil =>
    intro done st hB _ _
    show BuildInv env ts (done ++ []) (createNodes env ts [] st)
    rw [List.append_nil]
    exact hB
  | cons id rest ih =>
    intro done st hB hnd hfresh
    have hid : id ∉ done := hfresh id (List.mem_cons_self id rest)
    have hidk : id ∉ keysOf st.descriptors := by
      intro hh
      exact hid ((hB.keys_iff id).1 hh).1
    have hidg : id ∉ keysOf st.graph := by
      rw [hB.graph_keys]
      exact hidk
    have hidp : id ∉ st.pending := by
      intro hh
      exact hidk ((hB.pending_iff id).1 hh)
    have hstep : BuildInv env ts (done ++ [id])
        (match env.getTest id with
         | some d =>
           { st with
             descriptors := assocReplace id d st.descriptors
             graph := assocReplace id { count := 0, edges := [] } st.graph
             pending := st.pending ++ [id] }
         | none => addResult ts st (loadFailureResult id)) := by
      rcases hg : env.getTest id with _ | d
      · -- load failure: record the UNTESTED result, leave the graph alone
        show BuildInv env ts (done ++ [id]) (addResult ts st (loadFailureResult id))
        rw [addResult_no_target ts st (loadFailureResult id) rfl rfl]
        refine ⟨hB.ready_nil, hB.idle_eq, hB.loads_nil, hB.inFlight_nil, hB.queue_nil,
          hB.disp_nil, hB.log_nil, hB.term_false, hB.desc_nodup, hB.graph_keys,
          ?_, hB.pending_iff, hB.pending_nodup, hB.counts_zero, hB.edges_nil,
          ?_, ?_, hB.desc_src, ?_⟩
        · intro i
          rw [hB.keys_iff i]
          constructor
          · intro ⟨h1, h2⟩
            exact ⟨List.mem_append_left _ h1, h2⟩
          · intro ⟨h1, h2⟩
            rcases List.mem_append.1 h1 with hm | hm
            · exact ⟨hm, h2⟩
            · rw [List.mem_singleton.1 hm, hg] at h2
              cases h2
        · intro i
          rw [tok_stream_append, hB.tok_done i]
          by_cases hii : i = id
          · subst hii
            have hyes : ((loadFailureResult i).kind = RKind.TEST
                ∧ (loadFailureResult i).id = i) := ⟨rfl, rfl⟩
            rw [if_neg hid, if_pos hyes,
              if_pos (List.mem_append_right done (List.mem_singleton.2 rfl))]
          · have hin : ¬ ((loadFailureResult id).kind = RKind.TEST
                ∧ (loadFailureResult id).id = i) := by
              intro hh
              exact hii (hh.2.symm)
            rw [if_neg hin]
            by_cases hdone : i ∈ done
            · rw [if_pos hdone, if_pos (List.mem_append_left _ hdone)]
            · have hnm : i ∉ done ++ [id] := by
                intro hmem
                rcases List.mem_append.1 hmem with hm | hm
                · exact hdone hm
                · exact hii (List.mem_singleton.1 hm)
              rw [if_neg hdone, if_neg hnm]
        · intro i
          rw [fpCount_stream_append, hB.fp_zero i]
          have hnc : ¬ ((loadFailureResult id).id = i
              ∧ (loadFailureResult id).cause = some (qmMessage "failed prerequisite")) := by
            intro hh
            have h2 : ("Could not load test." : String) = qmMessage "failed prerequisite" := by
              injection hh.2
            exact absurd h2 (by decide)
          rw [if_neg hnc]
        · intro i hmem hgn
          rcases List.mem_append.1 hmem with hm | hm
          · exact List.mem_append_left _ (hB.fail_stream i hm hgn)
          · rw [List.mem_singleton.1 hm]
            exact List.mem_append_right _ (List.mem_singleton.2 rfl)
      · -- loaded: new descriptor, zero-count node, pending entry
        show BuildInv env ts (done ++ [id])
          { st with
            descriptors := assocReplace id d st.descriptors
            graph := assocReplace id { count := 0, edges := [] } st.graph
            pending := st.pending ++ [id] }
        have hkeys : keysOf (assocReplace id d st.descriptors)
            = keysOf st.descriptors ++ [id] := keysOf_replace_not_mem id d _ hidk
        have hgkeys : keysOf (assocReplace id { count := 0, edges := [] } st.graph)
            = keysOf st.graph ++ [id] := keysOf_replace_not_mem id _ _ hidg
        refine ⟨hB.ready_nil, hB.idle_eq, hB.loads_nil, hB.inFlight_nil, hB.queue_nil,
          hB.disp_nil, hB.log_nil, hB.term_false, ?_, ?_, ?_, ?_, ?_, ?_, ?_, ?_,
          hB.fp_zero, ?_, ?_⟩
        · rw [hkeys]
          simp [List.nodup_append, hB.desc_nodup, hidk]
        · rw [hkeys, hgkeys, hB.graph_keys]
        · intro i
          rw [hkeys]
          constructor
          · intro hmem
            rcases List.mem_append.1 hmem with hm | hm
            · rcases (hB.keys_iff i).1 hm with ⟨h1, h2⟩
              exact ⟨List.mem_append_left _ h1, h2⟩
            · rw [List.mem_singleton.1 hm]
              refine ⟨List.mem_append_right _ (List.mem_singleton.2 rfl), ?_⟩
              rw [hg]
              rfl
          · intro ⟨h1, h2⟩
            rcases List.mem_append.1 h1 with hm | hm
            · exact List.mem_append_left _ ((hB.keys_iff i).2 ⟨hm, h2⟩)
            · rw [List.mem_singleton.1 hm]
              exact List.mem_append_right _ (List.mem_singleton.2 rfl)
        · intro i
          rw [hkeys]
          show i ∈ st.pending ++ [id] ↔ _
          rw [List.mem_append, List.mem_append, hB.pending_iff i]
        · show (st.pending ++ [id]).Nodup
          simp [List.nodup_append, hB.pending_nodup, hidp]
        · intro i
          show ((assocFind i (assocReplace id { count := 0, edges := [] } st.graph)).map
            (fun n => n.count)).getD 0 = 0
          by_cases hii : i = id
          · rw [hii, assocFind_replace_self]
            rfl
          · rw [assocFind_replace_other id i _ st.graph hii]
            exact hB.counts_zero i
        · intro i
          show ((assocFind i (assocReplace id { count := 0, edges := [] } st.graph)).map
            (fun n => n.edges)).getD [] = []
          by_cases hii : i = id
          · rw [hii, assocFind_replace_self]
            rfl
          · rw [assocFind_replace_other id i _ st.graph hii]
            exact hB.edges_nil i
        · intro i
          show (st.pending ++ [id]).count i
              + st.inFlight.countP (fun a => decide (a.1 = i))
              + st.queue.countP (fun r => decide (r.kind = RKind.TEST ∧ r.id = i))
              + st.stream.countP (fun r => decide (r.kind = RKind.TEST ∧ r.id = i))
              = if i ∈ done ++ [id] then 1 else 0
          rw [List.count_append]
          have htk := hB.tok_done i
          unfold tok at htk
          by_cases hii : i = id
          · have hcs : ([id] : List String).count i = 1 := by
              rw [hii]
              simp
            rw [if_neg (fun hh => hid (hii ▸ hh))] at htk
            rw [hcs, if_pos (List.mem_append_right done (hii ▸ List.mem_singleton.2 rfl))]
            omega
          · have hcs : ([id] : List String).count i = 0 := by
              simp [List.count_singleton', hii]
            rw [hcs]
            by_cases hdone : i ∈ done
            · rw [if_pos hdone] at htk
              rw [if_pos (List.mem_append_left _ hdone)]
              omega
            · have hnm : i ∉ done ++ [id] := by
                intro hmem
                rcases List.mem_append.1 hmem with hm | hm
                · exact hdone hm
                · exact hii (List.mem_singleton.1 hm)
              rw [if_neg hdone] at htk
              rw [if_neg hnm]
              omega
        · intro k dd hf
          show env.getTest k = some dd
          by_cases hkk : k = id
          · rw [hkk, assocFind_replace_self] at hf
            injection hf with hf
            rw [hkk, hg, hf]
          · rw [assocFind_replace_other id k d st.descriptors hkk] at hf
            exact hB.desc_src k dd hf
        · intro i hmem hgn
          rcases List.mem_append.1 hmem with hm | hm
          · exact hB.fail_stream i hm hgn
          · rw [List.mem_singleton.1 hm] at hgn
            rw [hg] at hgn
            cases hgn
    have hfresh2 : ∀ i ∈ rest, i ∉ done ++ [id] := by
      intro i hi hmem
      rcases List.mem_append.1 hmem with hm | hm
      · exact hfresh i (List.mem_cons_of_mem id hi) hm
      · rw [List.mem_singleton.1 hm] at hi
        exact (List.nodup_cons.1 hnd).1 hi
    have hrec := ih (done ++ [id]) _ hstep (List.nodup_cons.1 hnd).2 hfresh2
    have happ : done ++ id :: rest = (done ++ [id]) ++ rest := by simp
    rw [happ]
    exact hrec

/-- After node construction the run invariant holds, with the processed
ids as the requested set. -/
theorem BuildInv.toInv (env : Env) (ts : List TargetSpec) (done : List String)
    (st : EngineState) (hts : (ts.map TargetSpec.name).Nodup)
    (hB : BuildInv env ts done st) : Inv done ts st := by
  refine ⟨hB.desc_nodup, hB.graph_keys, ?_, hB.pending_nodup, ?_, ?_, ?_, ?_, ?_, ?_,
    ?_, ?_, ?_, ?_, ?_, ?_, ?_, ?_, ?_, hB.tok_done, ?_⟩
  · intro i hi
    exact (hB.pending_iff i).1 hi
  · intro i hi
    rw [hB.ready_nil] at hi
    cases hi
  · rw [hB.ready_nil]
    exact List.nodup_nil
  · intro i hi
    rw [hB.ready_nil] at hi
    cases hi
  · intro i
    exact le_of_eq (hB.counts_zero i).symm
  · intro i
    rw [hB.log_nil]
    simp
  · intro i _
    rw [hB.log_nil]
    simp
  · intro i e he
    rw [hB.edges_nil i] at he
    cases he
  · intro n hn
    rw [hB.idle_eq] at hn
    exact hn
  · rw [hB.idle_eq]
    exact hts
  · intro a ha
    rw [hB.inFlight_nil] at ha
    cases ha
  · intro r hr
    rw [hB.queue_nil] at hr
    cases hr
  · intro t _
    unfold loadOf
    rw [hB.loads_nil, hB.inFlight_nil]
    rfl
  · intro t ht hni
    rw [hB.idle_eq] at hni
    exact (hni (List.mem_map_of_mem TargetSpec.name ht)).elim
  · intro i hi
    rw [hB.disp_nil] at hi
    cases hi
  · intro i hi
    rw [hB.disp_nil] at hi
    cases hi
  · intro i h
    rw [hB.fp_zero i] at h
    exact absurd h (lt_irrefl 0)

theorem countOf_appendEdge (st : EngineState) (p : String) (e : String × Outcome)
    (i : String) : countOf (appendEdge st p e) i = countOf st i := by
  show ((assocFind i (assocModify p (fun n => { n with edges := n.edges ++ [e] })
      st.graph)).map (fun n => n.count)).getD 0
    = ((assocFind i st.graph).map (fun n => n.count)).getD 0
  rw [assocFind_modify]
  by_cases h : i = p
  · rw [if_pos h]
    rcases ho : assocFind i st.graph with _ | v
    · rfl
    · rfl
  · rw [if_neg h]

theorem edgesOf_appendEdge (st : EngineState) (p : String) (e : String × Outcome)
    (i : String) : edgesOf (appendEdge st p e) i
      = if i = p then (match assocFind i st.graph with
          | some v => v.edges ++ [e]
          | none => []) else edgesOf st i := by
  show ((assocFind i (assocModify p (fun n => { n with edges := n.edges ++ [e] })
      st.graph)).map (fun n => n.edges)).getD []
    = if i = p then (match assocFind i st.graph with
        | some v => v.edges ++ [e]
        | none => [])
      else ((assocFind i st.graph).map (fun n => n.edges)).getD []
  rw [assocFind_modify]
  by_cases h : i = p
  · rw [if_pos h, if_pos h]
    rcases ho : assocFind i st.graph with _ | v
    · rfl
    · rfl
  · rw [if_neg h, if_neg h]

/-- Adding one dependent edge preserves the run invariant when the
dependent id names a loaded descriptor. -/
theorem appendEdge_inv (ids : List String) (ts : List TargetSpec) (st : EngineState)
    (p : String) (descId : String) (oc : Outcome) (hI : Inv ids ts st)
    (hdk : descId ∈ keysOf st.descriptors) :
    Inv ids ts (appendEdge st p (descId, oc)) := by
  refine ⟨hI.desc_keys_nodup, ?_, hI.pending_keys, hI.pending_nodup, hI.ready_keys,
    hI.ready_nodup, ?_, ?_, hI.log_le_one, ?_, ?_, hI.idle_keys, hI.idle_nodup,
    hI.flight_keys, hI.queue_ok, hI.load_flight, hI.busy_bound, hI.disp_keys,
    hI.disp_not_pending, hI.tok_eq, hI.fp_not⟩
  · show (assocModify p (fun n => { n with edges := n.edges ++ [(descId, oc)] })
        st.graph).map Prod.fst = keysOf st.descriptors
    rw [assocModify_keys]
    exact hI.graph_keys
  · intro i hi
    rw [countOf_appendEdge]
    exact hI.ready_count0 i hi
  · intro i
    rw [countOf_appendEdge]
    exact hI.counts_nonneg i
  · intro i h
    rw [countOf_appendEdge] at h
    exact hI.log_zero_of_pos i h
  · intro i e he
    rw [edgesOf_appendEdge] at he
    by_cases h : i = p
    · rw [if_pos h] at he
      rcases ho : assocFind i st.graph with _ | v
      · rw [ho] at he
        cases he
      · rw [ho] at he
        rcases List.mem_append.1 he with hm | hm
        · apply hI.edges_keys i
          show e ∈ edgesOf st i
          unfold edgesOf
          rw [ho]
          exact hm
        · rw [List.mem_singleton.1 hm]
          exact hdk
    · rw [if_neg h] at he
      exact hI.edges_keys i e he

/-- The inner prerequisite loop of edge construction (lines 176-181):
on success every scanned prerequisite was present and the only change is
descId's own count; the first missing prerequisite aborts the loop. -/
theorem goBuild_inv (ids : List String) (ts : List TargetSpec)
    (descId : String) (d : Descriptor) :
    ∀ (es : List (String × Outcome)) (st : EngineState),
      Inv ids ts st → descId ∈ keysOf st.descriptors → descId ∉ st.ready →
      st.readyLog = [] →
      (∀ st' e, addEdgesFor.go descId d st es = (st', some e) →
          Inv ids ts st' ∧ st'.descriptors = st.descriptors ∧ st'.pending = st.pending
          ∧ st'.ready = st.ready ∧ st'.readyLog = st.readyLog ∧ st'.stream = st.stream
          ∧ st'.terminated = st.terminated
          ∧ (∀ i, i ≠ descId → countOf st' i = countOf st i)
          ∧ ∃ oc, (e, oc) ∈ es ∧ assocFind e st.descriptors = none)
      ∧ (∀ st', addEdgesFor.go descId d st es = (st', none) →
          Inv ids ts st' ∧ st'.descriptors = st.descriptors ∧ st'.pending = st.pending
          ∧ st'.ready = st.ready ∧ st'.readyLog = st.readyLog ∧ st'.stream = st.stream
          ∧ st'.terminated = st.terminated
          ∧ (∀ i, i ≠ descId → countOf st' i = countOf st i)
          ∧ (∀ pr ∈ es, (assocFind pr.1 st.descriptors).isSome)) := by
  intro es
  induction es with
  | nil =>
    intro st hI hdk hnr hlog
    constructor
    · intro st' e h
      have heq : addEdgesFor.go descId d st []
          = (setCount st descId (d.prereqs.length : Int), none) := rfl
      rw [heq] at h
      injection h with h1 h2
      cases h2
    · intro st' h
      have heq : addEdgesFor.go descId d st []
          = (setCount st descId (d.prereqs.length : Int), none) := rfl
      rw [heq] at h
      injection h with h1 h2
      subst h1
      refine ⟨?_, rfl, rfl, rfl, rfl, rfl, rfl, ?_, ?_⟩
      · refine ⟨hI.desc_keys_nodup, ?_, hI.pending_keys, hI.pending_nodup,
          hI.ready_keys, hI.ready_nodup, ?_, ?_, hI.log_le_one, ?_, ?_,
          hI.idle_keys, hI.idle_nodup, hI.flight_keys, hI.queue_ok, hI.load_flight,
          hI.busy_bound, hI.disp_keys, hI.disp_not_pending, hI.tok_eq, hI.fp_not⟩
        · show (assocModify descId (fun n => { n with count := (d.prereqs.length : Int) })
              st.graph).map Prod.fst = keysOf st.descriptors
          rw [assocModify_keys]
          exact hI.graph_keys
        · intro i hi
          rw [countOf_setCount]
          have hcnd : ¬ (i = descId ∧ i ∈ keysOf st.graph) := by
            intro hh
            rw [hh.1] at hi
            exact hnr hi
          rw [if_neg hcnd]
          exact hI.ready_count0 i hi
        · intro i
          rw [countOf_setCount]
          by_cases h : i = descId ∧ i ∈ keysOf st.graph
          · rw [if_pos h]
            exact Int.natCast_nonneg _
          · rw [if_neg h]
            exact hI.counts_nonneg i
        · intro i _
          show st.readyLog.count i = 0
          rw [hlog]
          simp
        · intro i e he
          have he0 : e ∈ ((assocFind i (assocModify descId
              (fun n => { n with count := (d.prereqs.length : Int) }) st.graph)).map
              (fun n => n.edges)).getD [] := he
          rw [assocFind_modify] at he0
          have he2 : e ∈ edgesOf st i := by
            by_cases h : i = descId
            · rw [if_pos h] at he0
              rcases ho : assocFind i st.graph with _ | v
              · rw [ho] at he0
                cases he0
              · rw [ho] at he0
                show e ∈ ((assocFind i st.graph).map (fun n => n.edges)).getD []
                rw [ho]
                exact he0
            · rw [if_neg h] at he0
              exact he0
          exact hI.edges_keys i e he2
      · intro i hne
        rw [countOf_setCount, if_neg (fun hh => hne hh.1)]
      · intro pr hpr
        cases hpr
  | cons e0 rest ih =>
    intro st hI hdk hnr hlog
    rcases e0 with ⟨p, oc'⟩
    rcases hf : assocFind p st.descriptors with _ | v
    · have heq : addEdgesFor.go descId d st ((p, oc') :: rest) = (st, some p) := by
        show (match assocFind p st.descriptors with
              | some _ => addEdgesFor.go descId d (appendEdge st p (descId, oc')) rest
              | none => (st, some p)) = (st, some p)
        rw [hf]
      constructor
      · intro st' e h
        rw [heq] at h
        injection h with h1 h2
        subst h1
        injection h2 with h2
        subst h2
        exact ⟨hI, rfl, rfl, rfl, rfl, rfl, rfl, fun i _ => rfl,
          oc', List.mem_cons_self _ _, hf⟩
      · intro st' h
        rw [heq] at h
        injection h with h1 h2
        cases h2
    · have heq : addEdgesFor.go descId d st ((p, oc') :: rest)
          = addEdgesFor.go descId d (appendEdge st p (descId, oc')) rest := by
        show (match assocFind p st.descriptors with
              | some _ => addEdgesFor.go descId d (appendEdge st p (descId, oc')) rest
              | none => (st, some p)) = _
        rw [hf]
      have hI2 : Inv ids ts (appendEdge st p (descId, oc')) :=
        appendEdge_inv ids ts st p descId oc' hI hdk
      have hih := ih (appendEdge st p (descId, oc')) hI2 hdk hnr hlog
      constructor
      · intro st' e h
        rw [heq] at h
        rcases hih.1 st' e h with ⟨h1, h2, h3, h4, h5, h6, h7, h8, oc2, hmem, hnone⟩
        refine ⟨h1, h2, h3, h4, h5, h6, h7, ?_, oc2, List.mem_cons_of_mem _ hmem, hnone⟩
        intro i hne
        rw [h8 i hne, countOf_appendEdge]
      · intro st' h
        rw [heq] at h
        rcases hih.2 st' h with ⟨h1, h2, h3, h4, h5, h6, h7, h8, h9⟩
        refine ⟨h1, h2, h3, h4, h5, h6, h7, ?_, ?_⟩
        · intro i hne
          rw [h8 i hne, countOf_appendEdge]
        · intro pr hpr
          rcases List.mem_cons.1 hpr with hm | hm
          · rw [hm]
            show (assocFind p st.descriptors).isSome
            rw [hf]
            rfl
          · exact h9 pr hm

/-- Edge construction for one loaded descriptor (lines 174-184). -/
theorem addEdgesFor_inv (ids : List String) (ts : List TargetSpec)
    (st : EngineState) (descId : String) (hI : Inv ids ts st)
    (hdk : descId ∈ keysOf st.descriptors) (hnr : descId ∉ st.ready)
    (hc0 : countOf st descId = 0) (hlog : st.readyLog = []) :
    (∀ st' e, addEdgesFor st descId = (st', some e) →
        Inv ids ts st' ∧ st'.descriptors = st.descriptors ∧ st'.pending = st.pending
        ∧ st'.readyLog = st.readyLog ∧ st'.stream = st.stream
        ∧ st'.terminated = st.terminated
        ∧ (∀ i, i ≠ descId → countOf st' i = countOf st i)
        ∧ (∀ i ∈ st'.ready, i ∈ st.ready ∨ i = descId)
        ∧ ∃ dd oc, assocFind descId st.descriptors = some dd ∧ (e, oc) ∈ dd.prereqs
            ∧ assocFind e st.descriptors = none)
    ∧ (∀ st', addEdgesFor st descId = (st', none) →
        Inv ids ts st' ∧ st'.descriptors = st.descriptors ∧ st'.pending = st.pending
        ∧ st'.readyLog = st.readyLog ∧ st'.stream = st.stream
        ∧ st'.terminated = st.terminated
        ∧ (∀ i, i ≠ descId → countOf st' i = countOf st i)
        ∧ (∀ i ∈ st'.ready, i ∈ st.ready ∨ i = descId)
        ∧ (∀ dd, assocFind descId st.descriptors = some dd →
            ∀ pr ∈ dd.prereqs, (assocFind pr.1 st.descriptors).isSome)) := by
  have hsome := (assocFind_mem_keys descId st.descriptors).2 hdk
  rcases hfd : assocFind descId st.descriptors with _ | dd
  · rw [hfd] at hsome
    cases hsome
  · by_cases hp : dd.prereqs = []
    · have heq : addEdgesFor st descId
          = ({ st with ready := st.ready ++ [descId] }, none) := by
        unfold addEdgesFor
        rw [hfd]
        show (if dd.prereqs = [] then ({ st with ready := st.ready ++ [descId] }, none)
              else addEdgesFor.go descId dd st dd.prereqs)
            = ({ st with ready := st.ready ++ [descId] }, none)
        rw [if_pos hp]
      constructor
      · intro st' e h
        rw [heq] at h
        injection h with h1 h2
        cases h2
      · intro st' h
        rw [heq] at h
        injection h with h1 h2
        subst h1
        refine ⟨?_, rfl, rfl, rfl, rfl, rfl, fun i _ => rfl, ?_, ?_⟩
        · refine ⟨hI.desc_keys_nodup, hI.graph_keys, hI.pending_keys, hI.pending_nodup,
            ?_, ?_, ?_, hI.counts_nonneg, hI.log_le_one, hI.log_zero_of_pos,
            hI.edges_keys, hI.idle_keys, hI.idle_nodup, hI.flight_keys, hI.queue_ok,
            hI.load_flight, hI.busy_bound, hI.disp_keys, hI.disp_not_pending,
            hI.tok_eq, hI.fp_not⟩
          · intro i hi
            rcases List.mem_append.1 hi with hm | hm
            · exact hI.ready_keys i hm
            · rw [List.mem_singleton.1 hm]
              exact hdk
          · show (st.ready ++ [descId]).Nodup
            simp [List.nodup_append, hI.ready_nodup, hnr]
          · intro i hi
            rcases List.mem_append.1 hi with hm | hm
            · exact hI.ready_count0 i hm
            · rw [List.mem_singleton.1 hm]
              exact hc0
        · intro i hi
          rcases List.mem_append.1 hi with hm | hm
          · exact Or.inl hm
          · exact Or.inr (List.mem_singleton.1 hm)
        · intro dd' hdd' pr hpr
          injection hdd' with hdd'
          rw [← hdd', hp] at hpr
          cases hpr
    · have heq : addEdgesFor st descId = addEdgesFor.go descId dd st dd.prereqs := by
        unfold addEdgesFor
        rw [hfd]
        show (if dd.prereqs = [] then ({ st with ready := st.ready ++ [descId] }, none)
              else addEdgesFor.go descId dd st dd.prereqs)
            = addEdgesFor.go descId dd st dd.prereqs
        rw [if_neg hp]
      have hgo := goBuild_inv ids ts descId dd dd.prereqs st hI hdk hnr hlog
      constructor
      · intro st' e h
        rw [heq] at h
        rcases hgo.1 st' e h with ⟨h1, h2, h3, h4, h5, h6, h7, h8, oc, hmem, hnone⟩
        exact ⟨h1, h2, h3, h5, h6, h7, h8, fun i hi => Or.inl (h4 ▸ hi),
          dd, oc, rfl, hmem, hnone⟩
      · intro st' h
        rw [heq] at h
        rcases hgo.2 st' h with ⟨h1, h2, h3, h4, h5, h6, h7, h8, h9⟩
        refine ⟨h1, h2, h3, h5, h6, h7, h8, fun i hi => Or.inl (h4 ▸ hi), ?_⟩
        intro dd' hdd' pr hpr
        injection hdd' with hdd'
        rw [← hdd'] at hpr
        exact h9 pr hpr

/-- The edge-construction loop over the pending list (lines 174-184):
on success the invariant holds and all scanned prerequisites were
present; a missing prerequisite aborts it with the offending id. -/
theorem createEdgesGo_inv (ids : List String) (ts : List TargetSpec) :
    ∀ (todo : List String) (st : EngineState), Inv ids ts st → todo.Nodup →
      (∀ i ∈ todo, i ∈ keysOf st.descriptors ∧ i ∉ st.ready ∧ countOf st i = 0) →
      st.readyLog = [] →
      (∀ st' e, createEdgesGo st todo = (st', some e) →
          Inv ids ts st' ∧ st'.descriptors = st.descriptors
          ∧ st'.pending = st.pending ∧ st'.stream = st.stream
          ∧ st'.terminated = st.terminated
          ∧ ∃ k dd oc, assocFind k st.descriptors = some dd ∧ (e, oc) ∈ dd.prereqs
              ∧ assocFind e st.descriptors = none)
      ∧ (∀ st', createEdgesGo st todo = (st', none) →
          Inv ids ts st' ∧ st'.descriptors = st.descriptors
          ∧ st'.pending = st.pending ∧ st'.stream = st.stream
          ∧ st'.terminated = st.terminated ∧ st'.readyLog = st.readyLog
          ∧ (∀ k ∈ todo, ∀ dd, assocFind k st.descriptors = some dd →
              ∀ pr ∈ dd.prereqs, (assocFind pr.1 st.descriptors).isSome)) := by
  intro todo
  induction todo with
  | nil =>
    intro st hI _ _ _
    constructor
    · intro st' e h
      have heq : createEdgesGo st [] = (st, none) := rfl
      rw [heq] at h
      injection h with h1 h2
      cases h2
    · intro st' h
      have heq : createEdgesGo st [] = (st, none) := rfl
      rw [heq] at h
      injection h with h1 h2
      subst h1
      exact ⟨hI, rfl, rfl, rfl, rfl, rfl, fun k hk => absurd hk (List.not_mem_nil k)⟩
  | cons descId rest ih =>
    intro st hI hnd hside hlog
    have hd0 := hside descId (List.mem_cons_self descId rest)
    have hAF := addEdgesFor_inv ids ts st descId hI hd0.1 hd0.2.1 hd0.2.2 hlog
    rcases haf : addEdgesFor st descId with ⟨st1, oe⟩
    rcases oe with _ | e0
    · -- the descriptor's edges went in; continue with the rest
      rcases hAF.2 st1 haf with ⟨h1, h2, h3, h4, h5, h6, h7, h8, h9⟩
      have heq : createEdgesGo st (descId :: rest) = createEdgesGo st1 rest := by
        show (match addEdgesFor st descId with
              | (st2, none) => createEdgesGo st2 rest
              | (st2, some e) => (st2, some e)) = createEdgesGo st1 rest
        rw [haf]
      have hside2 : ∀ i ∈ rest, i ∈ keysOf st1.descriptors ∧ i ∉ st1.ready
          ∧ countOf st1 i = 0 := by
        intro i hi
        have hine : i ≠ descId := by
          intro hh
          exact (List.nodup_cons.1 hnd).1 (hh ▸ hi)
        rcases hside i (List.mem_cons_of_mem descId hi) with ⟨ha, hb, hc⟩
        refine ⟨by rw [h2]; exact ha, ?_, by rw [h7 i hine]; exact hc⟩
        intro hh
        rcases h8 i hh with hm | hm
        · exact hb hm
        · exact hine hm
      have hih := ih st1 h1 (List.nodup_cons.1 hnd).2 hside2 (h4.trans hlog)
      constructor
      · intro st' e h
        rw [heq] at h
        rcases hih.1 st' e h with ⟨g1, g2, g3, g4, g5, k, dd, oc, gk, gpr, gnone⟩
        refine ⟨g1, g2.trans h2, g3.trans h3, g4.trans h5, g5.trans h6,
          k, dd, oc, ?_, gpr, ?_⟩
        · rw [← h2]
          exact gk
        · rw [← h2]
          exact gnone
      · intro st' h
        rw [heq] at h
        rcases hih.2 st' h with ⟨g1, g2, g3, g4, g5, g6, g7⟩
        refine ⟨g1, g2.trans h2, g3.trans h3, g4.trans h5, g5.trans h6,
          g6.trans h4, ?_⟩
        intro k hk dd hdd pr hpr
        rcases List.mem_cons.1 hk with hm | hm
        · rw [hm] at hdd
          exact h9 dd hdd pr hpr
        · have hdd2 : assocFind k st1.descriptors = some dd := by
            rw [h2]
            exact hdd
          have := g7 k hm dd hdd2 pr hpr
          rw [h2] at this
          exact this
    · -- a missing prerequisite: the loop aborts
      rcases hAF.1 st1 e0 haf with ⟨h1, h2, h3, h4, h5, h6, h7, h8, dd, oc, gk, gpr, gnone⟩
      have heq : createEdgesGo st (descId :: rest) = (st1, some e0) := by
        show (match addEdgesFor st descId with
              | (st2, none) => createEdgesGo st2 rest
              | (st2, some e) => (st2, some e)) = (st1, some e0)
        rw [haf]
      constructor
      · intro st' e h
        rw [heq] at h
        injection h with hx1 hx2
        subst hx1
        injection hx2 with hx2
        subst hx2
        exact ⟨h1, h2, h3, h5, h6, descId, dd, oc, gk, gpr, gnone⟩
      · intro st' h
        rw [heq] at h
        injection h with hx1 hx2
        cases hx2

/-- Even an iteration that leaves the engine blocked forever hands over
an invariant state with the descriptors untouched. -/
theorem loopIter_stuck_inv (ids : List String) (ts : List TargetSpec)
    (hts : (ts.map TargetSpec.name).Nodup) (env : Env) (st st' : EngineState)
    (hI : Inv ids ts st) (h : loopIter env ts st = IterOut.stuck st') :
    Inv ids ts st' ∧ st'.descriptors = st.descriptors := by
  have hI0 : Inv ids ts (pollTerm env st) := pollTerm_inv ids ts env st hI
  unfold loopIter loopIterCore at h
  by_cases h1 : (pollTerm env st).pending = [] ∧ (pollTerm env st).ready = []
  · rw [if_pos h1] at h
    cases h
  · rw [if_neg h1] at h
    by_cases h2 : (pollTerm env st).terminated = true
    · rw [if_pos h2] at h
      cases h
    · rw [if_neg h2] at h
      by_cases h3 : (pollTerm env st).idleTargets = []
      · rw [if_pos h3] at h
        rcases hc : checkForResponse env ts true (pollTerm env st) with s2 | s2 | s2 <;>
            rw [hc] at h
        · cases h
        · cases h
        · injection h with h
          subst h
          refine ⟨(checkForResponse_blocked ids ts env true (pollTerm env st) s2
            hI0 hc).2.2.2.2, ?_⟩
          exact checkForResponse_descriptors env ts true (pollTerm env st) s2
            (Or.inr (Or.inr hc))
      · rw [if_neg h3] at h
        by_cases h4 : (pollTerm env st).ready = []
            ∧ (pollTerm env st).idleTargets.length = ts.length
        · rw [if_pos h4] at h
          rcases hp : (pollTerm env st).pending with _ | ⟨p, rest⟩
          · rw [hp] at h
            cases h
          · rw [hp] at h
            cases h
        · rw [if_neg h4] at h
          rcases hm : findMatch (pollTerm env st) ts with _ | ⟨descId, tn⟩
          · rw [dispatchScan_none (pollTerm env st) ts hm] at h
            rcases hc : checkForResponse env ts ((pollTerm env st, true)).2
                ((pollTerm env st, true)).1 with s2 | s2 | s2 <;> rw [hc] at h
            · cases h
            · cases h
            · injection h with h
              subst h
              have hc2 : checkForResponse env ts true (pollTerm env st)
                  = CheckOut.blockedForever s2 := hc
              refine ⟨(checkForResponse_blocked ids ts env true (pollTerm env st) s2
                hI0 hc2).2.2.2.2, ?_⟩
              exact checkForResponse_descriptors env ts true (pollTerm env st) s2
                (Or.inr (Or.inr hc2))
          · have hscan := dispatchScan_some_inv ids ts hts (pollTerm env st) hI0
              descId tn hm
            rcases hc : checkForResponse env ts (dispatchScan (pollTerm env st) ts).2
                (dispatchScan (pollTerm env st) ts).1 with s2 | s2 | s2 <;> rw [hc] at h
            · cases h
            · cases h
            · injection h with h
              subst h
              refine ⟨(checkForResponse_blocked ids ts env
                (dispatchScan (pollTerm env st) ts).2 (dispatchScan (pollTerm env st) ts).1
                s2 hscan.1 hc).2.2.2.2, ?_⟩
              have hd := checkForResponse_descriptors env ts
                (dispatchScan (pollTerm env st) ts).2 (dispatchScan (pollTerm env st) ts).1
                s2 (Or.inr (Or.inr hc))
              exact hd.trans (dispatchScan_descriptors (pollTerm env st) ts)

/-- However the fueled loop ends, the invariant holds of the state it
hands back and the descriptors are untouched. -/
theorem runLoop_all_inv (ids : List String) (ts : List TargetSpec)
    (hts : (ts.map TargetSpec.name).Nodup) (env : Env) :
    ∀ (fuel : Nat) (st : EngineState), Inv ids ts st →
      Inv ids ts (stateOfLoop (runLoop env ts fuel st))
      ∧ (stateOfLoop (runLoop env ts fuel st)).descriptors = st.descriptors := by
  intro fuel
  induction fuel with
  | zero =>
    intro st hI
    exact ⟨hI, rfl⟩
  | succ n ih =>
    intro st hI
    have heq : runLoop env ts (n + 1) st
        = (match loopIter env ts st with
           | IterOut.exit st2 => LoopOut.done st2
           | IterOut.next st2 => runLoop env ts n st2
           | IterOut.stuck st2 => LoopOut.hung st2) := rfl
    rw [heq]
    rcases hi : loopIter env ts st with s2 | s2 | s2
    · have he := loopIter_exit_eq env ts st s2 hi
      rw [he]
      exact ⟨pollTerm_inv ids ts env st hI, rfl⟩
    · have hstep := loopIter_next_inv ids ts hts env st s2 hI hi
      rcases ih s2 hstep.1 with ⟨g1, g2⟩
      exact ⟨g1, g2.trans hstep.2.2⟩
    · exact loopIter_stuck_inv ids ts hts env st s2 hI hi

theorem storeResult_dispatched (st : EngineState) (r : Result) :
    (storeResult st r).dispatched = st.dispatched := by
  unfold storeResult
  rcases r.kind with _ | _
  · rfl
  · rfl

theorem noteIdleTarget_dispatched (ts : List TargetSpec) (st : EngineState) (r : Result) :
    (noteIdleTarget ts st r).dispatched = st.dispatched := by
  unfold noteIdleTarget
  rcases findTargetForResult ts r with _ | t
  · rfl
  · show (if t.name ∉ st.idleTargets ∧ targetIsIdle st t then
        { st with idleTargets := st.idleTargets ++ [t.name] } else st).dispatched
      = st.dispatched
    split
    · rfl
    · rfl

theorem addResult_dispatched (ts : List TargetSpec) (st : EngineState) (r : Result) :
    (addResult ts st r).dispatched = st.dispatched := by
  show (noteIdleTarget ts (storeResult st r) r).dispatched = st.dispatched
  rw [noteIdleTarget_dispatched, storeResult_dispatched]

/-- The post-loop marking never touches the dispatch log or the
descriptors. -/
theorem epilogue_untouched (ts : List TargetSpec) (st : EngineState) :
    (epilogue ts st).dispatched = st.dispatched
    ∧ (epilogue ts st).descriptors = st.descriptors := by
  unfold epilogue
  split
  · exact ⟨rfl, rfl⟩
  · have hfold : ∀ (l : List String) (s : EngineState),
        (l.foldl (fun s p => addUntestedResult ts s p (qmMessage "execution terminated") []) s).dispatched
            = s.dispatched
        ∧ (l.foldl (fun s p => addUntestedResult ts s p (qmMessage "execution terminated") []) s).descriptors
            = s.descriptors := by
      intro l
      induction l with
      | nil => intro s; exact ⟨rfl, rfl⟩
      | cons p rest ih =>
        intro s
        have hstep : (p :: rest).foldl
            (fun s p => addUntestedResult ts s p (qmMessage "execution terminated") []) s
            = rest.foldl (fun s p => addUntestedResult ts s p (qmMessage "execution terminated") [])
                (addUntestedResult ts s p (qmMessage "execution terminated") []) := rfl
        rw [hstep]
        rcases ih (addUntestedResult ts s p (qmMessage "execution terminated") [])
          with ⟨g1, g2⟩
        constructor
        · rw [g1]
          exact addResult_dispatched ts s _
        · rw [g2]
          exact addResult_descriptors ts s _
    exact hfold st.pending st

/-- At an invariant state, a requested id that never entered the
descriptor dictionary carries its single token in the result stream. -/
theorem tok_stream_only (ids : List String) (ts : List TargetSpec) (st : EngineState)
    (i : String) (hI : Inv ids ts st) (hik : i ∉ keysOf st.descriptors)
    (hmem : i ∈ ids) :
    st.stream.countP (fun r => decide (r.kind = RKind.TEST ∧ r.id = i)) = 1 := by
  have htk := hI.tok_eq i
  unfold tok at htk
  rw [if_pos hmem] at htk
  have h1 : st.pending.count i = 0 := by
    apply List.count_eq_zero_of_not_mem
    intro hh
    exact hik (hI.pending_keys i hh)
  have h2 : st.inFlight.countP (fun a => decide (a.1 = i)) = 0 := by
    apply List.countP_eq_zero.2
    intro a ha hp
    exact hik ((of_decide_eq_true hp) ▸ (hI.flight_keys a ha).1)
  have h3 : st.queue.countP (fun r => decide (r.kind = RKind.TEST ∧ r.id = i)) = 0 := by
    apply List.countP_eq_zero.2
    intro r hr hp
    exact hik ((of_decide_eq_true hp).2 ▸ (hI.queue_ok r hr).2.1)
  omega

/-- Whatever way _RunTests ends, the state it hands back satisfies the
run invariant, with the descriptors exactly as node construction left
them. -/
theorem runTests_all_inv (env : Env) (ts : List TargetSpec) (testIds : List String)
    (hids : testIds.Nodup) (hts : (ts.map TargetSpec.name).Nodup) :
    ∀ (fuel : Nat) (st' : EngineState) (ex : RTExit),
      runTestsModel env ts testIds fuel = (st', ex) →
      Inv testIds ts st'
      ∧ st'.descriptors = (createNodes env ts testIds (initState ts)).descriptors := by
  have hB : BuildInv env ts testIds (createNodes env ts testIds (initState ts)) := by
    have hB0 := createNodes_build env ts testIds [] (initState ts)
      (initState_build env ts) hids (fun i _ => List.not_mem_nil i)
    rwa [List.nil_append] at hB0
  have hI1 : Inv testIds ts (createNodes env ts testIds (initState ts)) :=
    BuildInv.toInv env ts testIds _ hts hB
  have hside : ∀ i ∈ (createNodes env ts testIds (initState ts)).pending,
      i ∈ keysOf (createNodes env ts testIds (initState ts)).descriptors
      ∧ i ∉ (createNodes env ts testIds (initState ts)).ready
      ∧ countOf (createNodes env ts testIds (initState ts)) i = 0 := by
    intro i hi
    refine ⟨(hB.pending_iff i).1 hi, ?_, hB.counts_zero i⟩
    rw [hB.ready_nil]
    exact List.not_mem_nil i
  have hE := createEdgesGo_inv testIds ts
    (createNodes env ts testIds (initState ts)).pending
    (createNodes env ts testIds (initState ts)) hI1 hB.pending_nodup hside hB.log_nil
  intro fuel st' ex h
  have h0 : (match createEdgesGo (createNodes env ts testIds (initState ts))
        (createNodes env ts testIds (initState ts)).pending with
      | (s, some e) => (s, RTExit.raised e)
      | (s, none) =>
        match runLoop env ts fuel s with
        | LoopOut.done s2 => (epilogue ts s2, RTExit.normal)
        | LoopOut.hung s2 => (s2, RTExit.blocked)
        | LoopOut.fuelOut s2 => (s2, RTExit.fuelOut)) = (st', ex) := h
  clear h
  rcases hce : createEdgesGo (createNodes env ts testIds (initState ts))
      (createNodes env ts testIds (initState ts)).pending with ⟨st2, oe⟩
  rw [hce] at h0
  rcases oe with _ | e
  · -- edges built; the loop ran
    rcases hE.2 st2 hce with ⟨hI2, hd2, _, _, _, _, _⟩
    have h2 : (match runLoop env ts fuel st2 with
        | LoopOut.done s => (epilogue ts s, RTExit.normal)
        | LoopOut.hung s => (s, RTExit.blocked)
        | LoopOut.fuelOut s => (s, RTExit.fuelOut)) = (st', ex) := h0
    have hall := runLoop_all_inv testIds ts hts env fuel st2 hI2
    rcases hrl : runLoop env ts fuel st2 with s3 | s3 | s3 <;> rw [hrl] at h2 hall
    · injection h2 with ha hb
      have hepi := epilogue_of_exit ts s3 (runLoop_done_cases env ts fuel st2 s3 hrl)
      rw [hepi] at ha
      rw [← ha]
      exact ⟨hall.1, hall.2.trans hd2⟩
    · injection h2 with ha hb
      rw [← ha]
      exact ⟨hall.1, hall.2.trans hd2⟩
    · injection h2 with ha hb
      rw [← ha]
      exact ⟨hall.1, hall.2.trans hd2⟩
  · -- a missing prerequisite aborted edge construction
    rcases hE.1 st2 e hce with ⟨hI2, hd2, _, _, _, _⟩
    have h2 : (st2, RTExit.raised e) = (st', ex) := h0
    injection h2 with ha hb
    rw [← ha]
    exact ⟨hI2, hd2⟩

/-- Under sane targets, no termination request, matched target groups
and a prerequisite-closed request set, _RunTests finishes normally with
an empty pending list, given enough fuel. -/
theorem runTests_complete (env : Env) (ts : List TargetSpec) (testIds : List String)
    (hids : testIds.Nodup) (hne : ts ≠ [])
    (hconc : ∀ t ∈ ts, 1 ≤ t.concurrency) (hts : (ts.map TargetSpec.name).Nodup)
    (hterm : ∀ n, env.termAt n = false)
    (hgroups : ∀ i d, env.getTest i = some d → ∃ t ∈ ts, d.targetGroup ∈ t.groups)
    (hclosed : ∀ i ∈ testIds, ∀ d, env.getTest i = some d →
        ∀ pr ∈ d.prereqs, pr.1 ∈ testIds ∧ (env.getTest pr.1).isSome) :
    ∃ fuel st', runTestsModel env ts testIds fuel = (st', RTExit.normal)
      ∧ Inv testIds ts st' ∧ st'.pending = [] := by
  have hB : BuildInv env ts testIds (createNodes env ts testIds (initState ts)) := by
    have hB0 := createNodes_build env ts testIds [] (initState ts)
      (initState_build env ts) hids (fun i _ => List.not_mem_nil i)
    rwa [List.nil_append] at hB0
  have hI1 : Inv testIds ts (createNodes env ts testIds (initState ts)) :=
    BuildInv.toInv env ts testIds _ hts hB
  have hside : ∀ i ∈ (createNodes env ts testIds (initState ts)).pending,
      i ∈ keysOf (createNodes env ts testIds (initState ts)).descriptors
      ∧ i ∉ (createNodes env ts testIds (initState ts)).ready
      ∧ countOf (createNodes env ts testIds (initState ts)) i = 0 := by
    intro i hi
    refine ⟨(hB.pending_iff i).1 hi, ?_, hB.counts_zero i⟩
    rw [hB.ready_nil]
    exact List.not_mem_nil i
  have hE := createEdgesGo_inv testIds ts
    (createNodes env ts testIds (initState ts)).pending
    (createNodes env ts testIds (initState ts)) hI1 hB.pending_nodup hside hB.log_nil
  rcases hce : createEdgesGo (createNodes env ts testIds (initState ts))
      (createNodes env ts testIds (initState ts)).pending with ⟨st2, oe⟩
  rcases oe with _ | e
  · rcases hE.2 st2 hce with ⟨hI2, hd2, hp2, hs2, ht2, hl2, _⟩
    have hmatch2 : ∀ k d, assocFind k st2.descriptors = some d →
        ∃ t ∈ ts, d.targetGroup ∈ t.groups := by
      intro k d hkd
      rw [hd2] at hkd
      exact hgroups k d (hB.desc_src k d hkd)
    obtain ⟨st3, hrun, hI3, hd3⟩ := runLoop_term testIds ts hne hconc hts env
      (loopMeasure st2 + 1) st2 hI2 hmatch2 (Nat.lt_succ_self _)
    have hterm3 : st3.terminated = false := by
      have h1 := runLoop_done_terminated env ts hterm (loopMeasure st2 + 1) st2 st3 hrun
      rw [h1, ht2]
      exact hB.term_false
    have hpend3 : st3.pending = [] := by
      rcases runLoop_done_cases env ts (loopMeasure st2 + 1) st2 st3 hrun with hp | ht
      · exact hp
      · rw [hterm3] at ht
        cases ht
    have hRT : runTestsModel env ts testIds (loopMeasure st2 + 1)
        = (epilogue ts st3, RTExit.normal) := by
      show (match createEdgesGo (createNodes env ts testIds (initState ts))
            (createNodes env ts testIds (initState ts)).pending with
          | (s, some e) => (s, RTExit.raised e)
          | (s, none) =>
            match runLoop env ts (loopMeasure st2 + 1) s with
            | LoopOut.done s2 => (epilogue ts s2, RTExit.normal)
            | LoopOut.hung s2 => (s2, RTExit.blocked)
            | LoopOut.fuelOut s2 => (s2, RTExit.fuelOut))
          = (epilogue ts st3, RTExit.normal)
      rw [hce]
      show (match runLoop env ts (loopMeasure st2 + 1) st2 with
          | LoopOut.done s2 => (epilogue ts s2, RTExit.normal)
          | LoopOut.hung s2 => (s2, RTExit.blocked)
          | LoopOut.fuelOut s2 => (s2, RTExit.fuelOut))
          = (epilogue ts st3, RTExit.normal)
      rw [hrun]
    have hepi : epilogue ts st3 = st3 := epilogue_of_exit ts st3 (Or.inl hpend3)
    rw [hepi] at hRT
    exact ⟨loopMeasure st2 + 1, st3, hRT, hI3, hpend3⟩
  · exfalso
    rcases hE.1 st2 e hce with ⟨_, _, _, _, _, k, dd, oc, gk, gpr, gnone⟩
    have hkk : k ∈ keysOf (createNodes env ts testIds (initState ts)).descriptors := by
      apply (assocFind_mem_keys k _).1
      rw [gk]
      rfl
    have hkt : k ∈ testIds := ((hB.keys_iff k).1 hkk).1
    have hkd : env.getTest k = some dd := hB.desc_src k dd gk
    rcases hclosed k hkt dd hkd (e, oc) gpr with ⟨het, hes⟩
    have hek : e ∈ keysOf (createNodes env ts testIds (initState ts)).descriptors :=
      (hB.keys_iff e).2 ⟨het, hes⟩
    have := (assocFind_mem_keys e
      (createNodes env ts testIds (initState ts)).descriptors).2 hek
    rw [gnone] at this
    cases this

/-- Run's shape when _RunTests finishes normally: stop every target,
drain the queue, summarize every stream, return None. -/
theorem RunModel_normal_eq (env : Env) (ts : List TargetSpec) (testIds : List String)
    (ns fuel : Nat) (st3 : EngineState)
    (hRT : runTestsModel env ts testIds fuel = (st3, RTExit.normal)) :
    RunModel env ts testIds ns fuel
      = { st := drainAll env ts
            ((stopAllTargets env ts st3).queue.length + 1) (stopAllTargets env ts st3)
          exit := RTExit.normal
          events := ts.map (fun t => REvent.started t.name)
            ++ ts.map (fun t => REvent.stopped t.name)
            ++ (List.range ns).map REvent.summarized
          ret := none } := by
  unfold RunModel
  rw [hRT]
  rfl

/-- The complete-run theorem: with distinct ids, sane targets, no
termination request, matched groups and closed prerequisites, some fuel
makes Run finish normally with the queue drained, nothing in flight, and
exactly one recorded TEST result per requested id. -/
theorem run_model_complete (env : Env) (ts : List TargetSpec) (testIds : List String)
    (ns : Nat) (hids : testIds.Nodup) (hne : ts ≠ [])
    (hconc : ∀ t ∈ ts, 1 ≤ t.concurrency) (hts : (ts.map TargetSpec.name).Nodup)
    (hterm : ∀ n, env.termAt n = false)
    (hgroups : ∀ i d, env.getTest i = some d → ∃ t ∈ ts, d.targetGroup ∈ t.groups)
    (hclosed : ∀ i ∈ testIds, ∀ d, env.getTest i = some d →
        ∀ pr ∈ d.prereqs, pr.1 ∈ testIds ∧ (env.getTest pr.1).isSome) :
    ∃ fuel,
      (RunModel env ts testIds ns fuel).exit = RTExit.normal
      ∧ (RunModel env ts testIds ns fuel).ret = none
      ∧ (RunModel env ts testIds ns fuel).events
          = ts.map (fun t => REvent.started t.name)
            ++ ts.map (fun t => REvent.stopped t.name)
            ++ (List.range ns).map REvent.summarized
      ∧ (RunModel env ts testIds ns fuel).st.queue = []
      ∧ (RunModel env ts testIds ns fuel).st.inFlight = []
      ∧ ∀ i, (RunModel env ts testIds ns fuel).st.stream.countP
            (fun r => decide (r.kind = RKind.TEST ∧ r.id = i))
          = if i ∈ testIds then 1 else 0 := by
  obtain ⟨fuel, st3, hRT, hI3, hpend3⟩ := runTests_complete env ts testIds hids hne
    hconc hts hterm hgroups hclosed
  have hRM := RunModel_normal_eq env ts testIds ns fuel st3 hRT
  have hstop := stopAllTargets_inv testIds ts env st3 hI3
  have hdr := drainAll_inv testIds ts hts env
    ((stopAllTargets env ts st3).queue.length + 1) (stopAllTargets env ts st3)
    hstop.1 hstop.2.2 (Nat.lt_succ_self _)
  have hpF : (drainAll env ts ((stopAllTargets env ts st3).queue.length + 1)
      (stopAllTargets env ts st3)).pending = [] := by
    have h4 := hdr.2.2.2
    rw [hstop.2.1, hpend3] at h4
    exact List.sublist_nil.1 h4
  refine ⟨fuel, ?_, ?_, ?_, ?_, ?_, ?_⟩
  · rw [hRM]
  · rw [hRM]
  · rw [hRM]
  · rw [hRM]
    exact hdr.2.1
  · rw [hRM]
    exact hdr.2.2.1
  · intro i
    rw [hRM]
    have htk := hdr.1.tok_eq i
    unfold tok at htk
    rw [hpF, hdr.2.1, hdr.2.2.1] at htk
    simp only [List.count_nil, List.countP_nil, Nat.zero_add, Nat.add_zero] at htk
    show (drainAll env ts ((stopAllTargets env ts st3).queue.length + 1)
        (stopAllTargets env ts st3)).stream.countP
        (fun r => decide (r.kind = RKind.TEST ∧ r.id = i)) = if i ∈ testIds then 1 else 0
    exact htk

/-- Run's final state and event trace when _RunTests returned normally
or raised: the finally block stops every target, drains the response
queue and summarizes every stream. -/
theorem RunModel_cleanup_eq (env : Env) (ts : List TargetSpec) (testIds : List String)
    (ns fuel : Nat) (st3 : EngineState) (ex : RTExit)
    (hRT : runTestsModel env ts testIds fuel = (st3, ex))
    (hex : ex = RTExit.normal ∨ ∃ e, ex = RTExit.raised e) :
    (RunModel env ts testIds ns fuel).st
        = drainAll env ts ((stopAllTargets env ts st3).queue.length + 1)
            (stopAllTargets env ts st3)
    ∧ (RunModel env ts testIds ns fuel).exit = ex
    ∧ (RunModel env ts testIds ns fuel).events
        = ts.map (fun t => REvent.started t.name)
          ++ ts.map (fun t => REvent.stopped t.name)
          ++ (List.range ns).map REvent.summarized := by
  rcases hex with h | ⟨e, h⟩ <;> subst h
  · unfold RunModel
    rw [hRT]
    exact ⟨rfl, rfl, rfl⟩
  · unfold RunModel
    rw [hRT]
    exact ⟨rfl, rfl, rfl⟩

/-- In the full lifecycle trace, Stop events for a target name occur as
often as the name occurs among the targets. -/
theorem trace_count_stopped (ts : List TargetSpec) (ns : Nat) (n : String) :
    (ts.map (fun t => REvent.started t.name) ++ ts.map (fun t => REvent.stopped t.name)
      ++ (List.range ns).map REvent.summarized).count (REvent.stopped n)
    = (ts.map TargetSpec.name).count n := by
  rw [List.count_append, List.count_append]
  have h1 : (ts.map (fun t => REvent.started t.name)).count (REvent.stopped n) = 0 := by
    apply List.count_eq_zero_of_not_mem
    intro hm
    rcases List.mem_map.1 hm with ⟨u, _, he⟩
    exact REvent.noConfusion he
  have h3 : ((List.range ns).map REvent.summarized).count (REvent.stopped n) = 0 := by
    apply List.count_eq_zero_of_not_mem
    intro hm
    rcases List.mem_map.1 hm with ⟨u, _, he⟩
    exact REvent.noConfusion he
  have hmm : ts.map (fun t => REvent.stopped t.name)
      = (ts.map TargetSpec.name).map REvent.stopped := by
    rw [List.map_map]
    rfl
  have h2 : (ts.map (fun t => REvent.stopped t.name)).count (REvent.stopped n)
      = (ts.map TargetSpec.name).count n := by
    rw [hmm]
    exact List.count_map_of_injective (ts.map TargetSpec.name) REvent.stopped
      (fun a b h => by injection h) n
  omega

/-- In the full lifecycle trace, Summarize events for a stream index
occur as often as the index occurs among the registered indices. -/
theorem trace_count_summarized (ts : List TargetSpec) (ns : Nat) (j : Nat) :
    (ts.map (fun t => REvent.started t.name) ++ ts.map (fun t => REvent.stopped t.name)
      ++ (List.range ns).map REvent.summarized).count (REvent.summarized j)
    = (List.range ns).count j := by
  rw [List.count_append, List.count_append]
  have h1 : (ts.map (fun t => REvent.started t.name)).count (REvent.summarized j) = 0 := by
    apply List.count_eq_zero_of_not_mem
    intro hm
    rcases List.mem_map.1 hm with ⟨u, _, he⟩
    exact REvent.noConfusion he
  have h2 : (ts.map (fun t => REvent.stopped t.name)).count (REvent.summarized j) = 0 := by
    apply List.count_eq_zero_of_not_mem
    intro hm
    rcases List.mem_map.1 hm with ⟨u, _, he⟩
    exact REvent.noConfusion he
  have h3 : ((List.range ns).map REvent.summarized).count (REvent.summarized j)
      = (List.range ns).count j :=
    List.count_map_of_injective (List.range ns) REvent.summarized
      (fun a b h => by injection h) j
  omega

/-- A small state for the step witnesses: test b is pending with one
unsatisfied prerequisite, the single target idle. -/
def exStepState : EngineState :=
  { initState [exTgt] with
    descriptors := [("b", exDescB)]
    graph := [("b", { count := 1, edges := [] })]
    pending := ["b"] }

/-- C3: first conjunct, the exact step of _UpdateDependentTests on a
dependent edge (d, o) whose count is not zero when the actual outcome oc
differs from the required o and d is still pending: d's count is zeroed,
d leaves the pending list, an UNTESTED "failed prerequisite" result is
recorded for d annotated with the failing prerequisite's id, the actual
outcome and the required outcome, and the propagation recurses into d's
own dependents.  Second conjunct: in every run, a test that ever
received a "failed prerequisite" result is absent from the dispatch log
(it was never given to any target) and from the pending list.  Third
conjunct: in the concrete a, b, c run where a FAILs, b (requiring a to
PASS) gets exactly that UNTESTED result with those annotations and is
never dispatched, while c (requiring a to FAIL) is dispatched. -/
theorem C3_failed_prereq_propagation :
    (∀ (ts : List TargetSpec) (rec : EngineState → String → EngineState)
        (st : EngineState) (d : String) (o : Outcome)
        (rest : List (String × Outcome)) (descId : String) (oc : Outcome),
      ¬ countOf st d = 0 → oc ≠ o → d ∈ (setCount st d 0).pending →
      goEdges ts rec st ((d, o) :: rest) descId oc
        = goEdges ts rec
            (rec (addUntestedResult ts (removePending (setCount st d 0) d) d
              (qmMessage "failed prerequisite")
              [("qmtest.prequisite", descId), ("qmtest.outcome", oc.str),
               ("qmtest.expected_outcome", o.str)]) d)
            rest descId oc)
    ∧ (∀ (env : Env) (ts : List TargetSpec) (testIds : List String),
        testIds.Nodup → (ts.map TargetSpec.name).Nodup →
        ∀ (fuel : Nat) (st' : EngineState) (ex : RTExit),
          runTestsModel env ts testIds fuel = (st', ex) →
          ∀ i, 0 < fpCount i st' → i ∉ st'.dispatched ∧ i ∉ st'.pending)
    ∧ ({ kind := RKind.TEST, id := "b", outcome := Outcome.untested,
         cause := some (qmMessage "failed prerequisite"),
         annotations := [("qmtest.prequisite", "a"), ("qmtest.outcome", "FAIL"),
           ("qmtest.expected_outcome", "PASS")],
         targetName := none } : Result)
        ∈ (RunModel exEnv [exTgt] ["a", "b", "c"] 1 50).st.stream
    ∧ "b" ∉ (RunModel exEnv [exTgt] ["a", "b", "c"] 1 50).st.dispatched
    ∧ "c" ∈ (RunModel exEnv [exTgt] ["a", "b", "c"] 1 50).st.dispatched := by
  refine ⟨?_, ?_, by decide, by decide, by decide⟩
  · intro ts rec st d o rest descId oc h1 h2 h3
    show (if countOf st d = 0 then goEdges ts rec st rest descId oc
      else if oc ≠ o then
        if d ∈ (setCount st d 0).pending then
          goEdges ts rec
            (rec (addUntestedResult ts (removePending (setCount st d 0) d) d
              (qmMessage "failed prerequisite")
              [("qmtest.prequisite", descId), ("qmtest.outcome", oc.str),
               ("qmtest.expected_outcome", o.str)]) d)
            rest descId oc
        else goEdges ts rec (setCount st d 0) rest descId oc
      else
        goEdges ts rec
          (if countOf st d - 1 = 0 then pushReady (setCount st d (countOf st d - 1)) d
           else setCount st d (countOf st d - 1)) rest descId oc)
      = goEdges ts rec
          (rec (addUntestedResult ts (removePending (setCount st d 0) d) d
            (qmMessage "failed prerequisite")
            [("qmtest.prequisite", descId), ("qmtest.outcome", oc.str),
             ("qmtest.expected_outcome", o.str)]) d)
          rest descId oc
    rw [if_neg h1, if_pos h2, if_pos h3]
  · intro env ts testIds hids hts fuel st' ex h i hfp
    have hall := runTests_all_inv env ts testIds hids hts fuel st' ex h
    have hfn := hall.1.fp_not i hfp
    exact ⟨hfn.2, hfn.1⟩

/-- Witness for C3: the cancellation step applied at a concrete state
where b is pending with count 1 and the prerequisite a came out FAIL
while PASS was required. -/
theorem C3_failed_prereq_propagation_witness :
    goEdges [exTgt] (fun s _ => s) exStepState [("b", Outcome.pass)] "a" Outcome.fail
      = goEdges [exTgt] (fun s _ => s)
          (addUntestedResult [exTgt] (removePending (setCount exStepState "b" 0) "b") "b"
            (qmMessage "failed prerequisite")
            [("qmtest.prequisite", "a"), ("qmtest.outcome", Outcome.fail.str),
             ("qmtest.expected_outcome", Outcome.pass.str)])
          [] "a" Outcome.fail :=
  C3_failed_prereq_propagation.1 [exTgt] (fun s _ => s) exStepState "b"
    Outcome.pass [] "a" Outcome.fail (by decide) (by decide) (by decide)

/-- C4: first conjunct, the exact eviction step: when pending is
non-empty, termination was not requested, the ready list is empty and
every target is idle (all of them on the idle list, so nothing is in
flight that could ever unblock a prerequisite), the iteration removes
exactly the head of the pending list, records an UNTESTED "dependency
cycle" result for it, and propagates cascading UNTESTED to its
dependents before re-entering the loop.  Second conjunct: under the run
invariant with sane targets, the loop measure bounds the number of
iterations, so the dispatch loop always terminates -- a dependency cycle
cannot make it run forever.  Third conjunct: the concrete two-test cycle
run ends normally, with the evicted head a marked "dependency cycle" and
its dependent b marked "failed prerequisite". -/
theorem C4_dependency_cycle_eviction :
    (∀ (env : Env) (ts : List TargetSpec) (st : EngineState) (p : String)
        (rest : List String),
      st.pending = p :: rest → st.ready = [] → st.terminated = false →
      ¬ st.idleTargets = [] → st.idleTargets.length = ts.length →
      loopIterCore env ts st
        = IterOut.next (updateDependentTests ts
            (addUntestedResult ts (removePending st p) p (qmMessage "dependency cycle") [])
            p Outcome.untested))
    ∧ (∀ (ids : List String) (ts : List TargetSpec),
        ts ≠ [] → (∀ t ∈ ts, 1 ≤ t.concurrency) → (ts.map TargetSpec.name).Nodup →
        ∀ (env : Env) (fuel : Nat) (st : EngineState), Inv ids ts st →
          (∀ k d, assocFind k st.descriptors = some d →
            ∃ t ∈ ts, d.targetGroup ∈ t.groups) →
          loopMeasure st < fuel →
          ∃ st', runLoop env ts fuel st = LoopOut.done st')
    ∧ (RunModel exEnvCycle [exTgt] ["a", "b"] 1 50).exit = RTExit.normal
    ∧ ({ kind := RKind.TEST, id := "a", outcome := Outcome.untested,
         cause := some (qmMessage "dependency cycle"), annotations := [],
         targetName := none } : Result)
        ∈ (RunModel exEnvCycle [exTgt] ["a", "b"] 1 50).st.stream
    ∧ ({ kind := RKind.TEST, id := "b", outcome := Outcome.untested,
         cause := some (qmMessage "failed prerequisite"),
         annotations := [("qmtest.prequisite", "a"),
           ("qmtest.outcome", Outcome.untested.str),
           ("qmtest.expected_outcome", Outcome.pass.str)],
         targetName := none } : Result)
        ∈ (RunModel exEnvCycle [exTgt] ["a", "b"] 1 50).st.stream := by
  refine ⟨?_, ?_, by decide, by decide, by decide⟩
  · intro env ts st p rest hp hr ht hi hl
    unfold loopIterCore
    have h1 : ¬ (st.pending = [] ∧ st.ready = []) := by
      rw [hp]
      rintro ⟨hc, _⟩
      cases hc
    have h2 : ¬ (st.terminated = true) := by
      rw [ht]
      exact Bool.false_ne_true
    rw [if_neg h1, if_neg h2, if_neg hi, if_pos (And.intro hr hl), hp]
  · intro ids ts hne hconc hts env fuel st hI hmatch hlt
    rcases runLoop_term ids ts hne hconc hts env fuel st hI hmatch hlt with ⟨st', h, _⟩
    exact ⟨st', h⟩

/-- Witness for C4: the eviction step at a concrete state with b pending,
nothing ready and the single target idle. -/
theorem C4_dependency_cycle_eviction_witness :
    loopIterCore exEnv [exTgt] exStepState
      = IterOut.next (updateDependentTests [exTgt]
          (addUntestedResult [exTgt] (removePending exStepState "b") "b"
            (qmMessage "dependency cycle") [])
          "b" Outcome.untested) :=
  C4_dependency_cycle_eviction.1 exEnv [exTgt] exStepState "b" [] rfl rfl rfl
    (by decide) rfl

/-- C5: for every run whose requested ids are distinct, whose targets
are non-empty with positive concurrency and distinct names, in which
termination is never requested, every loadable descriptor's target group
is served by some target, and every prerequisite of a loaded test is
itself a loaded requested test, some fuel makes Run finish normally with
every requested test id carrying exactly one recorded TEST result in the
result streams -- no id missing a result and no id with two.  (The
hypotheses do not even require the prerequisite graph to be acyclic:
cycles are broken by the eviction step.) -/
theorem C5_exactly_one_result_per_test :
    ∀ (env : Env) (ts : List TargetSpec) (testIds : List String) (ns : Nat),
      testIds.Nodup → ts ≠ [] → (∀ t ∈ ts, 1 ≤ t.concurrency) →
      (ts.map TargetSpec.name).Nodup → (∀ n, env.termAt n = false) →
      (∀ i d, env.getTest i = some d → ∃ t ∈ ts, d.targetGroup ∈ t.groups) →
      (∀ i ∈ testIds, ∀ d, env.getTest i = some d →
        ∀ pr ∈ d.prereqs, pr.1 ∈ testIds ∧ (env.getTest pr.1).isSome = true) →
      ∃ fuel, (RunModel env ts testIds ns fuel).exit = RTExit.normal
        ∧ ∀ i, (RunModel env ts testIds ns fuel).st.stream.countP
              (fun r => decide (r.kind = RKind.TEST ∧ r.id = i))
            = if i ∈ testIds then 1 else 0 := by
  intro env ts testIds ns hids hne hconc hts hterm hgroups hclosed
  obtain ⟨fuel, h1, _, _, _, _, h6⟩ :=
    run_model_complete env ts testIds ns hids hne hconc hts hterm hgroups hclosed
  exact ⟨fuel, h1, h6⟩

/-- Witness for C5: the a, b, c run over the single serial target, where
a FAILs, b is cancelled as a failed prerequisite and c runs -- each of
the three ids ends with exactly one recorded result, every other id with
none. -/
theorem C5_exactly_one_result_per_test_witness :
    ∃ fuel, (RunModel exEnv [exTgt] ["a", "b", "c"] 1 fuel).exit = RTExit.normal
      ∧ ∀ i, (RunModel exEnv [exTgt] ["a", "b", "c"] 1 fuel).st.stream.countP
            (fun r => decide (r.kind = RKind.TEST ∧ r.id = i))
          = if i ∈ ["a", "b", "c"] then 1 else 0 := by
  apply C5_exactly_one_result_per_test exEnv [exTgt] ["a", "b", "c"] 1
    (by decide) (by decide) (by decide) (by decide) (fun n => rfl)
  · intro i d h
    have h' : (if i = "a" then some exDescA else if i = "b" then some exDescB
        else if i = "c" then some exDescC else none) = some d := h
    refine ⟨exTgt, List.mem_cons_self _ _, ?_⟩
    by_cases h1 : i = "a"
    · rw [if_pos h1] at h'
      injection h' with h'
      rw [← h']
      decide
    · rw [if_neg h1] at h'
      by_cases h2 : i = "b"
      · rw [if_pos h2] at h'
        injection h' with h'
        rw [← h']
        decide
      · rw [if_neg h2] at h'
        by_cases h3 : i = "c"
        · rw [if_pos h3] at h'
          injection h' with h'
          rw [← h']
          decide
        · rw [if_neg h3] at h'
          cases h'
  · intro i hi d hd pr hpr
    rcases List.mem_cons.1 hi with h | hi2
    · subst h
      have hd' : some exDescA = some d := hd
      injection hd' with hdd
      rw [← hdd] at hpr
      have hnil : exDescA.prereqs = [] := rfl
      rw [hnil] at hpr
      cases hpr
    · rcases List.mem_cons.1 hi2 with h | hi3
      · subst h
        have hd' : some exDescB = some d := hd
        injection hd' with hdd
        rw [← hdd] at hpr
        have hone : exDescB.prereqs = [("a", Outcome.pass)] := rfl
        rw [hone] at hpr
        rcases List.mem_cons.1 hpr with h | hpr2
        · subst h
          exact ⟨by decide, by decide⟩
        · cases hpr2
      · rcases List.mem_cons.1 hi3 with h | hi4
        · subst h
          have hd' : some exDescC = some d := hd
          injection hd' with hdd
          rw [← hdd] at hpr
          have hone : exDescC.prereqs = [("a", Outcome.fail)] := rfl
          rw [hone] at hpr
          rcases List.mem_cons.1 hpr with h | hpr2
          · subst h
            exact ⟨by decide, by decide⟩
          · cases hpr2
        · cases hi4

/-- C6: first conjunct, a dependent whose count is already zero is
skipped with no state change.  Second conjunct: when the outcome
matched, the count is decremented by exactly one and the dependent joins
the ready queue exactly when the count reached zero.  Third conjunct:
result propagation preserves the run invariant, so counts never become
negative and no node is ever pushed onto the ready queue by decrement
more than once.  Fourth conjunct: in the concrete a, b, c run exactly
one decrement-caused ready insertion happens (test c, whose single
prerequisite resolved with the required outcome). -/
theorem C6_count_never_negative :
    (∀ (ts : List TargetSpec) (rec : EngineState → String → EngineState)
        (st : EngineState) (d : String) (o : Outcome)
        (rest : List (String × Outcome)) (descId : String) (oc : Outcome),
      countOf st d = 0 →
      goEdges ts rec st ((d, o) :: rest) descId oc = goEdges ts rec st rest descId oc)
    ∧ (∀ (ts : List TargetSpec) (rec : EngineState → String → EngineState)
        (st : EngineState) (d : String) (o : Outcome)
        (rest : List (String × Outcome)) (descId : String) (oc : Outcome),
      ¬ countOf st d = 0 → oc = o →
      goEdges ts rec st ((d, o) :: rest) descId oc
        = goEdges ts rec
            (if countOf st d - 1 = 0 then pushReady (setCount st d (countOf st d - 1)) d
             else setCount st d (countOf st d - 1)) rest descId oc)
    ∧ (∀ (ids : List String) (ts : List TargetSpec) (st : EngineState)
        (descId : String) (oc : Outcome), Inv ids ts st →
        (∀ i, 0 ≤ countOf (updateDependentTests ts st descId oc) i)
        ∧ (∀ i, (updateDependentTests ts st descId oc).readyLog.count i ≤ 1))
    ∧ (RunModel exEnv [exTgt] ["a", "b", "c"] 1 50).st.readyLog = ["c"] := by
  refine ⟨?_, ?_, ?_, by decide⟩
  · intro ts rec st d o rest descId oc h0
    show (if countOf st d = 0 then goEdges ts rec st rest descId oc
      else if oc ≠ o then
        if d ∈ (setCount st d 0).pending then
          goEdges ts rec
            (rec (addUntestedResult ts (removePending (setCount st d 0) d) d
              (qmMessage "failed prerequisite")
              [("qmtest.prequisite", descId), ("qmtest.outcome", oc.str),
               ("qmtest.expected_outcome", o.str)]) d)
            rest descId oc
        else goEdges ts rec (setCount st d 0) rest descId oc
      else
        goEdges ts rec
          (if countOf st d - 1 = 0 then pushReady (setCount st d (countOf st d - 1)) d
           else setCount st d (countOf st d - 1)) rest descId oc)
      = goEdges ts rec st rest descId oc
    rw [if_pos h0]
  · intro ts rec st d o rest descId oc h0 hoc
    have hne : ¬ (oc ≠ o) := fun hh => hh hoc
    show (if countOf st d = 0 then goEdges ts rec st rest descId oc
      else if oc ≠ o then
        if d ∈ (setCount st d 0).pending then
          goEdges ts rec
            (rec (addUntestedResult ts (removePending (setCount st d 0) d) d
              (qmMessage "failed prerequisite")
              [("qmtest.prequisite", descId), ("qmtest.outcome", oc.str),
               ("qmtest.expected_outcome", o.str)]) d)
            rest descId oc
        else goEdges ts rec (setCount st d 0) rest descId oc
      else
        goEdges ts rec
          (if countOf st d - 1 = 0 then pushReady (setCount st d (countOf st d - 1)) d
           else setCount st d (countOf st d - 1)) rest descId oc)
      = goEdges ts rec
          (if countOf st d - 1 = 0 then pushReady (setCount st d (countOf st d - 1)) d
           else setCount st d (countOf st d - 1)) rest descId oc
    rw [if_neg h0, if_neg hne]
  · intro ids ts st descId oc hI
    have hU := (updateDependentTests_inv ids ts st descId oc hI).1
    exact ⟨hU.counts_nonneg, hU.log_le_one⟩

/-- Witness for C6: the skip step at the initial state, where every
count is zero. -/
theorem C6_count_never_negative_witness :
    goEdges [exTgt] (fun s _ => s) (initState [exTgt]) [("b", Outcome.pass)] "a" Outcome.pass
      = goEdges [exTgt] (fun s _ => s) (initState [exTgt]) [] "a" Outcome.pass :=
  C6_count_never_negative.1 [exTgt] (fun s _ => s) (initState [exTgt]) "b"
    Outcome.pass [] "a" Outcome.pass (by decide)

/-- C7: for a requested test id whose descriptor fails to load, node
construction records the UNTESTED result with cause "Could not load
test." immediately (it is in the stream as soon as createNodes returns,
and it is the only TEST result for that id -- in particular the load is
not retried, which would add a second one), and excludes the id from the
descriptor dictionary, the pending list and the ready list; moreover,
however _RunTests ends, the id was never dispatched to any target and
still carries exactly that one result. -/
theorem C7_load_failure_untested (env : Env) (ts : List TargetSpec)
    (testIds : List String) (i : String) (hids : testIds.Nodup)
    (hts : (ts.map TargetSpec.name).Nodup)
    (hmem : i ∈ testIds) (hfail : env.getTest i = none) :
    (loadFailureResult i).outcome = Outcome.untested
    ∧ (loadFailureResult i).cause = some "Could not load test."
    ∧ i ∉ keysOf (createNodes env ts testIds (initState ts)).descriptors
    ∧ i ∉ (createNodes env ts testIds (initState ts)).pending
    ∧ i ∉ (createNodes env ts testIds (initState ts)).ready
    ∧ loadFailureResult i ∈ (createNodes env ts testIds (initState ts)).stream
    ∧ (createNodes env ts testIds (initState ts)).stream.countP
        (fun r => decide (r.kind = RKind.TEST ∧ r.id = i)) = 1
    ∧ ∀ (fuel : Nat) (st' : EngineState) (ex : RTExit),
        runTestsModel env ts testIds fuel = (st', ex) →
        i ∉ st'.dispatched
        ∧ st'.stream.countP (fun r => decide (r.kind = RKind.TEST ∧ r.id = i)) = 1 := by
  have hB : BuildInv env ts testIds (createNodes env ts testIds (initState ts)) := by
    have hB0 := createNodes_build env ts testIds [] (initState ts)
      (initState_build env ts) hids (fun j _ => List.not_mem_nil j)
    rwa [List.nil_append] at hB0
  have hik : i ∉ keysOf (createNodes env ts testIds (initState ts)).descriptors := by
    intro hk
    have hsome := ((hB.keys_iff i).1 hk).2
    rw [hfail] at hsome
    cases hsome
  have hip : i ∉ (createNodes env ts testIds (initState ts)).pending := by
    intro hp
    exact hik ((hB.pending_iff i).1 hp)
  refine ⟨rfl, rfl, hik, hip, ?_, hB.fail_stream i hmem hfail, ?_, ?_⟩
  · rw [hB.ready_nil]
    exact List.not_mem_nil i
  · have htk := hB.tok_done i
    unfold tok at htk
    rw [if_pos hmem, hB.inFlight_nil, hB.queue_nil,
      List.count_eq_zero_of_not_mem hip] at htk
    simp only [List.countP_nil, Nat.zero_add, Nat.add_zero] at htk
    exact htk
  · intro fuel st' ex h
    have hall := runTests_all_inv env ts testIds hids hts fuel st' ex h
    have hik' : i ∉ keysOf st'.descriptors := by
      rw [hall.2]
      exact hik
    constructor
    · intro hd
      exact hik' (hall.1.disp_keys i hd)
    · exact tok_stream_only testIds ts st' i hall.1 hik' hmem

/-- Witness for C7: in a run requesting a (loadable) and zz (not
loadable), zz's load-failure result is recorded during construction, and
after _RunTests it is still the only result for zz, which was never
dispatched. -/
theorem C7_load_failure_untested_witness :
    loadFailureResult "zz" ∈ (createNodes exEnv [exTgt] ["a", "zz"] (initState [exTgt])).stream
    ∧ "zz" ∉ (runTestsModel exEnv [exTgt] ["a", "zz"] 50).1.dispatched
    ∧ (runTestsModel exEnv [exTgt] ["a", "zz"] 50).1.stream.countP
        (fun r => decide (r.kind = RKind.TEST ∧ r.id = "zz")) = 1 := by
  have H := C7_load_failure_untested exEnv [exTgt] ["a", "zz"] "zz" (by decide)
    (by decide) (by decide) (by decide)
  have H8 := H.2.2.2.2.2.2.2 50 (runTestsModel exEnv [exTgt] ["a", "zz"] 50).1
    (runTestsModel exEnv [exTgt] ["a", "zz"] 50).2 rfl
  exact ⟨H.2.2.2.2.2.1, H8.1, H8.2⟩

/-- C9: first conjunct, whenever _RunTests returned normally or raised,
Run's finally block produces the full lifecycle trace: every target
started, then every target stopped, then every registered stream
summarized -- in that order.  Second conjunct: with distinct target
names, each target occurs in the trace with exactly one Stop event, and
each registered stream index with exactly one Summarize event.  Third
conjunct: the final non-blocking drain leaves the response queue empty
and nothing in flight before the Summarize calls.  Fourth conjunct: the
parent-side remote target's Stop sends nothing but the bare string
sentinel "Stop", closes both pipe file objects, joins its thread and
waits for the child -- and a bare string is distinguishable by type from
every tuple-shaped command. -/
theorem C9_stop_drain_summarize :
    (∀ (env : Env) (ts : List TargetSpec) (testIds : List String)
        (ns fuel : Nat) (st3 : EngineState) (ex : RTExit),
      runTestsModel env ts testIds fuel = (st3, ex) →
      ex = RTExit.normal ∨ (∃ e, ex = RTExit.raised e) →
      (RunModel env ts testIds ns fuel).events
        = ts.map (fun t => REvent.started t.name)
          ++ ts.map (fun t => REvent.stopped t.name)
          ++ (List.range ns).map REvent.summarized)
    ∧ (∀ (ts : List TargetSpec) (ns : Nat), (ts.map TargetSpec.name).Nodup →
        (∀ t ∈ ts,
          (ts.map (fun t => REvent.started t.name)
            ++ ts.map (fun t => REvent.stopped t.name)
            ++ (List.range ns).map REvent.summarized).count (REvent.stopped t.name) = 1)
        ∧ (∀ j < ns,
          (ts.map (fun t => REvent.started t.name)
            ++ ts.map (fun t => REvent.stopped t.name)
            ++ (List.range ns).map REvent.summarized).count (REvent.summarized j) = 1))
    ∧ (∀ (env : Env) (ts : List TargetSpec) (testIds : List String) (ns fuel : Nat),
        testIds.Nodup → (ts.map TargetSpec.name).Nodup →
        ∀ (st3 : EngineState) (ex : RTExit),
          runTestsModel env ts testIds fuel = (st3, ex) →
          ex = RTExit.normal ∨ (∃ e, ex = RTExit.raised e) →
          (RunModel env ts testIds ns fuel).st.queue = []
          ∧ (RunModel env ts testIds ns fuel).st.inFlight = [])
    ∧ (∀ (dumpOk : PickleValue → Bool) (v : PickleValue),
        RshEvent.sent v ∈ rshTargetStop dumpOk → v = PickleValue.str "Stop")
    ∧ (∀ dumpOk : PickleValue → Bool,
        RshEvent.closedWriteFile ∈ rshTargetStop dumpOk
        ∧ RshEvent.closedReadFile ∈ rshTargetStop dumpOk
        ∧ RshEvent.joinedThread ∈ rshTargetStop dumpOk
        ∧ RshEvent.waitedForChild ∈ rshTargetStop dumpOk)
    ∧ (∀ (s tag i : String) (c : Nat), PickleValue.str s ≠ PickleValue.cmd tag i c) := by
  refine ⟨?_, ?_, ?_, ?_, ?_, fun s tag i c h => PickleValue.noConfusion h⟩
  · intro env ts testIds ns fuel st3 ex hRT hex
    exact (RunModel_cleanup_eq env ts testIds ns fuel st3 ex hRT hex).2.2
  · intro ts ns hts
    constructor
    · intro t ht
      rw [trace_count_stopped]
      exact List.count_eq_one_of_mem hts (List.mem_map.2 ⟨t, ht, rfl⟩)
    · intro j hj
      rw [trace_count_summarized]
      exact List.count_eq_one_of_mem (List.nodup_range ns) (List.mem_range.2 hj)
  · intro env ts testIds ns fuel hids hts st3 ex hRT hex
    have hall := runTests_all_inv env ts testIds hids hts fuel st3 ex hRT
    have hstop := stopAllTargets_inv testIds ts env st3 hall.1
    have hdr := drainAll_inv testIds ts hts env
      ((stopAllTargets env ts st3).queue.length + 1) (stopAllTargets env ts st3)
      hstop.1 hstop.2.2 (Nat.lt_succ_self _)
    rw [(RunModel_cleanup_eq env ts testIds ns fuel st3 ex hRT hex).1]
    exact ⟨hdr.2.1, hdr.2.2.1⟩
  · intro dumpOk v hm
    unfold rshTargetStop rshThreadStop at hm
    by_cases h : dumpOk (PickleValue.str "Stop") = true
    · rw [if_pos h] at hm
      have hm1 : RshEvent.sent v ∈ [RshEvent.sent (PickleValue.str "Stop"),
          RshEvent.closedWriteFile, RshEvent.closedReadFile,
          RshEvent.joinedThread, RshEvent.waitedForChild] := hm
      rcases List.mem_cons.1 hm1 with he | hm2
      · injection he with he
      rcases List.mem_cons.1 hm2 with he | hm3
      · cases he
      rcases List.mem_cons.1 hm3 with he | hm4
      · cases he
      rcases List.mem_cons.1 hm4 with he | hm5
      · cases he
      rcases List.mem_cons.1 hm5 with he | hm6
      · cases he
      cases hm6
    · rw [if_neg h] at hm
      have hm1 : RshEvent.sent v ∈ [RshEvent.closedWriteFile, RshEvent.closedReadFile,
          RshEvent.joinedThread, RshEvent.waitedForChild] := hm
      rcases List.mem_cons.1 hm1 with he | hm2
      · cases he
      rcases List.mem_cons.1 hm2 with he | hm3
      · cases he
      rcases List.mem_cons.1 hm3 with he | hm4
      · cases he
      rcases List.mem_cons.1 hm4 with he | hm5
      · cases he
      cases hm5
  · intro dumpOk
    unfold rshTargetStop rshThreadStop
    by_cases h : dumpOk (PickleValue.str "Stop") = true
    · rw [if_pos h]
      exact ⟨by decide, by decide, by decide, by decide⟩
    · rw [if_neg h]
      exact ⟨by decide, by decide, by decide, by decide⟩

/-- Witness for C9: the full lifecycle trace of the concrete single-test
run with two registered streams. -/
theorem C9_stop_drain_summarize_witness :
    (RunModel exEnv [exTgt] ["a"] 2 50).events
      = [exTgt].map (fun t => REvent.started t.name)
        ++ [exTgt].map (fun t => REvent.stopped t.name)
        ++ (List.range 2).map REvent.summarized :=
  C9_stop_drain_summarize.1 exEnv [exTgt] ["a"] 2 50
    (runTestsModel exEnv [exTgt] ["a"] 50).1
    (runTestsModel exEnv [exTgt] ["a"] 50).2 rfl (Or.inl (by decide))

/-- C10: if some loaded requested test lists a prerequisite that is not
itself a loaded requested test, then for every fuel the edge-construction
phase of _RunTests raises the KeyError (modelled as the raised exit
carrying the missing id), before the dispatch loop ever runs: nothing
was ever dispatched, and no loaded test has any result recorded -- in
particular no UNTESTED results are produced for the remaining tests.
Run's finally block still performs the full cleanup: the event trace
still stops every target and summarizes every stream. -/
theorem C10_missing_prereq_keyerror (env : Env) (ts : List TargetSpec)
    (testIds : List String) (hids : testIds.Nodup)
    (hts : (ts.map TargetSpec.name).Nodup)
    (hbad : ∃ k ∈ testIds, ∃ d, env.getTest k = some d
      ∧ ∃ pr ∈ d.prereqs, ¬ (pr.1 ∈ testIds ∧ (env.getTest pr.1).isSome = true)) :
    ∀ fuel : Nat, ∃ (st' : EngineState) (e : String),
      runTestsModel env ts testIds fuel = (st', RTExit.raised e)
      ∧ st'.dispatched = []
      ∧ (∀ i ∈ testIds, (env.getTest i).isSome = true →
          st'.stream.countP (fun r => decide (r.kind = RKind.TEST ∧ r.id = i)) = 0)
      ∧ ∀ ns, (RunModel env ts testIds ns fuel).exit = RTExit.raised e
        ∧ (RunModel env ts testIds ns fuel).events
            = ts.map (fun t => REvent.started t.name)
              ++ ts.map (fun t => REvent.stopped t.name)
              ++ (List.range ns).map REvent.summarized := by
  have hB : BuildInv env ts testIds (createNodes env ts testIds (initState ts)) := by
    have hB0 := createNodes_build env ts testIds [] (initState ts)
      (initState_build env ts) hids (fun j _ => List.not_mem_nil j)
    rwa [List.nil_append] at hB0
  have hI1 : Inv testIds ts (createNodes env ts testIds (initState ts)) :=
    BuildInv.toInv env ts testIds _ hts hB
  have hside : ∀ i ∈ (createNodes env ts testIds (initState ts)).pending,
      i ∈ keysOf (createNodes env ts testIds (initState ts)).descriptors
      ∧ i ∉ (createNodes env ts testIds (initState ts)).ready
      ∧ countOf (createNodes env ts testIds (initState ts)) i = 0 := by
    intro i hi
    refine ⟨(hB.pending_iff i).1 hi, ?_, hB.counts_zero i⟩
    rw [hB.ready_nil]
    exact List.not_mem_nil i
  have hE := createEdgesGo_inv testIds ts
    (createNodes env ts testIds (initState ts)).pending
    (createNodes env ts testIds (initState ts)) hI1 hB.pending_nodup hside hB.log_nil
  intro fuel
  rcases hce : createEdgesGo (createNodes env ts testIds (initState ts))
      (createNodes env ts testIds (initState ts)).pending with ⟨st2, oe⟩
  rcases oe with _ | e
  · exfalso
    rcases hE.2 st2 hce with ⟨_, _, _, _, _, _, g7⟩
    rcases hbad with ⟨k, hk, d, hkd, pr, hpr, hnot⟩
    have hkk : k ∈ keysOf (createNodes env ts testIds (initState ts)).descriptors :=
      (hB.keys_iff k).2 ⟨hk, by rw [hkd]; rfl⟩
    have hkp : k ∈ (createNodes env ts testIds (initState ts)).pending :=
      (hB.pending_iff k).2 hkk
    have hs := (assocFind_mem_keys k
      (createNodes env ts testIds (initState ts)).descriptors).2 hkk
    rcases ho : assocFind k (createNodes env ts testIds (initState ts)).descriptors
      with _ | dd
    · rw [ho] at hs
      cases hs
    · have hsrc := hB.desc_src k dd ho
      rw [hkd] at hsrc
      injection hsrc with hdd
      subst hdd
      have hsome := g7 k hkp d ho pr hpr
      have hprk : pr.1 ∈ keysOf (createNodes env ts testIds (initState ts)).descriptors :=
        (assocFind_mem_keys pr.1 _).1 hsome
      exact hnot ⟨((hB.keys_iff pr.1).1 hprk).1, ((hB.keys_iff pr.1).1 hprk).2⟩
  · rcases hE.1 st2 e hce with ⟨hI2, hd2, hp2, hs2, _, _⟩
    have hRT : runTestsModel env ts testIds fuel = (st2, RTExit.raised e) := by
      show (match createEdgesGo (createNodes env ts testIds (initState ts))
            (createNodes env ts testIds (initState ts)).pending with
          | (s, some e0) => (s, RTExit.raised e0)
          | (s, none) =>
            match runLoop env ts fuel s with
            | LoopOut.done s2 => (epilogue ts s2, RTExit.normal)
            | LoopOut.hung s2 => (s2, RTExit.blocked)
            | LoopOut.fuelOut s2 => (s2, RTExit.fuelOut))
          = (st2, RTExit.raised e)
      rw [hce]
    have hdisp : st2.dispatched = [] := by
      apply List.eq_nil_iff_forall_not_mem.2
      intro x hx
      have hxk := hI2.disp_keys x hx
      rw [hd2] at hxk
      have hxp : x ∈ st2.pending := by
        rw [hp2]
        exact (hB.pending_iff x).2 hxk
      exact hI2.disp_not_pending x hx hxp
    refine ⟨st2, e, hRT, hdisp, ?_, ?_⟩
    · intro i hi hsome
      have hik : i ∈ keysOf (createNodes env ts testIds (initState ts)).descriptors :=
        (hB.keys_iff i).2 ⟨hi, hsome⟩
      have hip : i ∈ (createNodes env ts testIds (initState ts)).pending :=
        (hB.pending_iff i).2 hik
      have htk := hB.tok_done i
      unfold tok at htk
      rw [if_pos hi, hB.inFlight_nil, hB.queue_nil,
        List.count_eq_one_of_mem hB.pending_nodup hip] at htk
      simp only [List.countP_nil, Nat.add_zero] at htk
      rw [hs2]
      omega
    · intro ns
      have hcl := RunModel_cleanup_eq env ts testIds ns fuel st2 (RTExit.raised e)
        hRT (Or.inr ⟨e, rfl⟩)
      exact ⟨hcl.2.1, hcl.2.2⟩

/-- Witness for C10: the run requesting only test a, whose descriptor
lists the unloadable prerequisite zz, raises with nothing dispatched and
no result for a, while Run still emits the full cleanup trace. -/
theorem C10_missing_prereq_keyerror_witness :
    ∃ (st' : EngineState) (e : String),
      runTestsModel exEnvMissing [exTgt] ["a"] 7 = (st', RTExit.raised e)
      ∧ st'.dispatched = []
      ∧ (∀ i ∈ ["a"], (exEnvMissing.getTest i).isSome = true →
          st'.stream.countP (fun r => decide (r.kind = RKind.TEST ∧ r.id = i)) = 0)
      ∧ ∀ ns, (RunModel exEnvMissing [exTgt] ["a"] ns 7).exit = RTExit.raised e
        ∧ (RunModel exEnvMissing [exTgt] ["a"] ns 7).events
            = [exTgt].map (fun t => REvent.started t.name)
              ++ [exTgt].map (fun t => REvent.stopped t.name)
              ++ (List.range ns).map REvent.summarized :=
  C10_missing_prereq_keyerror exEnvMissing [exTgt] ["a"] (by decide) (by decide)
    ⟨"a", by decide,
      { id := "a", prereqs := [("zz", Outcome.pass)], targetGroup := "g" },
      by decide, ("zz", Outcome.pass), by decide, by decide⟩ 7

end QMTest
